import Mathlib

/-!
# Verification of the red-black tree engine in `rbt.c`

This file gives a shallow embedding of the red-black tree implementation of
`src/rbt.c` / `src/rbt.h` (a balanced ordered index over capacity-keyed
blocks with duplicate buckets chained on `next`), and proves or refutes the
frozen claims about it.

Modelling conventions:
* A C `RBT` pointer value is one of: `NULL` (`Tree.leaf`, the shared BLACK
  leaf), the sentinel `DOUBLE_BLACK_PTR` (`Tree.dbleaf`), or a pointer to a
  node (`Tree.node`).  Exclusive ownership of `left`/`right`/`next` means a
  node is faithfully modelled as an inductive tree.
* Pointer identity is modelled by the `id` field: distinct live C nodes have
  distinct addresses, so well-formed trees carry pairwise distinct `id`s and
  pointer comparison (`node == target`) becomes `id` comparison.
* `capacity` and `prev_dist` are 30-bit bitfields: a store truncates
  (`% 2 ^ 30`).  The only stores are in `RBT_add_inner`, which is where the
  truncation is applied.  Comparisons in the descent use the full
  `unsigned int` argument, exactly as the C does.
* Calls whose C counterpart would dereference `NULL` or the double-black
  sentinel (undefined behaviour, unreachable in valid executions) are given
  harmless total default branches; every theorem operates under hypotheses
  that keep those branches unreachable.
* Out-parameters (`RBT *removed`) become an extra `Option Tree` result
  component, `none` standing for a stored `NULL`.
-/

set_option maxHeartbeats 1000000

namespace RbtC

/-- The 2-bit `color` field.  `RED` and `BLACK` are from `rbt.h`;
`DOUBLE_BLACK` is the transient deletion color from `rbt.c`. -/
inductive RBc where
  | RED : RBc
  | BLACK : RBc
  | DOUBLE_BLACK : RBc
deriving DecidableEq, Repr

open RBc

/-- The `struct RBT` node graph.  `leaf` is the `NULL` / `BLACK_LEAF`
pointer, `dbleaf` is the `DOUBLE_BLACK_PTR` sentinel, and `node` carries the
fields of `struct RBT` plus `id`, the address of the node (pointer
identity). -/
inductive Tree where
  | leaf : Tree
  | dbleaf : Tree
  | node (left right next : Tree) (capacity prev_dist : Nat)
      (in_use : Bool) (color : RBc) (id : Nat) : Tree
deriving DecidableEq, Repr

open Tree

/-- Width of the `capacity`/`prev_dist` bitfields: 30 bits. -/
def FIELD_MOD : Nat := 2 ^ 30

/-- Total node count, used as a termination measure. -/
def tsize : Tree → Nat
  | leaf => 1
  | dbleaf => 1
  | node l r nx _ _ _ _ _ => tsize l + tsize r + tsize nx + 1

/-- Models `t != BLACK_LEAF && t->color == RED` (a test the C performs on child
pointers; never applied to the double-black sentinel in valid runs). -/
def isRed : Tree → Bool
  | node _ _ _ _ _ _ RED _ => true
  | _ => false

/-- Models `t == DOUBLE_BLACK_PTR || (t != BLACK_LEAF && t->color == DOUBLE_BLACK)`:
the test `RBT_propagate_double_blackness` uses to recognise a doubly-black
child. -/
def isDB : Tree → Bool
  | dbleaf => true
  | node _ _ _ _ _ _ DOUBLE_BLACK _ => true
  | _ => false

/-- In-place recoloring (`t->color = c`); identity on the two leaf values,
which have no color field. -/
def setColor : Tree → RBc → Tree
  | leaf, _ => leaf
  | dbleaf, _ => dbleaf
  | node l r nx cap pd iu _ id, c => node l r nx cap pd iu c id

/-! ## Height queries (`RBT_height`, `RBT_black_height`) -/

/-- Function `RBT_height` from `rbt.c` (lines 34-47): length of the longest path from
the root to any non-leaf node. -/
def RBT_height : Tree → Nat
  | leaf => 0
  | dbleaf => 0
  | node l r _ _ _ _ _ _ =>
    if l = leaf ∧ r = leaf then 0
    else max (1 + RBT_height l) (1 + RBT_height r)

/-- Function `RBT_black_height` from `rbt.c` (lines 49-60): walks the left spine,
counting BLACK non-NULL nodes, and counts the terminating `NULL` leaf as 1. -/
def RBT_black_height : Tree → Nat
  | leaf => 0
  | dbleaf => 0
  | node l _ _ _ _ _ _ _ =>
    if l = leaf then 1
    else match l with
      | node _ _ _ _ _ _ BLACK _ => 1 + RBT_black_height l
      | _ => RBT_black_height l

/-! ## Insertion (`RBT_eliminate_red_red`, `RBT_add_inner`, `RBT_add`) -/

/-- The second half of `RBT_eliminate_red_red` (`rbt.c` lines 211-248),
reached when the left side exhibits no child/grandchild red-red violation:
the symmetric right-side cases. -/
def eliminateRight (l r nx : Tree) (cap pd : Nat) (iu : Bool) (col : RBc)
    (id : Nat) : Tree :=
  if isRed r then
    match r with
    | node rl rr rnx rcap rpd riu _ rid =>
      if isRed rl then
        if isRed l then
          node (setColor l BLACK) (setColor r BLACK) nx cap pd iu RED id
        else
          match rl with
          | node rll rlr rlnx rlcap rlpd rliu _ rlid =>
            node (node l rll nx cap pd iu RED id)
              (node rlr rr rnx rcap rpd riu RED rid) rlnx rlcap rlpd rliu
              BLACK rlid
          | _ => node l r nx cap pd iu col id
      else if isRed rr then
        if isRed l then
          node (setColor l BLACK) (setColor r BLACK) nx cap pd iu RED id
        else
          node (node l rl nx cap pd iu RED id) rr rnx rcap rpd riu BLACK rid
      else
        node l r nx cap pd iu col id
    | _ => node l r nx cap pd iu col id
  else
    node l r nx cap pd iu col id

/-- Function `RBT_eliminate_red_red` from `rbt.c` (lines 172-249): eliminates the
first red-red violation found between a child and grandchild of `root`.
Direct transliteration of the four rotation/recolor cases. -/
def RBT_eliminate_red_red : Tree → Tree
  | leaf => leaf
  | dbleaf => dbleaf
  | node l r nx cap pd iu col id =>
    if isRed l then
      match l with
      | node ll lr lnx lcap lpd liu _ lid =>
        if isRed ll then
          if isRed r then
            -- case 1 : RED uncle -> recolor
            node (setColor l BLACK) (setColor r BLACK) nx cap pd iu RED id
          else
            -- case 2 : BLACK uncle -> rotate & recolor
            node ll (node lr r nx cap pd iu RED id) lnx lcap lpd liu BLACK lid
        else if isRed lr then
          if isRed r then
            node (setColor l BLACK) (setColor r BLACK) nx cap pd iu RED id
          else
            match lr with
            | node lrl lrr lrnx lrcap lrpd lriu _ lrid =>
              node (node ll lrl lnx lcap lpd liu RED lid)
                (node lrr r nx cap pd iu RED id) lrnx lrcap lrpd lriu BLACK lrid
            | _ => node l r nx cap pd iu col id
        else
          eliminateRight l r nx cap pd iu col id
      | _ => node l r nx cap pd iu col id
    else
      eliminateRight l r nx cap pd iu col id

/-- Function `RBT_add_inner` from `rbt.c` (lines 252-288).  The fresh node storage is
identified by `nid`; all of its fields are initialized here, the bitfield
stores truncating to 30 bits.  For an existing capacity the new node is
spliced onto the front of the bucket list; otherwise the insertion descends
and repairs red-red violations on the way back up. -/
def RBT_add_inner (t : Tree) (nid : Nat) (capacity : Nat) : Tree :=
  match t with
  | leaf => node leaf leaf leaf (capacity % FIELD_MOD) 0 false BLACK nid
  | dbleaf => node leaf leaf leaf (capacity % FIELD_MOD) 0 false BLACK nid
  | node l r nx cap pd iu col id =>
    if capacity = cap then
      node l r (node leaf leaf nx (capacity % FIELD_MOD) 0 false BLACK nid)
        cap pd iu col id
    else if capacity < cap then
      let newLeft := RBT_add_inner l nid capacity
      let newLeft := if l = leaf then setColor newLeft RED else newLeft
      RBT_eliminate_red_red (node newLeft r nx cap pd iu col id)
    else
      let newRight := RBT_add_inner r nid capacity
      let newRight := if r = leaf then setColor newRight RED else newRight
      RBT_eliminate_red_red (node l newRight nx cap pd iu col id)

/-- Function `RBT_add` from `rbt.c` (lines 290-306) with a non-NULL `node` argument
(for `node == NULL` the C returns `root` unchanged): insert and force the
root BLACK. -/
def RBT_add (t : Tree) (nid : Nat) (capacity : Nat) : Tree :=
  setColor (RBT_add_inner t nid capacity) BLACK

/-! ## Removal (`rbt.c` lines 345-744) -/

/-- The `left` deficient branch of `RBT_propagate_double_blackness`
(`rbt.c` lines 360-411), called when `isDB l` holds.  The C's Case C
recursion `right->left = RBT_propagate_double_blackness(root)` re-enters
the function with the same (untouched, still doubly-black) left child, so
it lands back in this branch: the recursion is therefore structural on the
sibling. -/
def propagateLeftDB (l : Tree) (r nx : Tree) (cap pd : Nat) (iu : Bool)
    (col : RBc) (id : Nat) : Tree :=
  match r with
  | node rl rr rnx rcap rpd riu RED rid =>
    -- Case C: rotate & recolor, then recurse into the relocated deficient
    -- subtree (right->left = propagate(root)).
    node (propagateLeftDB l rl nx cap pd iu RED id)
      rr rnx rcap rpd riu BLACK rid
  | node rl rr rnx rcap rpd riu rcol rid =>
    -- blacken the doubly-black node
    let l' := if l = dbleaf then leaf else setColor l BLACK
    match rl with
    | node rll rlr rlnx rlcap rlpd rliu RED rlid =>
      -- Case A: rotate & recolor (near nephew)
      node (node l' rll nx cap pd iu BLACK id)
        (node rlr rr rnx rcap rpd riu rcol rid)
        rlnx rlcap rlpd rliu col rlid
    | _ =>
      if isRed rr then
        -- Case A: rotate & recolor (far nephew)
        node (node l' rl nx cap pd iu BLACK id) (setColor rr BLACK)
          rnx rcap rpd riu col rid
      else
        -- Case B: propagate blackness upward
        node l' (node rl rr rnx rcap rpd riu RED rid) nx cap pd iu
          (if col = BLACK then DOUBLE_BLACK else BLACK) id
  | _ => node l r nx cap pd iu col id

/-- The `right` deficient branch of `RBT_propagate_double_blackness`
(`rbt.c` lines 412-463), called when `isDB r` holds; symmetric to
`propagateLeftDB`, with the Case C recursion structural on the left
sibling. -/
def propagateRightDB (l r nx : Tree) (cap pd : Nat) (iu : Bool)
    (col : RBc) (id : Nat) : Tree :=
  match l with
  | node ll lr lnx lcap lpd liu RED lid =>
    -- Case C: rotate & recolor, then recurse
    node ll (propagateRightDB lr r nx cap pd iu RED id)
      lnx lcap lpd liu BLACK lid
  | node ll lr lnx lcap lpd liu lcol lid =>
    -- blacken the doubly-black node
    let r' := if r = dbleaf then leaf else setColor r BLACK
    match lr with
    | node lrl lrr lrnx lrcap lrpd lriu RED lrid =>
      -- Case A: rotate & recolor (near nephew)
      node (node ll lrl lnx lcap lpd liu lcol lid)
        (node lrr r' nx cap pd iu BLACK id)
        lrnx lrcap lrpd lriu col lrid
    | _ =>
      if isRed ll then
        -- Case A: rotate & recolor (far nephew)
        node (setColor ll BLACK) (node lr r' nx cap pd iu BLACK id)
          lnx lcap lpd liu col lid
      else
        -- Case B: propagate blackness upward
        node (node ll lr lnx lcap lpd liu RED lid) r' nx cap pd iu
          (if col = BLACK then DOUBLE_BLACK else BLACK) id
  | _ => node l r nx cap pd iu col id

/-- Function `RBT_propagate_double_blackness` from `rbt.c` (lines 354-465): resolves
or re-hoists a doubly-black child of `root`.  The dispatch on which child
is doubly-black is the C's two `if` tests; the branch bodies (including the
Case C self-calls, which always re-enter the same branch) live in
`propagateLeftDB` / `propagateRightDB`. -/
def RBT_propagate_double_blackness (root : Tree) : Tree :=
  match root with
  | leaf => leaf
  | dbleaf => dbleaf
  | node l r nx cap pd iu col id =>
    if isDB l then propagateLeftDB l r nx cap pd iu col id
    else if isDB r then propagateRightDB l r nx cap pd iu col id
    else node l r nx cap pd iu col id

/-- Function `RBT_propagate_double_blackness_prevswap` from `rbt.c` (lines 474-480):
walks `current->left` down to the node `prevswap` (pointer equality, modelled
as `id` equality) and applies the double-black repair bottom-up along that
spine.  The C assumes `current` is never NULL; leaf values are returned
unchanged. -/
def RBT_propagate_double_blackness_prevswap (pid : Nat) : Tree → Tree
  | leaf => leaf
  | dbleaf => dbleaf
  | node l r nx cap pd iu col id =>
    if id = pid then
      RBT_propagate_double_blackness (node l r nx cap pd iu col id)
    else
      RBT_propagate_double_blackness
        (node (RBT_propagate_double_blackness_prevswap pid l)
          r nx cap pd iu col id)

/-- The blackening applied to the child that replaces a removed BLACK node
(`rbt.c` lines 540-549 and 565-575): `NULL` becomes the double-black
sentinel, a RED node becomes BLACK, a BLACK node becomes DOUBLE_BLACK. -/
def RBT_blacken_child : Tree → Tree
  | leaf => dbleaf
  | dbleaf => dbleaf
  | node l r nx cap pd iu col id =>
    if col = RED then node l r nx cap pd iu BLACK id
    else node l r nx cap pd iu DOUBLE_BLACK id

/-- The `while (swap->left != NULL)` walk of `RBT_remove_empty_root`
(`rbt.c` lines 533, 555-575) together with the post-loop splice
`prevswap->left = swap->right` and the conditional blackening of that new
child.  Given the right subtree (whose `left` is a node), it returns the
subtree with the successor detached, the detached successor node `swap`,
and the `id` of `prevswap` (the successor's parent). -/
def RBT_find_swap : Tree → Tree × Tree × Nat
  | node l r nx cap pd iu col id =>
    (match l with
     | node leaf lr lnx lcap lpd liu lcol lid =>
       -- the loop test `swap->left != NULL` fails: swap = l, prevswap = this
       -- node; prevswap->left = swap->right, blackened when swap was BLACK
       let newLeft := if lcol = BLACK then RBT_blacken_child lr else lr
       (node newLeft r nx cap pd iu col id,
        node leaf lr lnx lcap lpd liu lcol lid, id)
     | node ll lr lnx lcap lpd liu lcol lid =>
       let res := RBT_find_swap (node ll lr lnx lcap lpd liu lcol lid)
       (node res.1 r nx cap pd iu col id, res.2.1, res.2.2)
     | _ => (node l r nx cap pd iu col id, leaf, id))
  | t => (t, leaf, 0)

/-- Function `RBT_remove_empty_root` from `rbt.c` (lines 489-581): removes a root
whose bucket list is empty, returning the replacement tree and the detached
root (`*removed`, which in the C aliases `root` and therefore sees the
`left`/`right` fields nulled out by the detach). -/
def RBT_remove_empty_root (root : Tree) : Tree × Tree :=
  match root with
  | leaf => (leaf, leaf)
  | dbleaf => (dbleaf, leaf)
  | node l r nx cap pd iu col id =>
    let removed := node leaf leaf nx cap pd iu col id
    if l = leaf then
      if r = leaf then
        if col = RED then (leaf, removed) else (dbleaf, removed)
      else
        -- right is the new root
        (match r with
         | node rl rr rnx rcap rpd riu rcol rid =>
           if rcol = RED then (node rl rr rnx rcap rpd riu BLACK rid, removed)
           else (node rl rr rnx rcap rpd riu DOUBLE_BLACK rid, removed)
         | t => (t, removed))
    else if r = leaf then
      -- left is the new root
      (match l with
       | node ll lr lnx lcap lpd liu lcol lid =>
         if lcol = RED then (node ll lr lnx lcap lpd liu BLACK lid, removed)
         else (node ll lr lnx lcap lpd liu DOUBLE_BLACK lid, removed)
       | t => (t, removed))
    else
      match l, r with
      | node ll lr lnx lcap lpd liu lcol lid, node rl rr rnx rcap rpd riu rcol rid =>
        if ll = leaf ∧ lr = leaf then
          -- splice the childless left child into the root position
          (RBT_propagate_double_blackness
            (node (if lcol = BLACK then dbleaf else leaf)
              (node rl rr rnx rcap rpd riu rcol rid)
              lnx lcap lpd liu col lid), removed)
        else
          match rl with
          | leaf =>
            -- swap == NULL: prevswap (= right) replaces the root
            let prvRight := if rcol = BLACK then RBT_blacken_child rr else rr
            (RBT_propagate_double_blackness
              (node (node ll lr lnx lcap lpd liu lcol lid) prvRight
                rnx rcap rpd riu col rid), removed)
          | _ =>
            -- general case: in-order successor swap
            let res := RBT_find_swap (node rl rr rnx rcap rpd riu rcol rid)
            match res.2.1 with
            | node _ _ snx scap spd siu _ sid =>
              (RBT_propagate_double_blackness
                (node (node ll lr lnx lcap lpd liu lcol lid)
                  (RBT_propagate_double_blackness_prevswap res.2.2 res.1)
                  snx scap spd siu col sid), removed)
            | _ => (node l r nx cap pd iu col id, removed)
      | _, _ => (node l r nx cap pd iu col id, removed)

/-- Function `RBT_remove_root` from `rbt.c` (lines 589-600): pop the bucket head if
the bucket is non-empty, otherwise structurally remove the root. -/
def RBT_remove_root (root : Tree) : Tree × Option Tree :=
  match root with
  | node l r nx cap pd iu col id =>
    match nx with
    | node tl tr tnx tcap tpd tiu tcol tid =>
      -- root->next = target->next; target->next = NULL
      (node l r tnx cap pd iu col id,
       some (node tl tr leaf tcap tpd tiu tcol tid))
    | _ =>
      let res := RBT_remove_empty_root (node l r nx cap pd iu col id)
      (res.1, some res.2)
  | t => (t, none)

/-- Function `RBT_remove_at_least_inner` from `rbt.c` (lines 605-631).  When the
recursive call stores `NULL` in `*removed` it has left the subtree
untouched, so using the original `root` in the `capacity < c` fallback is
faithful to the C (which simply does not reassign `root->left`). -/
def RBT_remove_at_least_inner (root : Tree) (capacity : Nat) :
    Tree × Option Tree :=
  match root with
  | leaf => (leaf, none)
  | dbleaf => (dbleaf, none)
  | node l r nx cap pd iu col id =>
    if capacity = cap then
      RBT_remove_root (node l r nx cap pd iu col id)
    else if capacity < cap then
      let res := RBT_remove_at_least_inner l capacity
      match res.2 with
      | none => RBT_remove_root (node l r nx cap pd iu col id)
      | some d =>
        (RBT_propagate_double_blackness
          (node res.1 r nx cap pd iu col id), some d)
    else
      let res := RBT_remove_at_least_inner r capacity
      match res.2 with
      | none => (node l r nx cap pd iu col id, none)
      | some d =>
        (RBT_propagate_double_blackness
          (node l res.1 nx cap pd iu col id), some d)

/-- Function `RBT_remove_at_least` from `rbt.c` (lines 633-653) with a non-NULL
`removed` out-parameter (for `removed == NULL` the C returns `root`
untouched): remove, then collapse a double-black root to the empty tree or
force the root BLACK. -/
def RBT_remove_at_least (root : Tree) (capacity : Nat) :
    Tree × Option Tree :=
  let res := RBT_remove_at_least_inner root capacity
  match res.1 with
  | leaf => (leaf, res.2)
  | dbleaf => (leaf, res.2)
  | node l r nx cap pd iu _ id => (node l r nx cap pd iu BLACK id, res.2)

/-- The `while (target != NULL)` search of `RBT_remove_node_root`
(`rbt.c` lines 664-675) over a bucket list, unlinking the node whose
address (`id`) matches. -/
def RBT_remove_from_list (nid : Nat) : Tree → Tree × Option Tree
  | leaf => (leaf, none)
  | dbleaf => (dbleaf, none)
  | node l r nx cap pd iu col id =>
    if id = nid then (nx, some (node l r leaf cap pd iu col id))
    else
      let res := RBT_remove_from_list nid nx
      (node l r res.1 cap pd iu col id, res.2)

/-- Function `RBT_remove_node_root` from `rbt.c` (lines 662-696): remove the node
that is physically (`id`) equal to the target from this root's bucket, or
the root itself (promoting the next bucket member into the tree position
when one exists). -/
def RBT_remove_node_root (root : Tree) (nid : Nat) : Tree × Option Tree :=
  match root with
  | node l r nx cap pd iu col id =>
    if nid ≠ id then
      -- `node` can only be in `root`'s linked list
      let res := RBT_remove_from_list nid nx
      (node l r res.1 cap pd iu col id, res.2)
    else
      match nx with
      | node _ _ nnx ncap npd niu _ nnid =>
        -- replace `root` with the next bucket member
        (node l r nnx ncap npd niu col nnid,
         some (node leaf leaf leaf cap pd iu col id))
      | _ =>
        let res := RBT_remove_empty_root (node l r nx cap pd iu col id)
        (res.1, some res.2)
  | t => (t, none)

/-- Function `RBT_remove_node_inner` from `rbt.c` (lines 701-718): descend by the
target's capacity, then remove by identity at the matching tree node. -/
def RBT_remove_node_inner (root : Tree) (nid : Nat) (capacity : Nat) :
    Tree × Option Tree :=
  match root with
  | leaf => (leaf, none)
  | dbleaf => (dbleaf, none)
  | node l r nx cap pd iu col id =>
    if capacity = cap then
      RBT_remove_node_root (node l r nx cap pd iu col id) nid
    else if capacity < cap then
      let res := RBT_remove_node_inner l nid capacity
      (RBT_propagate_double_blackness
        (node res.1 r nx cap pd iu col id), res.2)
    else
      let res := RBT_remove_node_inner r nid capacity
      (RBT_propagate_double_blackness
        (node l res.1 nx cap pd iu col id), res.2)

/-- Function `RBT_remove_node` from `rbt.c` (lines 720-744) with a non-NULL `removed`
out-parameter and a non-NULL `node` handle (for `removed == NULL` the C
returns `root`; for `node == NULL` it stores `NULL` and returns `root`).
The handle is its address `nid` together with the value of its `capacity`
field, which is what `RBT_remove_node_inner(root, node, node->capacity, …)`
reads. -/
def RBT_remove_node (root : Tree) (nid : Nat) (capacity : Nat) :
    Tree × Option Tree :=
  let res := RBT_remove_node_inner root nid capacity
  match res.1 with
  | leaf => (leaf, res.2)
  | dbleaf => (leaf, res.2)
  | node l r nx cap pd iu _ id => (node l r nx cap pd iu BLACK id, res.2)

/-! ## Specification layer

Predicates stating, independently of the algorithms above, what a
well-formed tree looks like.  These are the properties the claims quantify
over: the red-black invariants checked by `RBT_rep_ok`, binary-search-tree
order, bucket shape, and distinctness of node addresses. -/

/-- Weight a color contributes to the black count of a path. -/
def cw : RBc → Nat
  | RED => 0
  | BLACK => 1
  | DOUBLE_BLACK => 2

/-- Color of the root, with the two leaf values counting as BLACK (the
convention of the C comments: leaves are by definition BLACK; the
double-black sentinel weighs 2 and is handled by `dbhb` directly). -/
def rootColor : Tree → RBc
  | leaf => BLACK
  | dbleaf => BLACK
  | node _ _ _ _ _ _ col _ => col

/-- Weighted black height: `some h` when every path from this subtree to a
leaf carries the same weighted black count `h` (counting the terminating
leaf as 1, a BLACK node as 1, a DOUBLE_BLACK node as 2, and the
double-black sentinel as 2), `none` when some two paths disagree. -/
def dbhb : Tree → Option Nat
  | leaf => some 1
  | dbleaf => some 2
  | node l r _ _ _ _ col _ =>
    match dbhb l, dbhb r with
    | some h₁, some h₂ => if h₁ = h₂ then some (h₁ + cw col) else none
    | _, _ => none

/-- No doubly-black node and no double-black sentinel anywhere among the
`left`/`right` descendants (the property `RBT_double_blackness_ok`
verifies). -/
def noDB : Tree → Bool
  | leaf => true
  | dbleaf => false
  | node l r _ _ _ _ col _ => col ≠ DOUBLE_BLACK && noDB l && noDB r

/-- The red-red invariant checked by `RBT_red_red_ok`: a RED node has no
RED child. -/
def redOk : Tree → Bool
  | leaf => true
  | dbleaf => true
  | node l r _ _ _ _ col _ =>
    (col = RED → isRed l = false ∧ isRed r = false) && redOk l && redOk r

/-- The multiset-relevant payload of one node: its address and the
`capacity`, `prev_dist`, `in_use` fields (everything except the link
fields and the color, which the engine owns). -/
abbrev Entry := Nat × Nat × Nat × Bool

/-- All entries stored in a tree: each tree node and every member of each
bucket list. -/
def entriesL : Tree → List Entry
  | leaf => []
  | dbleaf => []
  | node l r nx cap pd iu _ id =>
    (id, cap, pd, iu) :: (entriesL nx ++ entriesL l ++ entriesL r)

/-- Entries as a multiset (tree shape forgotten). -/
def entM (t : Tree) : Multiset Entry := (entriesL t : Multiset Entry)

/-- All node addresses in a tree, buckets included. -/
def idsL (t : Tree) : List Nat := (entriesL t).map (·.1)

/-- All stored capacities, buckets included. -/
def capsL (t : Tree) : List Nat := (entriesL t).map (·.2.1)

/-- Shape of one bucket list hanging off a tree node with capacity `cap`:
every member is childless, stores the same capacity, and chains on. -/
def chainOk (cap : Nat) : Tree → Bool
  | leaf => true
  | dbleaf => false
  | node l r nx c _ _ _ _ => l = leaf && r = leaf && c = cap && chainOk cap nx

/-- Every tree node's bucket list is well-shaped.  (The two leaf values
carry no bucket; the double-black sentinel can occur transiently inside a
deletion and is excluded separately by `noDB`.) -/
def bucketsOk : Tree → Bool
  | leaf => true
  | dbleaf => true
  | node l r nx cap _ _ _ _ => chainOk cap nx && bucketsOk l && bucketsOk r

/-- Every stored capacity fits the 30-bit `capacity` bitfield.  In the C
this is a physical fact of the struct layout; in the model it is the
invariant that every stored field was written through the truncating
store. -/
def capsB (t : Tree) : Bool := (capsL t).all (fun c => decide (c < FIELD_MOD))

/-- Binary-search-tree order on the stored capacities of tree nodes,
expressed with optional strict bounds. -/
def bstB (lo : Option Nat) : Tree → Option Nat → Bool
  | leaf, _ => true
  | dbleaf, _ => true
  | node l r _ cap _ _ _ _, hi =>
    (match lo with | none => true | some a => a < cap) &&
    (match hi with | none => true | some b => cap < b) &&
    bstB lo l (some cap) && bstB (some cap) r hi

/-- A structurally valid red-black subtree: free of double-black state,
satisfying the red-red rule, and with equal weighted black height on every
path.  (The root may be RED: this is the invariant of interior subtrees.) -/
def validSub (t : Tree) : Prop :=
  noDB t = true ∧ redOk t = true ∧ (dbhb t).isSome = true

/-- Full well-formedness of a tree handed to or returned by the public API:
valid red-black subtree, BLACK (or absent) root, search order, well-shaped
buckets, and pairwise distinct addresses. -/
def WF (t : Tree) : Prop :=
  validSub t ∧ (t = leaf ∨ rootColor t = BLACK) ∧
    bstB none t none = true ∧ bucketsOk t = true ∧ (idsL t).Nodup

/-- The weighted black count of every root-to-leaf path, one list element
per path, computed independently of `dbhb` (used to state what
"every path has the same number of BLACK nodes" means). -/
def pathCounts : Tree → List Nat
  | leaf => [1]
  | dbleaf => [2]
  | node l r _ _ _ _ col _ =>
    (pathCounts l ++ pathCounts r).map (· + cw col)

/-- Left child accessor (`t->left`; identity on leaves, never used there). -/
def tleft : Tree → Tree
  | node l _ _ _ _ _ _ _ => l
  | t => t

/-- Right child accessor (`t->right`). -/
def tright : Tree → Tree
  | node _ r _ _ _ _ _ _ => r
  | t => t

/-- Bucket list accessor (`t->next`). -/
def tnext : Tree → Tree
  | node _ _ nx _ _ _ _ _ => nx
  | t => t

/-- Stored capacity accessor (`t->capacity`; 0 on leaves, never used there). -/
def tcap : Tree → Nat
  | node _ _ _ cap _ _ _ _ => cap
  | _ => 0

/-- Address accessor (0 on leaves, never used there). -/
def tid : Tree → Nat
  | node _ _ _ _ _ _ _ id => id
  | _ => 0

/-- The capacities of the tree nodes only (bucket members excluded). -/
def treeCaps : Tree → List Nat
  | leaf => []
  | dbleaf => []
  | node l r _ cap _ _ _ _ => cap :: (treeCaps l ++ treeCaps r)

/-- The in-order first (leftmost) node of a tree: the node the successor
walk of `RBT_remove_empty_root` seeks in the right subtree. -/
def leftmost : Tree → Tree
  | node leaf r nx cap pd iu col id => node leaf r nx cap pd iu col id
  | node l _ _ _ _ _ _ _ => leftmost l
  | t => t

/-- The address of the parent of the leftmost node (meaningful when the
left child is a node; `dflt` is returned for the shallow shapes the walk
never visits). -/
def leftmostParentId (dflt : Nat) : Tree → Nat
  | node (node leaf _ _ _ _ _ _ _) _ _ _ _ _ _ id => id
  | node (node ll lr lnx lcap lpd liu lcol lid) _ _ _ _ _ _ id =>
    leftmostParentId id (node ll lr lnx lcap lpd liu lcol lid)
  | _ => dflt

/-- The spec's splice of the successor out of its original location:
replace the leftmost node by its right subtree, applying the
no-child/one-child blackening to the hole when the departing node was
BLACK. -/
def removeLeftmost : Tree → Tree
  | node (node leaf lr _ _ _ _ lcol _) r nx cap pd iu col id =>
      node (if lcol = BLACK then RBT_blacken_child lr else lr)
        r nx cap pd iu col id
  | node (node ll lr lnx lcap lpd liu lcol lid) r nx cap pd iu col id =>
      node (removeLeftmost (node ll lr lnx lcap lpd liu lcol lid))
        r nx cap pd iu col id
  | t => t

/-- Insert the same capacity `c` into the empty tree `k` times (addresses
1, 2, …, k), the scenario of the duplicate-compaction claim. -/
def RBT_add_times (k c : Nat) : Tree :=
  (List.range k).foldl (fun t i => RBT_add t (i + 1) c) Tree.leaf

/-- A bucket list carrying capacity `c` with the given addresses. -/
def chainIds (c : Nat) : List Nat → Tree
  | [] => leaf
  | i :: is => node leaf leaf (chainIds c is) c 0 false BLACK i

/-- The tree grown by inserting the character codes of `A,L,G,O,R,I,T,H,M`
in that order (addresses 1-9), the concrete scenario of
`rbt_insertion_test_2`. -/
def algorithmTree : Tree :=
  RBT_add (RBT_add (RBT_add (RBT_add (RBT_add (RBT_add (RBT_add (RBT_add
    (RBT_add Tree.leaf 1 65) 2 76) 3 71) 4 79) 5 82) 6 73) 7 84) 8 72) 9 77

/-- The three-node tree with root capacity 10 and RED children 5 and 15
(addresses 1, 2, 3), used to exercise the two-children removal case. -/
def twoChildTree : Tree :=
  RBT_add (RBT_add (RBT_add Tree.leaf 1 10) 2 5) 3 15

/-- A black root 10 with RED left child 5 (addresses 1, 2): a starting tree
on which an insertion triggers a rotation. -/
def slantTree : Tree :=
  RBT_add (RBT_add Tree.leaf 1 10) 2 5

/-- Double-black freedom below the root: the root itself may be the
double-black sentinel or carry `DOUBLE_BLACK`, but no deeper node may.
This is the state a subtree is allowed to be in while a deletion unwinds:
the deficiency, when present, sits at the root only. -/
def almostNoDB : Tree → Bool
  | leaf => true
  | dbleaf => true
  | node l r _ _ _ _ _ _ => noDB l && noDB r

/-- The transient shape `RBT_add_inner` may leave at the top of a
RED-rooted subtree: below the root everything is already valid, the root
is RED, and at most one child is RED; the caller's
`RBT_eliminate_red_red` resolves exactly this child/grandchild
violation. -/
def insV (t : Tree) : Prop :=
  ∃ a b nx cap pd iu id, t = node a b nx cap pd iu RED id ∧
    redOk a = true ∧ redOk b = true ∧
    (isRed a = false ∨ isRed b = false)

/-- One public mutating operation of the engine (`RBT_add`,
`RBT_remove_at_least`, `RBT_remove_node`). -/
inductive Op where
  | add (nid cap : Nat)
  | removeAtLeast (cap : Nat)
  | removeNode (nid cap : Nat)
deriving DecidableEq, Repr

/-- Run one operation, keeping the returned root (removed nodes are handed
to the caller). -/
def applyOp (t : Tree) : Op → Tree
  | Op.add nid cap => RBT_add t nid cap
  | Op.removeAtLeast cap => (RBT_remove_at_least t cap).1
  | Op.removeNode nid cap => (RBT_remove_node t nid cap).1

/-- Run a sequence of operations from a starting tree. -/
def runOps (t : Tree) : List Op → Tree
  | [] => t
  | op :: ops => runOps (applyOp t op) ops

/-- Admissibility of a call sequence against the C calling convention:
every inserted node is freshly allocated, so its address is not already
stored in the tree.  (Removal handles are unconstrained.) -/
def admissible (t : Tree) : List Op → Bool
  | [] => true
  | op :: ops =>
    (match op with
     | Op.add nid _ => decide (nid ∉ idsL t)
     | _ => true) && admissible (applyOp t op) ops

/-! ## Theorems

First the generic lemma layer, then one theorem (plus counterexample and
witness where applicable) per claim. -/

/-- When the weighted black height is defined, every root-to-leaf path
carries exactly that count. -/
theorem pathCounts_eq_of_dbhb (t : Tree) :
    ∀ h, dbhb t = some h → ∀ c ∈ pathCounts t, c = h := by
  induction t with
  | leaf => intro h hb; simp [dbhb] at hb; simp [pathCounts, hb]
  | dbleaf => intro h hb; simp [dbhb] at hb; simp [pathCounts, hb]
  | node l r nx cap pd iu col id ihl ihr _ =>
    intro h hb
    rw [dbhb] at hb
    cases hl : dbhb l with
    | none => rw [hl] at hb; simp at hb
    | some a =>
      cases hr : dbhb r with
      | none => rw [hl, hr] at hb; simp at hb
      | some b =>
        rw [hl, hr] at hb
        simp only at hb
        split at hb
        · next hab =>
          cases hb
          subst hab
          intro c hc
          simp only [pathCounts, List.mem_map, List.mem_append] at hc
          obtain ⟨x, hx | hx, rfl⟩ := hc
          · rw [ihl a hl x hx]
          · rw [ihr a hr x hx]
        · cases hb

/-- The left-spine count computed by `RBT_black_height`, adjusted by the
root's own color weight, equals the uniform weighted black height. -/
theorem black_height_eq_of_dbhb (t : Tree) :
    ∀ h, noDB t = true → dbhb t = some h →
      RBT_black_height t + cw (rootColor t) = h := by
  induction t with
  | leaf => intro h _ hb; simp [dbhb] at hb; simp [RBT_black_height, rootColor, cw, hb]
  | dbleaf => intro h hn _; simp [noDB] at hn
  | node l r nx cap pd iu col id ihl _ _ =>
    intro h hn hb
    rw [dbhb] at hb
    cases hl : dbhb l with
    | none => rw [hl] at hb; simp at hb
    | some a =>
      cases hr : dbhb r with
      | none => rw [hl, hr] at hb; simp at hb
      | some b =>
        rw [hl, hr] at hb
        simp only at hb
        split at hb
        · next hab =>
          cases hb
          simp only [noDB, Bool.and_eq_true, decide_eq_true_eq] at hn
          cases l with
          | leaf =>
            simp [dbhb] at hl
            simp [RBT_black_height, rootColor, hl]
          | dbleaf => simp [noDB] at hn
          | node u v w x y z lcol g =>
            have hrec := ihl a hn.1.2 hl
            cases lcol with
            | RED =>
              simp [RBT_black_height, rootColor, cw] at hrec ⊢
              omega
            | BLACK =>
              simp [RBT_black_height, rootColor, cw] at hrec ⊢
              omega
            | DOUBLE_BLACK => simp [noDB] at hn
        · cases hb

theorem entM_leaf : entM leaf = 0 := rfl

theorem entM_dbleaf : entM dbleaf = 0 := rfl

theorem entM_node (l r nx : Tree) (cap pd : Nat) (iu : Bool) (col : RBc)
    (id : Nat) :
    entM (node l r nx cap pd iu col id) =
      {(id, cap, pd, iu)} + entM nx + entM l + entM r := by
  simp only [entM, entriesL]
  rfl

/-- Recoloring does not change the stored entries. -/
theorem entM_setColor (t : Tree) (c : RBc) : entM (setColor t c) = entM t := by
  cases t <;> simp [setColor, entM_node, entM_leaf, entM_dbleaf]

theorem dbhb_node_intro {l r : Tree} {a : Nat} (nx : Tree) (cap pd : Nat)
    (iu : Bool) (col : RBc) (id : Nat)
    (hl : dbhb l = some a) (hr : dbhb r = some a) :
    dbhb (node l r nx cap pd iu col id) = some (a + cw col) := by
  rw [dbhb, hl, hr]
  simp

theorem dbhb_node_elim {l r nx : Tree} {cap pd : Nat} {iu : Bool} {col : RBc}
    {id : Nat} {H : Nat}
    (h : dbhb (node l r nx cap pd iu col id) = some H) :
    ∃ a, dbhb l = some a ∧ dbhb r = some a ∧ H = a + cw col := by
  rw [dbhb] at h
  cases hl : dbhb l with
  | none => rw [hl] at h; simp at h
  | some a =>
    cases hr : dbhb r with
    | none => rw [hl, hr] at h; simp at h
    | some b =>
      rw [hl, hr] at h
      simp only at h
      split at h
      · next hab => cases h; exact ⟨a, rfl, by rw [hab], rfl⟩
      · cases h

/-- A tree that is double-black free below the root and not double-black at
the root is double-black free. -/
theorem noDB_of_almost {t : Tree} (h₁ : almostNoDB t = true)
    (h₂ : isDB t = false) : noDB t = true := by
  cases t with
  | leaf => rfl
  | dbleaf => simp [isDB] at h₂
  | node l r nx cap pd iu col id =>
    simp only [almostNoDB, Bool.and_eq_true] at h₁
    cases col <;> simp_all [isDB, noDB]

theorem almostNoDB_of_noDB {t : Tree} (h : noDB t = true) :
    almostNoDB t = true := by
  cases t <;> simp_all [noDB, almostNoDB]

theorem isDB_false_of_noDB {t : Tree} (h : noDB t = true) : isDB t = false := by
  cases t with
  | leaf => rfl
  | dbleaf => simp [noDB] at h
  | node l r nx cap pd iu col id => cases col <;> simp_all [noDB, isDB]

/-- A doubly-black tree weighs at least 2. -/
theorem dbhb_ge_two_of_isDB {t : Tree} {H : Nat} (hdb : isDB t = true)
    (h : dbhb t = some H) : 2 ≤ H := by
  cases t with
  | leaf => simp [isDB] at hdb
  | dbleaf => simp [dbhb] at h; omega
  | node l r nx cap pd iu col id =>
    cases col with
    | DOUBLE_BLACK =>
      obtain ⟨a, _, _, rfl⟩ := dbhb_node_elim h
      simp [cw]
    | RED => simp [isDB] at hdb
    | BLACK => simp [isDB] at hdb

/-- Blackening the doubly-black node (`rbt.c` lines 375-379 / 428-432):
the result is a valid subtree one black unit lighter, with the same
entries and a non-RED root. -/
theorem blackenDB_spec {l : Tree} {H : Nat} (hdb : isDB l = true)
    (halm : almostNoDB l = true) (hred : redOk l = true)
    (hh : dbhb l = some H) :
    noDB (if l = dbleaf then leaf else setColor l BLACK) = true ∧
      redOk (if l = dbleaf then leaf else setColor l BLACK) = true ∧
      dbhb (if l = dbleaf then leaf else setColor l BLACK) = some (H - 1) ∧
      isRed (if l = dbleaf then leaf else setColor l BLACK) = false ∧
      entM (if l = dbleaf then leaf else setColor l BLACK) = entM l := by
  cases l with
  | leaf => simp [isDB] at hdb
  | dbleaf => simp [dbhb] at hh; simp [noDB, redOk, dbhb, isRed, entM_leaf, entM_dbleaf]; omega
  | node a b nx cap pd iu col id =>
    cases col with
    | RED => simp [isDB] at hdb
    | BLACK => simp [isDB] at hdb
    | DOUBLE_BLACK =>
      obtain ⟨x, hx1, hx2, rfl⟩ := dbhb_node_elim hh
      simp only [almostNoDB, Bool.and_eq_true] at halm
      simp only [redOk, Bool.and_eq_true] at hred
      have : (node a b nx cap pd iu DOUBLE_BLACK id) ≠ dbleaf := by simp
      rw [if_neg this]
      simp only [setColor]
      refine ⟨by simp [noDB, halm.1, halm.2], by simp [redOk, hred.1.2, hred.2], ?_, rfl, by simp [entM_node]⟩
      rw [dbhb_node_intro nx cap pd iu BLACK id hx1 hx2]
      simp [cw]

/-- Forcing a RED node BLACK: one black unit heavier, same entries, still
valid. -/
theorem setColorBlack_red_spec {t : Tree} {x : Nat} (hr : isRed t = true)
    (hn : noDB t = true) (hred : redOk t = true) (hh : dbhb t = some x) :
    noDB (setColor t BLACK) = true ∧ redOk (setColor t BLACK) = true ∧
      dbhb (setColor t BLACK) = some (x + 1) ∧
      isRed (setColor t BLACK) = false ∧
      isDB (setColor t BLACK) = false ∧
      entM (setColor t BLACK) = entM t := by
  cases t with
  | leaf => simp [isRed] at hr
  | dbleaf => simp [isRed] at hr
  | node a b nx cap pd iu col id =>
    cases col with
    | BLACK => simp [isRed] at hr
    | DOUBLE_BLACK => simp [isRed] at hr
    | RED =>
      obtain ⟨y, hy1, hy2, rfl⟩ := dbhb_node_elim hh
      simp only [noDB, redOk, Bool.and_eq_true] at hn hred
      simp only [setColor]
      refine ⟨by simp [noDB, hn.1.2, hn.2], by simp [redOk, hred.1.2, hred.2],
        ?_, rfl, rfl, by simp [entM_node]⟩
      rw [dbhb_node_intro nx cap pd iu BLACK id hy1 hy2]
      simp [cw]

theorem isRed_bnode (l r nx : Tree) (cap pd : Nat) (iu : Bool) (id : Nat) :
    isRed (node l r nx cap pd iu BLACK id) = false := rfl

theorem propagateLeft_terminal_spec
    (l' rl rr nx rnx : Tree) (cap pd rcap rpd : Nat) (iu riu : Bool)
    (col : RBc) (id rid : Nat) (a : Nat)
    (hl'n : noDB l' = true) (hl'r : redOk l' = true)
    (hl'd : dbhb l' = some a) (hl'red : isRed l' = false)
    (hrln : noDB rl = true) (hrlr : redOk rl = true)
    (hrld : dbhb rl = some a) (hrlred : isRed rl = false)
    (hrrn : noDB rr = true) (hrrr : redOk rr = true)
    (hrrd : dbhb rr = some a)
    (hcol : col = RED ∨ col = BLACK) :
    almostNoDB (if isRed rr then
        node (node l' rl nx cap pd iu BLACK id) (setColor rr BLACK)
          rnx rcap rpd riu col rid
      else
        node l' (node rl rr rnx rcap rpd riu RED rid) nx cap pd iu
          (if col = BLACK then DOUBLE_BLACK else BLACK) id) = true ∧
    redOk (if isRed rr then
        node (node l' rl nx cap pd iu BLACK id) (setColor rr BLACK)
          rnx rcap rpd riu col rid
      else
        node l' (node rl rr rnx rcap rpd riu RED rid) nx cap pd iu
          (if col = BLACK then DOUBLE_BLACK else BLACK) id) = true ∧
    dbhb (if isRed rr then
        node (node l' rl nx cap pd iu BLACK id) (setColor rr BLACK)
          rnx rcap rpd riu col rid
      else
        node l' (node rl rr rnx rcap rpd riu RED rid) nx cap pd iu
          (if col = BLACK then DOUBLE_BLACK else BLACK) id) = some (a + 1 + cw col) ∧
    entM (if isRed rr then
        node (node l' rl nx cap pd iu BLACK id) (setColor rr BLACK)
          rnx rcap rpd riu col rid
      else
        node l' (node rl rr rnx rcap rpd riu RED rid) nx cap pd iu
          (if col = BLACK then DOUBLE_BLACK else BLACK) id) =
      {(id, cap, pd, iu)} + {(rid, rcap, rpd, riu)} + entM nx +
        entM rnx + entM l' + entM rl + entM rr ∧
    (isRed (if isRed rr then
        node (node l' rl nx cap pd iu BLACK id) (setColor rr BLACK)
          rnx rcap rpd riu col rid
      else
        node l' (node rl rr rnx rcap rpd riu RED rid) nx cap pd iu
          (if col = BLACK then DOUBLE_BLACK else BLACK) id) = true → col = RED) ∧
    (isDB (if isRed rr then
        node (node l' rl nx cap pd iu BLACK id) (setColor rr BLACK)
          rnx rcap rpd riu col rid
      else
        node l' (node rl rr rnx rcap rpd riu RED rid) nx cap pd iu
          (if col = BLACK then DOUBLE_BLACK else BLACK) id) = true → col = BLACK) := by
  by_cases hrr : isRed rr = true
  · rw [if_pos hrr]
    obtain ⟨hn', hr', hd', hired', hidb', hent'⟩ :=
      setColorBlack_red_spec hrr hrrn hrrr hrrd
    refine ⟨?_, ?_, ?_, ?_, ?_, ?_⟩
    · simp [almostNoDB, noDB, hl'n, hrln, hn']
    · -- redOk
      cases hcol with
      | inl h => subst h
                 simp [redOk, hl'r, hrlr, hr', hired', isRed_bnode]
      | inr h => subst h
                 simp [redOk, hl'r, hrlr, hr', hired', isRed_bnode]
    · have h1 : dbhb (node l' rl nx cap pd iu BLACK id) = some (a + 1) :=
        dbhb_node_intro _ _ _ _ _ _ hl'd hrld
      rw [dbhb_node_intro _ _ _ _ _ _ h1 hd']
    · rw [entM_node, entM_node, hent']
      abel
    · cases hcol with
      | inl h => simp [h]
      | inr h => subst h; simp [isRed]
    · cases hcol with
      | inl h => subst h; simp [isDB]
      | inr h => simp [h]
  · rw [if_neg hrr]
    have hrrb : isRed rr = false := by simpa using hrr
    refine ⟨?_, ?_, ?_, ?_, ?_, ?_⟩
    · simp [almostNoDB, noDB, hl'n, hrln, hrrn]
    · simp [redOk, hl'r, hrlr, hrrr, hrlred, hrrb]
      rcases hcol with h | h <;> subst h <;> simp
    · have h1 : dbhb (node rl rr rnx rcap rpd riu RED rid) = some a := by
        have := dbhb_node_intro rnx rcap rpd riu RED rid hrld hrrd
        simpa [cw] using this
      rw [dbhb_node_intro _ _ _ _ _ _ hl'd h1]
      rcases hcol with h | h <;> subst h <;> simp [cw]
    · rw [entM_node, entM_node]
      abel
    · rcases hcol with h | h <;> subst h <;> simp [isRed]
    · rcases hcol with h | h <;> subst h <;> simp [isDB]



theorem noDB_node_elim {l r nx : Tree} {cap pd : Nat} {iu : Bool} {col : RBc}
    {id : Nat} (h : noDB (node l r nx cap pd iu col id) = true) :
    col ≠ DOUBLE_BLACK ∧ noDB l = true ∧ noDB r = true := by
  simpa [noDB, and_assoc] using h

theorem redOk_node_elim {l r nx : Tree} {cap pd : Nat} {iu : Bool} {col : RBc}
    {id : Nat} (h : redOk (node l r nx cap pd iu col id) = true) :
    (col = RED → isRed l = false ∧ isRed r = false) ∧
      redOk l = true ∧ redOk r = true := by
  simp only [redOk, Bool.and_eq_true, decide_eq_true_eq] at h
  exact ⟨h.1.1, h.1.2, h.2⟩

theorem propagateLeftDB_spec (r : Tree) :
    ∀ (l nx : Tree) (cap pd : Nat) (iu : Bool) (col : RBc) (id : Nat)
      (H : Nat),
      isDB l = true → almostNoDB l = true → redOk l = true →
      dbhb l = some H →
      noDB r = true → redOk r = true → dbhb r = some H →
      (col = RED ∨ col = BLACK) →
      (col = RED → isRed r = false) →
      almostNoDB (propagateLeftDB l r nx cap pd iu col id) = true ∧
      redOk (propagateLeftDB l r nx cap pd iu col id) = true ∧
      dbhb (propagateLeftDB l r nx cap pd iu col id) = some (H + cw col) ∧
      entM (propagateLeftDB l r nx cap pd iu col id) =
        entM (node l r nx cap pd iu col id) ∧
      (isRed (propagateLeftDB l r nx cap pd iu col id) = true → col = RED) ∧
      (isDB (propagateLeftDB l r nx cap pd iu col id) = true → col = BLACK) := by
  induction r with
  | leaf =>
    intro l nx cap pd iu col id H hdbl _ _ hdl _ _ hdr _ _
    have h2 := dbhb_ge_two_of_isDB hdbl hdl
    simp [dbhb] at hdr
    omega
  | dbleaf =>
    intro l nx cap pd iu col id H _ _ _ _ hnr _ _ _ _
    simp [noDB] at hnr
  | node rl rr rnx rcap rpd riu rcol rid ihl ihr ihn =>
    intro l nx cap pd iu col id H hdbl halml hredl hdl hnr hrr hdr hcol hcr
    obtain ⟨hcolne, hnrl, hnrr⟩ := noDB_node_elim hnr
    obtain ⟨hrimp, hrrl, hrrr⟩ := redOk_node_elim hrr
    obtain ⟨a, hdrl, hdrr, hHa⟩ := dbhb_node_elim hdr
    cases rcol with
    | DOUBLE_BLACK => exact absurd rfl hcolne
    | RED =>
      -- Case C
      have hcolB : col = BLACK := by
        rcases hcol with h | h
        · exact absurd (hcr h) (by simp [isRed])
        · exact h
      subst hcolB
      have hrlred : isRed rl = false := (hrimp rfl).1
      have haH : a = H := by simp [cw] at hHa; omega
      rw [haH] at hdrl hdrr
      have IH := ihl l nx cap pd iu RED id H hdbl halml hredl hdl hnrl hrrl
        hdrl (Or.inl rfl) (fun _ => hrlred)
      obtain ⟨ih1, ih2, ih3, ih4, ih5, ih6⟩ := IH
      have hPnoDB : noDB (propagateLeftDB l rl nx cap pd iu RED id) = true := by
        apply noDB_of_almost ih1
        cases h : isDB (propagateLeftDB l rl nx cap pd iu RED id)
        · rfl
        · exact absurd (ih6 h) (by simp)
      simp only [propagateLeftDB]
      refine ⟨by simp [almostNoDB, hPnoDB, hnrr], ?_, ?_, ?_, ?_, ?_⟩
      · simp [redOk, ih2, hrrr, isRed_bnode]
      · have h1 : dbhb (propagateLeftDB l rl nx cap pd iu RED id) = some H := by
          simpa [cw] using ih3
        rw [dbhb_node_intro _ _ _ _ _ _ h1 hdrr]
      · rw [entM_node, ih4]
        simp only [entM_node]
        abel
      · simp [isRed_bnode]
      · simp [isDB]
    | BLACK =>
      have hHa' : H = a + 1 := by simpa [cw] using hHa
      subst hHa'
      obtain ⟨hbn, hbr, hbd, hbred, hbe⟩ := blackenDB_spec hdbl halml hredl hdl
      have hbd' : dbhb (if l = dbleaf then leaf else setColor l BLACK) = some a := by
        simpa using hbd
      cases rl with
      | dbleaf => simp [noDB] at hnrl
      | leaf =>
        simp only [propagateLeftDB]
        have T := propagateLeft_terminal_spec
          (if l = dbleaf then leaf else setColor l BLACK) leaf rr nx rnx
          cap pd rcap rpd iu riu col id rid a hbn hbr hbd' hbred
          rfl rfl hdrl rfl hnrr hrrr hdrr hcol
        obtain ⟨t1, t2, t3, t4, t5, t6⟩ := T
        refine ⟨t1, t2, t3, ?_, t5, t6⟩
        rw [t4, hbe]
        simp only [entM_node, entM_leaf, entM_dbleaf]
        abel
      | node rll rlr rlnx rlcap rlpd rliu rlcol rlid =>
        obtain ⟨_, hnrll, hnrlr⟩ := noDB_node_elim hnrl
        obtain ⟨hrlimp, hrrll, hrrlr⟩ := redOk_node_elim hrrl
        obtain ⟨y, hdrll, hdrlr, hya⟩ := dbhb_node_elim hdrl
        cases rlcol with
        | DOUBLE_BLACK => simp [noDB] at hnrl
        | RED =>
          -- Case A, near nephew
          have hya' : a = y := by simpa [cw] using hya
          subst hya'
          have hredrll : isRed rll = false := (hrlimp rfl).1
          have hredrlr : isRed rlr = false := (hrlimp rfl).2
          simp only [propagateLeftDB]
          have h1 : dbhb (node (if l = dbleaf then leaf else setColor l BLACK)
              rll nx cap pd iu BLACK id) = some (a + 1) :=
            dbhb_node_intro _ _ _ _ _ _ hbd' hdrll
          have h2 : dbhb (node rlr rr rnx rcap rpd riu BLACK rid) = some (a + 1) :=
            dbhb_node_intro _ _ _ _ _ _ hdrlr hdrr
          refine ⟨?_, ?_, ?_, ?_, ?_, ?_⟩
          · simp [almostNoDB, noDB, hbn, hnrll, hnrlr, hnrr]
          · simp [redOk, hbr, hrrll, hrrlr, hrrr, isRed_bnode]
          · rw [dbhb_node_intro _ _ _ _ _ _ h1 h2]
          · simp only [entM_node]
            rw [hbe]
            abel
          · rcases hcol with h | h <;> subst h <;> simp [isRed]
          · rcases hcol with h | h <;> subst h <;> simp [isDB]
        | BLACK =>
          simp only [propagateLeftDB]
          have T := propagateLeft_terminal_spec
            (if l = dbleaf then leaf else setColor l BLACK)
            (node rll rlr rlnx rlcap rlpd rliu BLACK rlid) rr nx rnx
            cap pd rcap rpd iu riu col id rid a hbn hbr hbd' hbred
            hnrl hrrl hdrl (isRed_bnode _ _ _ _ _ _ _) hnrr hrrr hdrr hcol
          obtain ⟨t1, t2, t3, t4, t5, t6⟩ := T
          refine ⟨t1, t2, t3, ?_, t5, t6⟩
          rw [t4, hbe]
          simp only [entM_node, entM_leaf, entM_dbleaf]
          abel


theorem propagateRight_terminal_spec
    (r' ll lr nx lnx : Tree) (cap pd lcap lpd : Nat) (iu liu : Bool)
    (col : RBc) (id lid : Nat) (a : Nat)
    (hr'n : noDB r' = true) (hr'r : redOk r' = true)
    (hr'd : dbhb r' = some a) (hr'red : isRed r' = false)
    (hlrn : noDB lr = true) (hlrr : redOk lr = true)
    (hlrd : dbhb lr = some a) (hlrred : isRed lr = false)
    (hlln : noDB ll = true) (hllr : redOk ll = true)
    (hlld : dbhb ll = some a)
    (hcol : col = RED ∨ col = BLACK) :
    almostNoDB (if isRed ll then
        node (setColor ll BLACK) (node lr r' nx cap pd iu BLACK id)
          lnx lcap lpd liu col lid
      else
        node (node ll lr lnx lcap lpd liu RED lid) r' nx cap pd iu
          (if col = BLACK then DOUBLE_BLACK else BLACK) id) = true ∧
    redOk (if isRed ll then
        node (setColor ll BLACK) (node lr r' nx cap pd iu BLACK id)
          lnx lcap lpd liu col lid
      else
        node (node ll lr lnx lcap lpd liu RED lid) r' nx cap pd iu
          (if col = BLACK then DOUBLE_BLACK else BLACK) id) = true ∧
    dbhb (if isRed ll then
        node (setColor ll BLACK) (node lr r' nx cap pd iu BLACK id)
          lnx lcap lpd liu col lid
      else
        node (node ll lr lnx lcap lpd liu RED lid) r' nx cap pd iu
          (if col = BLACK then DOUBLE_BLACK else BLACK) id) = some (a + 1 + cw col) ∧
    entM (if isRed ll then
        node (setColor ll BLACK) (node lr r' nx cap pd iu BLACK id)
          lnx lcap lpd liu col lid
      else
        node (node ll lr lnx lcap lpd liu RED lid) r' nx cap pd iu
          (if col = BLACK then DOUBLE_BLACK else BLACK) id) =
      {(id, cap, pd, iu)} + {(lid, lcap, lpd, liu)} + entM nx +
        entM lnx + entM r' + entM lr + entM ll ∧
    (isRed (if isRed ll then
        node (setColor ll BLACK) (node lr r' nx cap pd iu BLACK id)
          lnx lcap lpd liu col lid
      else
        node (node ll lr lnx lcap lpd liu RED lid) r' nx cap pd iu
          (if col = BLACK then DOUBLE_BLACK else BLACK) id) = true → col = RED) ∧
    (isDB (if isRed ll then
        node (setColor ll BLACK) (node lr r' nx cap pd iu BLACK id)
          lnx lcap lpd liu col lid
      else
        node (node ll lr lnx lcap lpd liu RED lid) r' nx cap pd iu
          (if col = BLACK then DOUBLE_BLACK else BLACK) id) = true → col = BLACK) := by
  by_cases hll : isRed ll = true
  · rw [if_pos hll]
    obtain ⟨hn', hr', hd', hired', hidb', hent'⟩ :=
      setColorBlack_red_spec hll hlln hllr hlld
    refine ⟨?_, ?_, ?_, ?_, ?_, ?_⟩
    · simp [almostNoDB, noDB, hn', hlrn, hr'n]
    · cases hcol with
      | inl h => subst h
                 simp [redOk, hr', hlrr, hr'r, hired', isRed_bnode]
      | inr h => subst h
                 simp [redOk, hr', hlrr, hr'r, hired', isRed_bnode]
    · have h1 : dbhb (node lr r' nx cap pd iu BLACK id) = some (a + 1) :=
        dbhb_node_intro _ _ _ _ _ _ hlrd hr'd
      rw [dbhb_node_intro _ _ _ _ _ _ hd' h1]
    · rw [entM_node, entM_node, hent']
      abel
    · cases hcol with
      | inl h => simp [h]
      | inr h => subst h; simp [isRed]
    · cases hcol with
      | inl h => subst h; simp [isDB]
      | inr h => simp [h]
  · rw [if_neg hll]
    have hllb : isRed ll = false := by simpa using hll
    refine ⟨?_, ?_, ?_, ?_, ?_, ?_⟩
    · simp [almostNoDB, noDB, hr'n, hlln, hlrn]
    · simp [redOk, hr'r, hllr, hlrr, hllb, hlrred]
      rcases hcol with h | h <;> subst h <;> simp
    · have h1 : dbhb (node ll lr lnx lcap lpd liu RED lid) = some a := by
        have := dbhb_node_intro lnx lcap lpd liu RED lid hlld hlrd
        simpa [cw] using this
      rw [dbhb_node_intro _ _ _ _ _ _ h1 hr'd]
      rcases hcol with h | h <;> subst h <;> simp [cw]
    · rw [entM_node, entM_node]
      abel
    · rcases hcol with h | h <;> subst h <;> simp [isRed]
    · rcases hcol with h | h <;> subst h <;> simp [isDB]

theorem propagateRightDB_spec (l : Tree) :
    ∀ (r nx : Tree) (cap pd : Nat) (iu : Bool) (col : RBc) (id : Nat)
      (H : Nat),
      isDB r = true → almostNoDB r = true → redOk r = true →
      dbhb r = some H →
      noDB l = true → redOk l = true → dbhb l = some H →
      (col = RED ∨ col = BLACK) →
      (col = RED → isRed l = false) →
      almostNoDB (propagateRightDB l r nx cap pd iu col id) = true ∧
      redOk (propagateRightDB l r nx cap pd iu col id) = true ∧
      dbhb (propagateRightDB l r nx cap pd iu col id) = some (H + cw col) ∧
      entM (propagateRightDB l r nx cap pd iu col id) =
        entM (node l r nx cap pd iu col id) ∧
      (isRed (propagateRightDB l r nx cap pd iu col id) = true → col = RED) ∧
      (isDB (propagateRightDB l r nx cap pd iu col id) = true → col = BLACK) := by
  induction l with
  | leaf =>
    intro r nx cap pd iu col id H hdbr _ _ hdr _ _ hdl _ _
    have h2 := dbhb_ge_two_of_isDB hdbr hdr
    simp [dbhb] at hdl
    omega
  | dbleaf =>
    intro r nx cap pd iu col id H _ _ _ _ hnl _ _ _ _
    simp [noDB] at hnl
  | node ll lr lnx lcap lpd liu lcol lid ihl ihr ihn =>
    intro r nx cap pd iu col id H hdbr halmr hredr hdr hnl hrl hdl hcol hcr
    obtain ⟨hcolne, hnll, hnlr⟩ := noDB_node_elim hnl
    obtain ⟨hlimp, hrll, hrlr⟩ := redOk_node_elim hrl
    obtain ⟨a, hdll, hdlr, hHa⟩ := dbhb_node_elim hdl
    cases lcol with
    | DOUBLE_BLACK => exact absurd rfl hcolne
    | RED =>
      -- Case C
      have hcolB : col = BLACK := by
        rcases hcol with h | h
        · exact absurd (hcr h) (by simp [isRed])
        · exact h
      subst hcolB
      have hlrred : isRed lr = false := (hlimp rfl).2
      have haH : a = H := by simp [cw] at hHa; omega
      rw [haH] at hdll hdlr
      have IH := ihr r nx cap pd iu RED id H hdbr halmr hredr hdr hnlr hrlr
        hdlr (Or.inl rfl) (fun _ => hlrred)
      obtain ⟨ih1, ih2, ih3, ih4, ih5, ih6⟩ := IH
      have hPnoDB : noDB (propagateRightDB lr r nx cap pd iu RED id) = true := by
        apply noDB_of_almost ih1
        cases h : isDB (propagateRightDB lr r nx cap pd iu RED id)
        · rfl
        · exact absurd (ih6 h) (by simp)
      simp only [propagateRightDB]
      refine ⟨by simp [almostNoDB, hPnoDB, hnll], ?_, ?_, ?_, ?_, ?_⟩
      · simp [redOk, ih2, hrll, isRed_bnode]
      · have h1 : dbhb (propagateRightDB lr r nx cap pd iu RED id) = some H := by
          simpa [cw] using ih3
        rw [dbhb_node_intro _ _ _ _ _ _ hdll h1]
      · rw [entM_node, ih4]
        simp only [entM_node]
        abel
      · simp [isRed_bnode]
      · simp [isDB]
    | BLACK =>
      have hHa' : H = a + 1 := by simpa [cw] using hHa
      subst hHa'
      obtain ⟨hbn, hbr, hbd, hbred, hbe⟩ := blackenDB_spec hdbr halmr hredr hdr
      have hbd' : dbhb (if r = dbleaf then leaf else setColor r BLACK) = some a := by
        simpa using hbd
      cases lr with
      | dbleaf => simp [noDB] at hnlr
      | leaf =>
        simp only [propagateRightDB]
        have T := propagateRight_terminal_spec
          (if r = dbleaf then leaf else setColor r BLACK) ll leaf nx lnx
          cap pd lcap lpd iu liu col id lid a hbn hbr hbd' hbred
          rfl rfl hdlr rfl hnll hrll hdll hcol
        obtain ⟨t1, t2, t3, t4, t5, t6⟩ := T
        refine ⟨t1, t2, t3, ?_, t5, t6⟩
        rw [t4, hbe]
        simp only [entM_node, entM_leaf, entM_dbleaf]
        abel
      | node lrl lrr lrnx lrcap lrpd lriu lrcol lrid =>
        obtain ⟨_, hnlrl, hnlrr⟩ := noDB_node_elim hnlr
        obtain ⟨hlrimp, hrlrl, hrlrr⟩ := redOk_node_elim hrlr
        obtain ⟨y, hdlrl, hdlrr, hya⟩ := dbhb_node_elim hdlr
        cases lrcol with
        | DOUBLE_BLACK => simp [noDB] at hnlr
        | RED =>
          -- Case A, near nephew
          have hya' : a = y := by simpa [cw] using hya
          subst hya'
          have hredlrl : isRed lrl = false := (hlrimp rfl).1
          have hredlrr : isRed lrr = false := (hlrimp rfl).2
          simp only [propagateRightDB]
          have h1 : dbhb (node ll lrl lnx lcap lpd liu BLACK lid) = some (a + 1) :=
            dbhb_node_intro _ _ _ _ _ _ hdll hdlrl
          have h2 : dbhb (node lrr
              (if r = dbleaf then leaf else setColor r BLACK)
              nx cap pd iu BLACK id) = some (a + 1) :=
            dbhb_node_intro _ _ _ _ _ _ hdlrr hbd'
          refine ⟨?_, ?_, ?_, ?_, ?_, ?_⟩
          · simp [almostNoDB, noDB, hbn, hnlrl, hnlrr, hnll]
          · simp [redOk, hbr, hrlrl, hrlrr, hrll, isRed_bnode]
          · rw [dbhb_node_intro _ _ _ _ _ _ h1 h2]
          · simp only [entM_node]
            rw [hbe]
            abel
          · rcases hcol with h | h <;> subst h <;> simp [isRed]
          · rcases hcol with h | h <;> subst h <;> simp [isDB]
        | BLACK =>
          simp only [propagateRightDB]
          have T := propagateRight_terminal_spec
            (if r = dbleaf then leaf else setColor r BLACK) ll
            (node lrl lrr lrnx lrcap lrpd lriu BLACK lrid) nx lnx
            cap pd lcap lpd iu liu col id lid a hbn hbr hbd' hbred
            hnlr hrlr hdlr (isRed_bnode _ _ _ _ _ _ _) hnll hrll hdll hcol
          obtain ⟨t1, t2, t3, t4, t5, t6⟩ := T
          refine ⟨t1, t2, t3, ?_, t5, t6⟩
          rw [t4, hbe]
          simp only [entM_node, entM_leaf, entM_dbleaf]
          abel


/-- Full specification of one double-black repair step. -/
theorem propagate_spec (l r nx : Tree) (cap pd : Nat) (iu : Bool) (col : RBc)
    (id : Nat) (H : Nat)
    (hcol : col = RED ∨ col = BLACK)
    (halml : almostNoDB l = true) (hredl : redOk l = true)
    (hdl : dbhb l = some H)
    (halmr : almostNoDB r = true) (hredr : redOk r = true)
    (hdr : dbhb r = some H)
    (hone : isDB l = false ∨ isDB r = false)
    (hred : col = RED → isRed l = false ∧ isRed r = false) :
    almostNoDB (RBT_propagate_double_blackness (node l r nx cap pd iu col id)) = true ∧
    redOk (RBT_propagate_double_blackness (node l r nx cap pd iu col id)) = true ∧
    dbhb (RBT_propagate_double_blackness (node l r nx cap pd iu col id)) =
      some (H + cw col) ∧
    entM (RBT_propagate_double_blackness (node l r nx cap pd iu col id)) =
      entM (node l r nx cap pd iu col id) ∧
    (isRed (RBT_propagate_double_blackness (node l r nx cap pd iu col id)) = true →
      col = RED) ∧
    (isDB (RBT_propagate_double_blackness (node l r nx cap pd iu col id)) = true →
      col = BLACK) := by
  by_cases hdbl : isDB l = true
  · have hdbr : isDB r = false := by
      rcases hone with h | h
      · rw [h] at hdbl; cases hdbl
      · exact h
    have hnr : noDB r = true := noDB_of_almost halmr hdbr
    have hspec := propagateLeftDB_spec r l nx cap pd iu col id H hdbl halml
      hredl hdl hnr hredr hdr hcol (fun h => (hred h).2)
    simpa [RBT_propagate_double_blackness, hdbl] using hspec
  · by_cases hdbr : isDB r = true
    · have hdbl' : isDB l = false := by simpa using hdbl
      have hnl : noDB l = true := noDB_of_almost halml hdbl'
      have hspec := propagateRightDB_spec l r nx cap pd iu col id H hdbr halmr
        hredr hdr hnl hredl hdl hcol (fun h => (hred h).1)
      simpa [RBT_propagate_double_blackness, hdbl', hdbr] using hspec
    · have hdbl' : isDB l = false := by simpa using hdbl
      have hdbr' : isDB r = false := by simpa using hdbr
      have hnl : noDB l = true := noDB_of_almost halml hdbl'
      have hnr : noDB r = true := noDB_of_almost halmr hdbr'
      rw [RBT_propagate_double_blackness]
      simp only [hdbl', hdbr', Bool.false_eq_true, if_false]
      refine ⟨by simp [almostNoDB, hnl, hnr], ?_, ?_, by trivial, ?_, ?_⟩
      · simp only [redOk, Bool.and_eq_true, decide_eq_true_eq]
        exact ⟨⟨fun h => hred h, hredl⟩, hredr⟩
      · exact dbhb_node_intro _ _ _ _ _ _ hdl hdr
      · intro h
        cases col with
        | RED => rfl
        | BLACK => simp [isRed] at h
        | DOUBLE_BLACK => simp [isRed] at h
      · intro h
        rcases hcol with hc | hc <;> subst hc
        · simp [isDB] at h
        · rfl

/-- A repair step on a node with no doubly-black child is the identity. -/
theorem propagate_id (l r nx : Tree) (cap pd : Nat) (iu : Bool) (col : RBc)
    (id : Nat) (hl : isDB l = false) (hr : isDB r = false) :
    RBT_propagate_double_blackness (node l r nx cap pd iu col id) =
      node l r nx cap pd iu col id := by
  rw [RBT_propagate_double_blackness]
  simp [hl, hr]

/-- A repair step on an entirely double-black-free tree is the identity. -/
theorem propagate_id_noDB (t : Tree) (h : noDB t = true) :
    RBT_propagate_double_blackness t = t := by
  cases t with
  | leaf => rfl
  | dbleaf => simp [noDB] at h
  | node l r nx cap pd iu col id =>
    obtain ⟨_, h1, h2⟩ := noDB_node_elim h
    exact propagate_id _ _ _ _ _ _ _ _ (isDB_false_of_noDB h1) (isDB_false_of_noDB h2)

theorem RBT_find_swap_stop (lr lnx r nx : Tree) (lcap lpd cap pd : Nat)
    (liu iu : Bool) (lcol col : RBc) (lid id : Nat) :
    RBT_find_swap (node (node leaf lr lnx lcap lpd liu lcol lid) r nx cap pd
        iu col id) =
      (node (if lcol = BLACK then RBT_blacken_child lr else lr) r nx cap pd
        iu col id, node leaf lr lnx lcap lpd liu lcol lid, id) := rfl

theorem RBT_find_swap_go (c1 c2 c3 : Tree) (c4 c5 : Nat) (c6 : Bool)
    (c7 : RBc) (c8 : Nat) (lr lnx r nx : Tree) (lcap lpd cap pd : Nat)
    (liu iu : Bool) (lcol col : RBc) (lid id : Nat) :
    RBT_find_swap (node (node (node c1 c2 c3 c4 c5 c6 c7 c8) lr lnx lcap lpd
        liu lcol lid) r nx cap pd iu col id) =
      (node (RBT_find_swap (node (node c1 c2 c3 c4 c5 c6 c7 c8) lr lnx lcap
          lpd liu lcol lid)).1 r nx cap pd iu col id,
       (RBT_find_swap (node (node c1 c2 c3 c4 c5 c6 c7 c8) lr lnx lcap lpd
          liu lcol lid)).2.1,
       (RBT_find_swap (node (node c1 c2 c3 c4 c5 c6 c7 c8) lr lnx lcap lpd
          liu lcol lid)).2.2) := rfl

theorem dbhb_pos (t : Tree) : ∀ m, dbhb t = some m → 1 ≤ m := by
  induction t with
  | leaf => intro m h; simp [dbhb] at h; omega
  | dbleaf => intro m h; simp [dbhb] at h; omega
  | node l r nx cap pd iu col id ihl _ _ =>
    intro m h
    obtain ⟨a, ha, _, rfl⟩ := dbhb_node_elim h
    have := ihl a ha
    omega

theorem blacken_child_spec {t : Tree} (hn : noDB t = true)
    (hr : redOk t = true) (hd : dbhb t = some 1) :
    almostNoDB (RBT_blacken_child t) = true ∧
      redOk (RBT_blacken_child t) = true ∧
      dbhb (RBT_blacken_child t) = some 2 ∧
      isRed (RBT_blacken_child t) = false ∧
      entM (RBT_blacken_child t) = entM t := by
  cases t with
  | leaf => simp [RBT_blacken_child, almostNoDB, redOk, dbhb, isRed, entM_dbleaf, entM_leaf]
  | dbleaf => simp [noDB] at hn
  | node a b nx cap pd iu col id =>
    obtain ⟨x, hx1, hx2, hx⟩ := dbhb_node_elim hd
    obtain ⟨hcne, hna, hnb⟩ := noDB_node_elim hn
    obtain ⟨himp, hra, hrb⟩ := redOk_node_elim hr
    have hxpos := dbhb_pos a x hx1
    cases col with
    | DOUBLE_BLACK => exact absurd rfl hcne
    | BLACK =>
      exfalso
      simp [cw] at hx
      omega
    | RED =>
      simp only [RBT_blacken_child, reduceIte]
      simp [cw] at hx
      refine ⟨by simp [almostNoDB, hna, hnb], by simp [redOk, hra, hrb], ?_,
        rfl, by simp [entM_node]⟩
      rw [dbhb_node_intro _ _ _ _ _ _ hx1 hx2]
      simp [cw]
      omega

theorem idsL_node (l r nx : Tree) (cap pd : Nat) (iu : Bool) (col : RBc)
    (id : Nat) :
    idsL (node l r nx cap pd iu col id) =
      id :: (idsL nx ++ idsL l ++ idsL r) := by
  simp [idsL, entriesL]

theorem idsL_nodup_parts {l r nx : Tree} {cap pd : Nat} {iu : Bool}
    {col : RBc} {id : Nat}
    (h : (idsL (node l r nx cap pd iu col id)).Nodup) :
    (idsL nx).Nodup ∧ (idsL l).Nodup ∧ (idsL r).Nodup ∧
      id ∉ idsL nx ∧ id ∉ idsL l ∧ id ∉ idsL r := by
  rw [idsL_node] at h
  rw [List.nodup_cons] at h
  obtain ⟨hmem, hnd⟩ := h
  simp only [List.mem_append] at hmem
  push_neg at hmem
  have h1 := (hnd.of_append_left).of_append_left
  have h2 := (hnd.of_append_left).of_append_right
  have h3 := hnd.of_append_right
  exact ⟨h1, h2, h3, hmem.1.1, hmem.1.2, hmem.2⟩

/-- Specification of the successor walk plus the spine propagation: the
walk detaches the leftmost node of `t`, blackens the child that replaces
it, and `RBT_propagate_double_blackness_prevswap` repairs bottom-up along
the walked spine, restoring sub-root validity with the weighted black
height of the whole subtree unchanged and exactly the detached node's
entries gone. -/
theorem findSwap_pp_spec (t : Tree) :
    ∀ b, noDB t = true → redOk t = true → dbhb t = some b →
      (idsL t).Nodup →
      (∃ a1 a2 a3 a4 a5 a6 a7 a8, tleft t = node a1 a2 a3 a4 a5 a6 a7 a8) →
      ∃ r' sr snx scap spd siu scol sid pid,
        RBT_find_swap t = (r', node leaf sr snx scap spd siu scol sid, pid) ∧
        pid ∈ idsL t ∧
        almostNoDB (RBT_propagate_double_blackness_prevswap pid r') = true ∧
        redOk (RBT_propagate_double_blackness_prevswap pid r') = true ∧
        dbhb (RBT_propagate_double_blackness_prevswap pid r') = some b ∧
        entM (RBT_propagate_double_blackness_prevswap pid r') +
          ({(sid, scap, spd, siu)} + entM snx) = entM t ∧
        (isRed (RBT_propagate_double_blackness_prevswap pid r') = true →
          isRed t = true) := by
  induction t with
  | leaf => intro b _ _ _ _ hex; obtain ⟨_,_,_,_,_,_,_,_,h⟩ := hex; simp [tleft] at h
  | dbleaf => intro b _ _ _ _ hex; obtain ⟨_,_,_,_,_,_,_,_,h⟩ := hex; simp [tleft] at h
  | node l r nx cap pd iu col id ihl ihr ihn =>
    intro b hn hred hd hids hex
    obtain ⟨hcne, hnl, hnr⟩ := noDB_node_elim hn
    obtain ⟨himp, hrl, hrr⟩ := redOk_node_elim hred
    obtain ⟨x, hxl, hxr, hb⟩ := dbhb_node_elim hd
    obtain ⟨hndnx, hndl, hndr, hidnx, hidl, hidr⟩ := idsL_nodup_parts hids
    have hcolrb : col = RED ∨ col = BLACK := by
      cases col with
      | DOUBLE_BLACK => exact absurd rfl hcne
      | RED => exact Or.inl rfl
      | BLACK => exact Or.inr rfl
    cases l with
    | leaf => obtain ⟨_,_,_,_,_,_,_,_,h⟩ := hex; simp [tleft] at h
    | dbleaf => simp [noDB] at hnl
    | node ll lr lnx lcap lpd liu lcol lid =>
      obtain ⟨hlcne, hnll, hnlr⟩ := noDB_node_elim hnl
      obtain ⟨hlimp, hrll, hrlr⟩ := redOk_node_elim hrl
      obtain ⟨y, hyl, hyr, hx⟩ := dbhb_node_elim hxl
      cases ll with
      | dbleaf => simp [noDB] at hnll
      | leaf =>
        -- the walk stops here: swap = l, prevswap = this node
        have hy1 : y = 1 := by simp [dbhb] at hyl; omega
        subst hy1
        have hnewleft : almostNoDB (if lcol = BLACK then RBT_blacken_child lr else lr) = true ∧
            redOk (if lcol = BLACK then RBT_blacken_child lr else lr) = true ∧
            dbhb (if lcol = BLACK then RBT_blacken_child lr else lr) = some x ∧
            isRed (if lcol = BLACK then RBT_blacken_child lr else lr) = false ∧
            entM (if lcol = BLACK then RBT_blacken_child lr else lr) = entM lr := by
          cases lcol with
          | DOUBLE_BLACK => exact absurd rfl hlcne
          | BLACK =>
            rw [if_pos rfl]
            have hx2 : x = 2 := by simp [cw] at hx; omega
            subst hx2
            exact blacken_child_spec hnlr hrlr hyr
          | RED =>
            rw [if_neg (by simp)]
            have hx1 : x = 1 := by simp [cw] at hx; omega
            subst hx1
            exact ⟨almostNoDB_of_noDB hnlr, hrlr, hyr, (hlimp rfl).2, rfl⟩
        obtain ⟨hq1, hq2, hq3, hq4, hq5⟩ := hnewleft
        have P := propagate_spec (if lcol = BLACK then RBT_blacken_child lr else lr)
          r nx cap pd iu col id x hcolrb
          hq1 hq2 hq3 (almostNoDB_of_noDB hnr) hrr hxr
          (Or.inr (isDB_false_of_noDB hnr))
          (fun hc => ⟨hq4, (himp hc).2⟩)
        obtain ⟨p1, p2, p3, p4, p5, p6⟩ := P
        refine ⟨node (if lcol = BLACK then RBT_blacken_child lr else lr) r nx
          cap pd iu col id, lr, lnx, lcap, lpd, liu, lcol, lid, id,
          RBT_find_swap_stop lr lnx r nx lcap lpd cap pd liu iu lcol col lid id,
          by simp [idsL_node], ?_, ?_, ?_, ?_, ?_⟩
        · rw [RBT_propagate_double_blackness_prevswap, if_pos rfl]
          exact p1
        · rw [RBT_propagate_double_blackness_prevswap, if_pos rfl]
          exact p2
        · rw [RBT_propagate_double_blackness_prevswap, if_pos rfl]
          rw [p3]
          congr 1
          omega
        · rw [RBT_propagate_double_blackness_prevswap, if_pos rfl]
          rw [p4]
          simp only [entM_node, entM_leaf]
          rw [hq5]
          abel
        · rw [RBT_propagate_double_blackness_prevswap, if_pos rfl]
          intro hq
          rw [p5 hq]
          simp [isRed]
      | node c1 c2 c3 c4 c5 c6 c7 c8 =>
        -- recurse into the left child
        have hlleft : ∃ a1 a2 a3 a4 a5 a6 a7 a8,
            tleft (node (node c1 c2 c3 c4 c5 c6 c7 c8) lr lnx lcap lpd liu lcol lid) =
              node a1 a2 a3 a4 a5 a6 a7 a8 :=
          ⟨c1,c2,c3,c4,c5,c6,c7,c8, rfl⟩
        obtain ⟨l', sr, snx, scap, spd, siu, scol, sid, pid, ih0, ihpid, ih1,
          ih2, ih3, ih4, ih5⟩ := ihl x hnl hrl hxl hndl hlleft
        have hpidne : id ≠ pid := by
          intro hcontra
          subst hcontra
          exact hidl ihpid
        have hPu := propagate_spec
          (RBT_propagate_double_blackness_prevswap pid l') r nx cap pd iu col
          id x hcolrb
          ih1 ih2 ih3 (almostNoDB_of_noDB hnr) hrr hxr
          (Or.inr (isDB_false_of_noDB hnr))
          (fun hc => ⟨by
              cases hq : isRed (RBT_propagate_double_blackness_prevswap pid l')
              · rfl
              · exact absurd (ih5 hq) (by simp [(himp hc).1]),
            (himp hc).2⟩)
        obtain ⟨p1, p2, p3, p4, p5, p6⟩ := hPu
        refine ⟨node l' r nx cap pd iu col id, sr, snx, scap, spd, siu, scol,
          sid, pid, ?_, ?_, ?_, ?_, ?_, ?_, ?_⟩
        · rw [RBT_find_swap_go, ih0]
        · rw [idsL_node, List.mem_cons]
          right
          rw [List.mem_append]
          left
          rw [List.mem_append]
          right
          exact ihpid
        · rw [RBT_propagate_double_blackness_prevswap, if_neg hpidne]
          exact p1
        · rw [RBT_propagate_double_blackness_prevswap, if_neg hpidne]
          exact p2
        · rw [RBT_propagate_double_blackness_prevswap, if_neg hpidne]
          rw [p3]
          congr 1
          omega
        · rw [RBT_propagate_double_blackness_prevswap, if_neg hpidne]
          rw [p4, entM_node, entM_node]
          calc ({(id, cap, pd, iu)} : Multiset Entry) + entM nx +
                entM (RBT_propagate_double_blackness_prevswap pid l') + entM r +
                ({(sid, scap, spd, siu)} + entM snx)
              = {(id, cap, pd, iu)} + entM nx +
                (entM (RBT_propagate_double_blackness_prevswap pid l') +
                  ({(sid, scap, spd, siu)} + entM snx)) + entM r := by abel
            _ = {(id, cap, pd, iu)} + entM nx +
                entM (node (node c1 c2 c3 c4 c5 c6 c7 c8) lr lnx lcap lpd liu lcol lid) + entM r := by
                rw [ih4]
        · rw [RBT_propagate_double_blackness_prevswap, if_neg hpidne]
          intro hq
          rw [p5 hq]
          simp [isRed]

/-- Specification of `RBT_remove_empty_root`: the root node is detached
(with its bucket going along and its child pointers nulled), the remaining
tree keeps every other entry and the weighted black height `H` of the
input, and any residual double-black state sits at the root only. -/
theorem remove_empty_root_spec (l r nx : Tree) (cap pd : Nat) (iu : Bool)
    (col : RBc) (id : Nat) (H : Nat)
    (hn : noDB (node l r nx cap pd iu col id) = true)
    (hred : redOk (node l r nx cap pd iu col id) = true)
    (hd : dbhb (node l r nx cap pd iu col id) = some H)
    (hids : (idsL (node l r nx cap pd iu col id)).Nodup) :
    (RBT_remove_empty_root (node l r nx cap pd iu col id)).2 =
      node leaf leaf nx cap pd iu col id ∧
    almostNoDB (RBT_remove_empty_root (node l r nx cap pd iu col id)).1 = true ∧
    redOk (RBT_remove_empty_root (node l r nx cap pd iu col id)).1 = true ∧
    dbhb (RBT_remove_empty_root (node l r nx cap pd iu col id)).1 = some H ∧
    entM (RBT_remove_empty_root (node l r nx cap pd iu col id)).1 +
      entM (node leaf leaf nx cap pd iu col id) =
      entM (node l r nx cap pd iu col id) ∧
    (isRed (RBT_remove_empty_root (node l r nx cap pd iu col id)).1 = true →
      col = RED) ∧
    (isDB (RBT_remove_empty_root (node l r nx cap pd iu col id)).1 = true →
      col = BLACK) := by
  obtain ⟨hcne, hnl, hnr⟩ := noDB_node_elim hn
  obtain ⟨himp, hrl, hrr⟩ := redOk_node_elim hred
  obtain ⟨x, hxl, hxr, hb⟩ := dbhb_node_elim hd
  obtain ⟨hndnx, hndl, hndr, hidnx, hidl, hidr⟩ := idsL_nodup_parts hids
  have hcolrb : col = RED ∨ col = BLACK := by
    cases col with
    | DOUBLE_BLACK => exact absurd rfl hcne
    | RED => exact Or.inl rfl
    | BLACK => exact Or.inr rfl
  subst hb
  cases l with
  | dbleaf => simp [noDB] at hnl
  | leaf =>
    have hx1 : x = 1 := by simp [dbhb] at hxl; omega
    subst hx1
    cases r with
    | dbleaf => simp [noDB] at hnr
    | leaf =>
      rcases hcolrb with hc | hc <;> subst hc
      · have heq : RBT_remove_empty_root (node leaf leaf nx cap pd iu RED id) =
            (leaf, node leaf leaf nx cap pd iu RED id) := by
          simp [RBT_remove_empty_root]
        rw [heq]
        exact ⟨rfl, rfl, rfl, by simp [dbhb, cw], by simp [entM_leaf],
          by simp [isRed], by simp [isDB]⟩
      · have heq : RBT_remove_empty_root (node leaf leaf nx cap pd iu BLACK id) =
            (dbleaf, node leaf leaf nx cap pd iu BLACK id) := by
          simp [RBT_remove_empty_root]
        rw [heq]
        exact ⟨rfl, rfl, rfl, by simp [dbhb, cw], by simp [entM_dbleaf],
          by simp [isRed], fun _ => rfl⟩
    | node rl2 rr2 rnx2 rcap2 rpd2 riu2 rcol2 rid2 =>
      obtain ⟨hrcne, hnrl2, hnrr2⟩ := noDB_node_elim hnr
      obtain ⟨hrimp, hrrl2, hrrr2⟩ := redOk_node_elim hrr
      obtain ⟨y, hyl, hyr, hy⟩ := dbhb_node_elim hxr
      have hypos := dbhb_pos _ _ hyl
      cases rcol2 with
      | DOUBLE_BLACK => exact absurd rfl hrcne
      | BLACK => exfalso; simp [cw] at hy; omega
      | RED =>
        have hcolB : col = BLACK := by
          rcases hcolrb with hc | hc
          · exact absurd ((himp hc).2) (by simp [isRed])
          · exact hc
        subst hcolB
        have hy1 : y = 1 := by simp [cw] at hy; omega
        subst hy1
        have heq : RBT_remove_empty_root (node leaf
            (node rl2 rr2 rnx2 rcap2 rpd2 riu2 RED rid2) nx cap pd iu BLACK id) =
            (node rl2 rr2 rnx2 rcap2 rpd2 riu2 BLACK rid2,
             node leaf leaf nx cap pd iu BLACK id) := by
          simp [RBT_remove_empty_root]
        rw [heq]
        refine ⟨rfl, ?_, ?_, ?_, ?_, ?_, ?_⟩
        · simp [almostNoDB, hnrl2, hnrr2]
        · simp [redOk, hrrl2, hrrr2]
        · rw [dbhb_node_intro _ _ _ _ _ _ hyl hyr]
        · simp only [entM_node, entM_leaf]
          abel
        · simp [isRed_bnode]
        · simp [isDB]
  | node ll lr lnx2 lcap2 lpd2 liu2 lcol2 lid2 =>
    cases r with
    | dbleaf => simp [noDB] at hnr
    | leaf =>
      have hx1 : x = 1 := by simp [dbhb] at hxr; omega
      subst hx1
      obtain ⟨hlcne, hnll, hnlr⟩ := noDB_node_elim hnl
      obtain ⟨hlimp, hrll, hrlr⟩ := redOk_node_elim hrl
      obtain ⟨y, hyl, hyr, hy⟩ := dbhb_node_elim hxl
      have hypos := dbhb_pos _ _ hyl
      cases lcol2 with
      | DOUBLE_BLACK => exact absurd rfl hlcne
      | BLACK => exfalso; simp [cw] at hy; omega
      | RED =>
        have hcolB : col = BLACK := by
          rcases hcolrb with hc | hc
          · exact absurd ((himp hc).1) (by simp [isRed])
          · exact hc
        subst hcolB
        have hy1 : y = 1 := by simp [cw] at hy; omega
        subst hy1
        have heq : RBT_remove_empty_root (node
            (node ll lr lnx2 lcap2 lpd2 liu2 RED lid2) leaf nx cap pd iu BLACK id) =
            (node ll lr lnx2 lcap2 lpd2 liu2 BLACK lid2,
             node leaf leaf nx cap pd iu BLACK id) := by
          simp [RBT_remove_empty_root]
        rw [heq]
        refine ⟨rfl, ?_, ?_, ?_, ?_, ?_, ?_⟩
        · simp [almostNoDB, hnll, hnlr]
        · simp [redOk, hrll, hrlr]
        · rw [dbhb_node_intro _ _ _ _ _ _ hyl hyr]
        · simp only [entM_node, entM_leaf]
          abel
        · simp [isRed_bnode]
        · simp [isDB]
    | node rl2 rr2 rnx2 rcap2 rpd2 riu2 rcol2 rid2 =>
      by_cases hllr : ll = leaf ∧ lr = leaf
      · -- splice the childless left child into the root position
        obtain ⟨h1, h2⟩ := hllr
        subst h1; subst h2
        obtain ⟨hlcne, _, _⟩ := noDB_node_elim hnl
        obtain ⟨y, hyl, hyr, hy⟩ := dbhb_node_elim hxl
        have hy1 : y = 1 := by simp [dbhb] at hyl; omega
        subst hy1
        have hnew : almostNoDB (if lcol2 = BLACK then dbleaf else leaf) = true ∧
            redOk (if lcol2 = BLACK then dbleaf else leaf) = true ∧
            dbhb (if lcol2 = BLACK then dbleaf else leaf) = some x ∧
            isRed (if lcol2 = BLACK then dbleaf else leaf) = false := by
          cases lcol2 with
          | DOUBLE_BLACK => exact absurd rfl hlcne
          | BLACK =>
            rw [if_pos rfl]
            have : x = 2 := by simp [cw] at hy; omega
            subst this
            exact ⟨rfl, rfl, rfl, rfl⟩
          | RED =>
            rw [if_neg (by simp)]
            have : x = 1 := by simp [cw] at hy; omega
            subst this
            exact ⟨rfl, rfl, rfl, rfl⟩
        obtain ⟨hq1, hq2, hq3, hq4⟩ := hnew
        have P := propagate_spec (if lcol2 = BLACK then dbleaf else leaf)
          (node rl2 rr2 rnx2 rcap2 rpd2 riu2 rcol2 rid2) lnx2 lcap2 lpd2 liu2
          col lid2 x hcolrb hq1 hq2 hq3 (almostNoDB_of_noDB hnr) hrr hxr
          (Or.inr (isDB_false_of_noDB hnr))
          (fun hc => ⟨hq4, (himp hc).2⟩)
        obtain ⟨p1, p2, p3, p4, p5, p6⟩ := P
        have heq : RBT_remove_empty_root (node
            (node leaf leaf lnx2 lcap2 lpd2 liu2 lcol2 lid2)
            (node rl2 rr2 rnx2 rcap2 rpd2 riu2 rcol2 rid2) nx cap pd iu col id) =
            (RBT_propagate_double_blackness
              (node (if lcol2 = BLACK then dbleaf else leaf)
                (node rl2 rr2 rnx2 rcap2 rpd2 riu2 rcol2 rid2)
                lnx2 lcap2 lpd2 liu2 col lid2),
             node leaf leaf nx cap pd iu col id) := by
          simp [RBT_remove_empty_root]
        rw [heq]
        refine ⟨rfl, p1, p2, by rw [p3], ?_, p5, p6⟩
        rw [p4]
        have hnewent : entM (if lcol2 = BLACK then dbleaf else leaf) = 0 := by
          cases lcol2 <;> simp [entM_leaf, entM_dbleaf]
        simp only [entM_node, entM_leaf, hnewent]
        abel
      · cases rl2 with
        | dbleaf =>
          obtain ⟨_, hnrl2, _⟩ := noDB_node_elim hnr
          simp [noDB] at hnrl2
        | leaf =>
          -- swap == NULL: prevswap (= right) replaces the root
          obtain ⟨hrcne, hnrl2, hnrr2⟩ := noDB_node_elim hnr
          obtain ⟨hrimp, hrrl2, hrrr2⟩ := redOk_node_elim hrr
          obtain ⟨y, hyl, hyr, hy⟩ := dbhb_node_elim hxr
          have hy1 : y = 1 := by simp [dbhb] at hyl; omega
          subst hy1
          have hprv : almostNoDB (if rcol2 = BLACK then RBT_blacken_child rr2 else rr2) = true ∧
              redOk (if rcol2 = BLACK then RBT_blacken_child rr2 else rr2) = true ∧
              dbhb (if rcol2 = BLACK then RBT_blacken_child rr2 else rr2) = some x ∧
              isRed (if rcol2 = BLACK then RBT_blacken_child rr2 else rr2) = false ∧
              entM (if rcol2 = BLACK then RBT_blacken_child rr2 else rr2) = entM rr2 := by
            cases rcol2 with
            | DOUBLE_BLACK => exact absurd rfl hrcne
            | BLACK =>
              rw [if_pos rfl]
              have : x = 2 := by simp [cw] at hy; omega
              subst this
              exact blacken_child_spec hnrr2 hrrr2 hyr
            | RED =>
              rw [if_neg (by simp)]
              have : x = 1 := by simp [cw] at hy; omega
              subst this
              exact ⟨almostNoDB_of_noDB hnrr2, hrrr2, hyr, (hrimp rfl).2, rfl⟩
          obtain ⟨hq1, hq2, hq3, hq4, hq5⟩ := hprv
          have P := propagate_spec (node ll lr lnx2 lcap2 lpd2 liu2 lcol2 lid2)
            (if rcol2 = BLACK then RBT_blacken_child rr2 else rr2)
            rnx2 rcap2 rpd2 riu2 col rid2 x hcolrb
            (almostNoDB_of_noDB hnl) hrl hxl hq1 hq2 hq3
            (Or.inl (isDB_false_of_noDB hnl))
            (fun hc => ⟨(himp hc).1, hq4⟩)
          obtain ⟨p1, p2, p3, p4, p5, p6⟩ := P
          have heq : RBT_remove_empty_root (node
              (node ll lr lnx2 lcap2 lpd2 liu2 lcol2 lid2)
              (node leaf rr2 rnx2 rcap2 rpd2 riu2 rcol2 rid2) nx cap pd iu col id) =
              (RBT_propagate_double_blackness
                (node (node ll lr lnx2 lcap2 lpd2 liu2 lcol2 lid2)
                  (if rcol2 = BLACK then RBT_blacken_child rr2 else rr2)
                  rnx2 rcap2 rpd2 riu2 col rid2),
               node leaf leaf nx cap pd iu col id) := by
            simp [RBT_remove_empty_root, hllr]
          rw [heq]
          refine ⟨rfl, p1, p2, by rw [p3], ?_, p5, p6⟩
          rw [p4]
          simp only [entM_node, entM_leaf, hq5]
          abel
        | node q1 q2 q3 q4 q5 q6 q7 q8 =>
          -- general case: in-order successor swap
          have hFS := findSwap_pp_spec
            (node (node q1 q2 q3 q4 q5 q6 q7 q8) rr2 rnx2 rcap2 rpd2 riu2 rcol2 rid2)
            x hnr hrr hxr hndr ⟨q1,q2,q3,q4,q5,q6,q7,q8, rfl⟩
          obtain ⟨r', sr, snx, scap, spd, siu, scol, sid, pid, hf0, hfpid,
            hf1, hf2, hf3, hf4, hf5⟩ := hFS
          have P := propagate_spec (node ll lr lnx2 lcap2 lpd2 liu2 lcol2 lid2)
            (RBT_propagate_double_blackness_prevswap pid r')
            snx scap spd siu col sid x hcolrb
            (almostNoDB_of_noDB hnl) hrl hxl hf1 hf2 hf3
            (Or.inl (isDB_false_of_noDB hnl))
            (fun hc => ⟨(himp hc).1, by
              cases hq : isRed (RBT_propagate_double_blackness_prevswap pid r')
              · rfl
              · exact absurd (hf5 hq) (by simp [(himp hc).2])⟩)
          obtain ⟨p1, p2, p3, p4, p5, p6⟩ := P
          have heq : RBT_remove_empty_root (node
              (node ll lr lnx2 lcap2 lpd2 liu2 lcol2 lid2)
              (node (node q1 q2 q3 q4 q5 q6 q7 q8) rr2 rnx2 rcap2 rpd2 riu2 rcol2 rid2)
              nx cap pd iu col id) =
              (RBT_propagate_double_blackness
                (node (node ll lr lnx2 lcap2 lpd2 liu2 lcol2 lid2)
                  (RBT_propagate_double_blackness_prevswap pid r')
                  snx scap spd siu col sid),
               node leaf leaf nx cap pd iu col id) := by
            simp [RBT_remove_empty_root, hllr, hf0]
          rw [heq]
          refine ⟨rfl, p1, p2, by rw [p3], ?_, p5, p6⟩
          rw [p4]
          calc entM (node (node ll lr lnx2 lcap2 lpd2 liu2 lcol2 lid2)
                (RBT_propagate_double_blackness_prevswap pid r')
                snx scap spd siu col sid) +
              entM (node leaf leaf nx cap pd iu col id)
              = entM (node ll lr lnx2 lcap2 lpd2 liu2 lcol2 lid2) +
                (entM (RBT_propagate_double_blackness_prevswap pid r') +
                  ({(sid, scap, spd, siu)} + entM snx)) +
                entM (node leaf leaf nx cap pd iu col id) := by
                simp only [entM_node, entM_leaf]
                abel
            _ = _ := by
                rw [hf4]
                simp only [entM_node, entM_leaf]
                abel

/-! ### Preservation of bucket shape by the rebalancing helpers -/

theorem buckets_setColor (t : Tree) (c : RBc) :
    bucketsOk (setColor t c) = bucketsOk t := by
  cases t <;> rfl

theorem buckets_node (l r nx : Tree) (cap pd : Nat) (iu : Bool) (col : RBc)
    (id : Nat) :
    bucketsOk (node l r nx cap pd iu col id) =
      (chainOk cap nx && bucketsOk l && bucketsOk r) := rfl

theorem buckets_blacken_child (t : Tree) :
    bucketsOk (RBT_blacken_child t) = bucketsOk t := by
  cases t with
  | leaf => rfl
  | dbleaf => rfl
  | node l r nx cap pd iu col id =>
    simp only [RBT_blacken_child]
    split <;> rfl

theorem buckets_propagateLeftDB (r : Tree) : ∀ (l nx : Tree) (cap pd : Nat)
    (iu : Bool) (col : RBc) (id : Nat), bucketsOk l = true →
    bucketsOk r = true → chainOk cap nx = true →
    bucketsOk (propagateLeftDB l r nx cap pd iu col id) = true := by
  induction r with
  | leaf =>
    intro l nx cap pd iu col id h1 h2 h3
    simp [propagateLeftDB, bucketsOk, h1, h3]
  | dbleaf =>
    intro l nx cap pd iu col id h1 h2 h3
    simp [propagateLeftDB, bucketsOk, h1, h3]
  | node rl rr rnx rcap rpd riu rcol rid ihl ihr ihn =>
    intro l nx cap pd iu col id h1 h2 h3
    rw [buckets_node, Bool.and_eq_true, Bool.and_eq_true] at h2
    obtain ⟨⟨hc, hbl⟩, hbr⟩ := h2
    have hbl' : bucketsOk (if l = dbleaf then leaf else setColor l BLACK) = true := by
      split
      · rfl
      · rw [buckets_setColor]; exact h1
    cases rcol with
    | RED =>
      have hrec := ihl l nx cap pd iu RED id h1 hbl h3
      simp only [propagateLeftDB]
      simp [bucketsOk, hrec, hbr, hc]
    | BLACK =>
      cases rl with
      | leaf =>
        simp only [propagateLeftDB]
        by_cases hrr : isRed rr = true <;>
          simp [hrr, bucketsOk, buckets_setColor, hbl', h3, hc, hbr]
      | dbleaf =>
        simp only [propagateLeftDB]
        by_cases hrr : isRed rr = true <;>
          simp [hrr, bucketsOk, buckets_setColor, hbl', h3, hc, hbr]
      | node rll rlr rlnx rlcap rlpd rliu rlcol rlid =>
        rw [buckets_node, Bool.and_eq_true, Bool.and_eq_true] at hbl
        obtain ⟨⟨hcl, hbll⟩, hblr⟩ := hbl
        cases rlcol with
        | RED =>
          simp only [propagateLeftDB]
          simp [bucketsOk, hbl', h3, hc, hcl, hbll, hblr, hbr]
        | BLACK =>
          simp only [propagateLeftDB]
          by_cases hrr : isRed rr = true <;>
            simp [hrr, bucketsOk, buckets_setColor, hbl', h3, hc, hcl, hbll, hblr, hbr]
        | DOUBLE_BLACK =>
          simp only [propagateLeftDB]
          by_cases hrr : isRed rr = true <;>
            simp [hrr, bucketsOk, buckets_setColor, hbl', h3, hc, hcl, hbll, hblr, hbr]
    | DOUBLE_BLACK =>
      cases rl with
      | leaf =>
        simp only [propagateLeftDB]
        by_cases hrr : isRed rr = true <;>
          simp [hrr, bucketsOk, buckets_setColor, hbl', h3, hc, hbr]
      | dbleaf =>
        simp only [propagateLeftDB]
        by_cases hrr : isRed rr = true <;>
          simp [hrr, bucketsOk, buckets_setColor, hbl', h3, hc, hbr]
      | node rll rlr rlnx rlcap rlpd rliu rlcol rlid =>
        rw [buckets_node, Bool.and_eq_true, Bool.and_eq_true] at hbl
        obtain ⟨⟨hcl, hbll⟩, hblr⟩ := hbl
        cases rlcol with
        | RED =>
          simp only [propagateLeftDB]
          simp [bucketsOk, hbl', h3, hc, hcl, hbll, hblr, hbr]
        | BLACK =>
          simp only [propagateLeftDB]
          by_cases hrr : isRed rr = true <;>
            simp [hrr, bucketsOk, buckets_setColor, hbl', h3, hc, hcl, hbll, hblr, hbr]
        | DOUBLE_BLACK =>
          simp only [propagateLeftDB]
          by_cases hrr : isRed rr = true <;>
            simp [hrr, bucketsOk, buckets_setColor, hbl', h3, hc, hcl, hbll, hblr, hbr]


theorem buckets_propagateRightDB (l : Tree) : ∀ (r nx : Tree) (cap pd : Nat)
    (iu : Bool) (col : RBc) (id : Nat), bucketsOk l = true →
    bucketsOk r = true → chainOk cap nx = true →
    bucketsOk (propagateRightDB l r nx cap pd iu col id) = true := by
  induction l with
  | leaf =>
    intro r nx cap pd iu col id h1 h2 h3
    simp [propagateRightDB, bucketsOk, h2, h3]
  | dbleaf =>
    intro r nx cap pd iu col id h1 h2 h3
    simp [propagateRightDB, bucketsOk, h2, h3]
  | node ll lr lnx lcap lpd liu lcol lid ihl ihr ihn =>
    intro r nx cap pd iu col id h1 h2 h3
    rw [buckets_node, Bool.and_eq_true, Bool.and_eq_true] at h1
    obtain ⟨⟨hc, hbl⟩, hbr⟩ := h1
    have hbr' : bucketsOk (if r = dbleaf then leaf else setColor r BLACK) = true := by
      split
      · rfl
      · rw [buckets_setColor]; exact h2
    cases lcol with
    | RED =>
      have hrec := ihr r nx cap pd iu RED id hbr h2 h3
      simp only [propagateRightDB]
      simp [bucketsOk, hrec, hbl, hc]
    | BLACK =>
      cases lr with
      | leaf =>
        simp only [propagateRightDB]
        by_cases hll : isRed ll = true <;>
          simp [hll, bucketsOk, buckets_setColor, hbr', h3, hc, hbl]
      | dbleaf =>
        simp only [propagateRightDB]
        by_cases hll : isRed ll = true <;>
          simp [hll, bucketsOk, buckets_setColor, hbr', h3, hc, hbl]
      | node lrl lrr lrnx lrcap lrpd lriu lrcol lrid =>
        rw [buckets_node, Bool.and_eq_true, Bool.and_eq_true] at hbr
        obtain ⟨⟨hcl, hbrl⟩, hbrr⟩ := hbr
        cases lrcol with
        | RED =>
          simp only [propagateRightDB]
          simp [bucketsOk, hbr', h3, hc, hcl, hbrl, hbrr, hbl]
        | BLACK =>
          simp only [propagateRightDB]
          by_cases hll : isRed ll = true <;>
            simp [hll, bucketsOk, buckets_setColor, hbr', h3, hc, hcl, hbrl, hbrr, hbl]
        | DOUBLE_BLACK =>
          simp only [propagateRightDB]
          by_cases hll : isRed ll = true <;>
            simp [hll, bucketsOk, buckets_setColor, hbr', h3, hc, hcl, hbrl, hbrr, hbl]
    | DOUBLE_BLACK =>
      cases lr with
      | leaf =>
        simp only [propagateRightDB]
        by_cases hll : isRed ll = true <;>
          simp [hll, bucketsOk, buckets_setColor, hbr', h3, hc, hbl]
      | dbleaf =>
        simp only [propagateRightDB]
        by_cases hll : isRed ll = true <;>
          simp [hll, bucketsOk, buckets_setColor, hbr', h3, hc, hbl]
      | node lrl lrr lrnx lrcap lrpd lriu lrcol lrid =>
        rw [buckets_node, Bool.and_eq_true, Bool.and_eq_true] at hbr
        obtain ⟨⟨hcl, hbrl⟩, hbrr⟩ := hbr
        cases lrcol with
        | RED =>
          simp only [propagateRightDB]
          simp [bucketsOk, hbr', h3, hc, hcl, hbrl, hbrr, hbl]
        | BLACK =>
          simp only [propagateRightDB]
          by_cases hll : isRed ll = true <;>
            simp [hll, bucketsOk, buckets_setColor, hbr', h3, hc, hcl, hbrl, hbrr, hbl]
        | DOUBLE_BLACK =>
          simp only [propagateRightDB]
          by_cases hll : isRed ll = true <;>
            simp [hll, bucketsOk, buckets_setColor, hbr', h3, hc, hcl, hbrl, hbrr, hbl]

theorem buckets_propagate (t : Tree) (h : bucketsOk t = true) :
    bucketsOk (RBT_propagate_double_blackness t) = true := by
  cases t with
  | leaf => rfl
  | dbleaf => rfl
  | node l r nx cap pd iu col id =>
    rw [buckets_node, Bool.and_eq_true, Bool.and_eq_true] at h
    obtain ⟨⟨hc, hbl⟩, hbr⟩ := h
    rw [RBT_propagate_double_blackness]
    by_cases hdl : isDB l = true
    · rw [if_pos hdl]
      exact buckets_propagateLeftDB r l nx cap pd iu col id hbl hbr hc
    · rw [if_neg hdl]
      by_cases hdr : isDB r = true
      · rw [if_pos hdr]
        exact buckets_propagateRightDB l r nx cap pd iu col id hbl hbr hc
      · rw [if_neg hdr]
        simp [bucketsOk, hc, hbl, hbr]

theorem buckets_pp (t : Tree) : ∀ pid, bucketsOk t = true →
    bucketsOk (RBT_propagate_double_blackness_prevswap pid t) = true := by
  induction t with
  | leaf => intro pid h; exact h
  | dbleaf => intro pid h; exact h
  | node l r nx cap pd iu col id ihl ihr ihn =>
    intro pid h
    rw [RBT_propagate_double_blackness_prevswap]
    split
    · exact buckets_propagate _ h
    · apply buckets_propagate
      rw [buckets_node, Bool.and_eq_true, Bool.and_eq_true] at h
      obtain ⟨⟨hc, hbl⟩, hbr⟩ := h
      simp [bucketsOk, hc, hbr, ihl pid hbl]

theorem buckets_find_swap (t : Tree) (h : bucketsOk t = true) :
    bucketsOk (RBT_find_swap t).1 = true ∧
      bucketsOk (RBT_find_swap t).2.1 = true := by
  induction t with
  | leaf => exact ⟨rfl, rfl⟩
  | dbleaf => exact ⟨rfl, rfl⟩
  | node l r nx cap pd iu col id ihl ihr ihn =>
    rw [buckets_node, Bool.and_eq_true, Bool.and_eq_true] at h
    obtain ⟨⟨hc, hbl⟩, hbr⟩ := h
    cases l with
    | leaf =>
      refine ⟨?_, rfl⟩
      simp [RBT_find_swap, bucketsOk, hc, hbr]
    | dbleaf =>
      refine ⟨?_, rfl⟩
      simp [RBT_find_swap, bucketsOk, hc, hbr]
    | node ll lr lnx lcap lpd liu lcol lid =>
      rw [buckets_node, Bool.and_eq_true, Bool.and_eq_true] at hbl
      obtain ⟨⟨hcl, hbll⟩, hblr⟩ := hbl
      cases ll with
      | leaf =>
        rw [RBT_find_swap_stop]
        constructor
        · have hnl : bucketsOk (if lcol = BLACK then RBT_blacken_child lr else lr) = true := by
            split
            · rw [buckets_blacken_child]; exact hblr
            · exact hblr
          simp [bucketsOk, hc, hbr, hnl]
        · simp [bucketsOk, hcl, hblr]
      | dbleaf =>
        refine ⟨?_, rfl⟩
        simp [RBT_find_swap, bucketsOk, hc, hbr, hcl, hbll, hblr]
      | node c1 c2 c3 c4 c5 c6 c7 c8 =>
        have hfl := ihl (by simp [buckets_node, hcl, hbll, hblr])
        rw [RBT_find_swap_go]
        exact ⟨by simp [bucketsOk, hc, hbr, hfl.1], hfl.2⟩


theorem buckets_remove_empty_root (l r nx : Tree) (cap pd : Nat) (iu : Bool)
    (col : RBc) (id : Nat)
    (h : bucketsOk (node l r nx cap pd iu col id) = true) :
    bucketsOk (RBT_remove_empty_root (node l r nx cap pd iu col id)).1 = true := by
  rw [buckets_node, Bool.and_eq_true, Bool.and_eq_true] at h
  obtain ⟨⟨hc, hbl⟩, hbr⟩ := h
  cases l with
  | leaf =>
    cases r with
    | leaf => cases col <;> simp [RBT_remove_empty_root, bucketsOk]
    | dbleaf => simp [RBT_remove_empty_root, bucketsOk]
    | node rl rr rnx rcap rpd riu rcol rid =>
      rw [buckets_node, Bool.and_eq_true, Bool.and_eq_true] at hbr
      obtain ⟨⟨hcr, hbrl⟩, hbrr⟩ := hbr
      by_cases hrc : rcol = RED <;>
        simp [RBT_remove_empty_root, hrc, bucketsOk, hcr, hbrl, hbrr]
  | dbleaf =>
    cases r with
    | leaf => simp [RBT_remove_empty_root, bucketsOk]
    | dbleaf => simp [RBT_remove_empty_root, bucketsOk, hc]
    | node rl rr rnx rcap rpd riu rcol rid =>
      rw [buckets_node, Bool.and_eq_true, Bool.and_eq_true] at hbr
      obtain ⟨⟨hcr, hbrl⟩, hbrr⟩ := hbr
      simp [RBT_remove_empty_root, bucketsOk, hc, hcr, hbrl, hbrr]
  | node ll lr lnx lcap lpd liu lcol lid =>
    rw [buckets_node, Bool.and_eq_true, Bool.and_eq_true] at hbl
    obtain ⟨⟨hcl, hbll⟩, hblr⟩ := hbl
    cases r with
    | leaf =>
      by_cases hlc : lcol = RED <;>
        simp [RBT_remove_empty_root, hlc, bucketsOk, hcl, hbll, hblr]
    | dbleaf =>
      simp [RBT_remove_empty_root, bucketsOk, hc, hcl, hbll, hblr]
    | node rl rr rnx rcap rpd riu rcol rid =>
      rw [buckets_node, Bool.and_eq_true, Bool.and_eq_true] at hbr
      obtain ⟨⟨hcr, hbrl⟩, hbrr⟩ := hbr
      by_cases hll : ll = leaf ∧ lr = leaf
      · obtain ⟨h1, h2⟩ := hll
        subst h1; subst h2
        have heq : (RBT_remove_empty_root (node
            (node leaf leaf lnx lcap lpd liu lcol lid)
            (node rl rr rnx rcap rpd riu rcol rid) nx cap pd iu col id)).1 =
            RBT_propagate_double_blackness
              (node (if lcol = BLACK then dbleaf else leaf)
                (node rl rr rnx rcap rpd riu rcol rid) lnx lcap lpd liu col lid) := by
          simp [RBT_remove_empty_root]
        rw [heq]
        apply buckets_propagate
        have hz : bucketsOk (if lcol = BLACK then dbleaf else leaf) = true := by
          split <;> rfl
        simp [buckets_node, hcl, hz, hcr, hbrl, hbrr, bucketsOk]
      · cases rl with
        | leaf =>
          have heq : (RBT_remove_empty_root (node
              (node ll lr lnx lcap lpd liu lcol lid)
              (node leaf rr rnx rcap rpd riu rcol rid) nx cap pd iu col id)).1 =
              RBT_propagate_double_blackness
                (node (node ll lr lnx lcap lpd liu lcol lid)
                  (if rcol = BLACK then RBT_blacken_child rr else rr)
                  rnx rcap rpd riu col rid) := by
            simp [RBT_remove_empty_root, hll]
          rw [heq]
          apply buckets_propagate
          have hpr : bucketsOk (if rcol = BLACK then RBT_blacken_child rr else rr) = true := by
            split
            · rw [buckets_blacken_child]; exact hbrr
            · exact hbrr
          simp [buckets_node, hcr, hpr, hcl, hbll, hblr, bucketsOk]
        | dbleaf =>
          have heq : (RBT_remove_empty_root (node
              (node ll lr lnx lcap lpd liu lcol lid)
              (node dbleaf rr rnx rcap rpd riu rcol rid) nx cap pd iu col id)).1 =
              node (node ll lr lnx lcap lpd liu lcol lid)
                (node dbleaf rr rnx rcap rpd riu rcol rid) nx cap pd iu col id := by
            simp [RBT_remove_empty_root, hll, RBT_find_swap]
          rw [heq]
          simp [bucketsOk, hc, hcl, hbll, hblr, hcr, hbrl, hbrr]
        | node c1 c2 c3 c4 c5 c6 c7 c8 =>
          have hbR : bucketsOk (node (node c1 c2 c3 c4 c5 c6 c7 c8) rr rnx rcap
              rpd riu rcol rid) = true := by
            simp [buckets_node, hcr, hbrl, hbrr]
          have hbf := buckets_find_swap _ hbR
          rcases hfs : (RBT_find_swap (node (node c1 c2 c3 c4 c5 c6 c7 c8) rr
              rnx rcap rpd riu rcol rid)).2.1 with _ | _ |
            ⟨s1, s2, snx, scap, spd, siu, scol, sid⟩
          · have heq : (RBT_remove_empty_root (node
                (node ll lr lnx lcap lpd liu lcol lid)
                (node (node c1 c2 c3 c4 c5 c6 c7 c8) rr rnx rcap rpd riu rcol rid)
                nx cap pd iu col id)).1 =
                node (node ll lr lnx lcap lpd liu lcol lid)
                  (node (node c1 c2 c3 c4 c5 c6 c7 c8) rr rnx rcap rpd riu rcol rid)
                  nx cap pd iu col id := by
              simp [RBT_remove_empty_root, hll, hfs]
            rw [heq]
            rw [buckets_node, Bool.and_eq_true, Bool.and_eq_true] at hbrl
            obtain ⟨⟨hc4, hb1⟩, hb2⟩ := hbrl
            simp [bucketsOk, hc, hcl, hbll, hblr, hcr, hc4, hb1, hb2, hbrr]
          · have heq : (RBT_remove_empty_root (node
                (node ll lr lnx lcap lpd liu lcol lid)
                (node (node c1 c2 c3 c4 c5 c6 c7 c8) rr rnx rcap rpd riu rcol rid)
                nx cap pd iu col id)).1 =
                node (node ll lr lnx lcap lpd liu lcol lid)
                  (node (node c1 c2 c3 c4 c5 c6 c7 c8) rr rnx rcap rpd riu rcol rid)
                  nx cap pd iu col id := by
              simp [RBT_remove_empty_root, hll, hfs]
            rw [heq]
            rw [buckets_node, Bool.and_eq_true, Bool.and_eq_true] at hbrl
            obtain ⟨⟨hc4, hb1⟩, hb2⟩ := hbrl
            simp [bucketsOk, hc, hcl, hbll, hblr, hcr, hc4, hb1, hb2, hbrr]
          · have heq : (RBT_remove_empty_root (node
                (node ll lr lnx lcap lpd liu lcol lid)
                (node (node c1 c2 c3 c4 c5 c6 c7 c8) rr rnx rcap rpd riu rcol rid)
                nx cap pd iu col id)).1 =
                RBT_propagate_double_blackness
                  (node (node ll lr lnx lcap lpd liu lcol lid)
                    (RBT_propagate_double_blackness_prevswap
                      (RBT_find_swap (node (node c1 c2 c3 c4 c5 c6 c7 c8) rr rnx
                        rcap rpd riu rcol rid)).2.2
                      (RBT_find_swap (node (node c1 c2 c3 c4 c5 c6 c7 c8) rr rnx
                        rcap rpd riu rcol rid)).1)
                    snx scap spd siu col sid) := by
              simp [RBT_remove_empty_root, hll, hfs]
            rw [heq]
            apply buckets_propagate
            have hswap := hbf.2
            rw [hfs, buckets_node, Bool.and_eq_true, Bool.and_eq_true] at hswap
            obtain ⟨⟨hcs, _⟩, _⟩ := hswap
            have hpp := buckets_pp _ (RBT_find_swap (node (node c1 c2 c3 c4 c5 c6
              c7 c8) rr rnx rcap rpd riu rcol rid)).2.2 hbf.1
            simp [buckets_node, hcs, hpp, hcl, hbll, hblr, bucketsOk]


/-! ### Transport of address distinctness and capacity bounds along entry
conservation -/

theorem idsL_coe_entM (t : Tree) :
    (idsL t : Multiset Nat) = (entM t).map (fun e => e.1) := by
  simp [idsL, entM]

theorem capsL_coe_entM (t : Tree) :
    (capsL t : Multiset Nat) = (entM t).map (fun e => e.2.1) := by
  simp [capsL, entM]

theorem ids_nodup_of_entM_le {a b : Tree} (h : entM a ≤ entM b)
    (hn : (idsL b).Nodup) : (idsL a).Nodup := by
  have h2 : (idsL a : Multiset Nat) ≤ (idsL b : Multiset Nat) := by
    rw [idsL_coe_entM, idsL_coe_entM]
    exact Multiset.map_le_map h
  rw [← Multiset.coe_nodup] at hn ⊢
  exact Multiset.nodup_of_le h2 hn

theorem id_notin_of_entM_cons {a b : Tree} {e : Entry}
    (h : entM a + {e} = entM b) (hn : (idsL b).Nodup) : e.1 ∉ idsL a := by
  intro hmem
  have hb : (idsL b : Multiset Nat) = (idsL a : Multiset Nat) + {e.1} := by
    rw [idsL_coe_entM, idsL_coe_entM, ← h, Multiset.map_add]
    simp
  have h1 : Multiset.Nodup (idsL b : Multiset Nat) := Multiset.coe_nodup.2 hn
  rw [Multiset.nodup_iff_count_le_one] at h1
  have h2 := h1 e.1
  rw [hb, Multiset.count_add] at h2
  have h3 : 1 ≤ Multiset.count e.1 (idsL a : Multiset Nat) := by
    rw [Multiset.one_le_count_iff_mem]
    exact Multiset.mem_coe.2 hmem
  rw [Multiset.count_singleton_self] at h2
  omega

theorem capsB_of_entM_le {a b : Tree} (h : entM a ≤ entM b)
    (hc : capsB b = true) : capsB a = true := by
  simp only [capsB, List.all_eq_true, decide_eq_true_eq] at hc ⊢
  intro c hcm
  apply hc
  have h1 : c ∈ (capsL a : Multiset Nat) := Multiset.mem_coe.2 hcm
  rw [capsL_coe_entM] at h1
  have h2 : c ∈ (capsL b : Multiset Nat) := by
    rw [capsL_coe_entM]
    exact Multiset.mem_of_le (Multiset.map_le_map h) h1
  exact Multiset.mem_coe.1 h2


/-- Specification of `RBT_remove_root`: one node carrying the root's
capacity is detached fully nulled out (the bucket head when the bucket is
non-empty, otherwise the root itself via the structural removal), entries
are conserved, and the weighted black height is kept with any residual
double-black state at the root only. -/
theorem remove_root_spec (l r nx : Tree) (cap pd : Nat) (iu : Bool)
    (col : RBc) (id : Nat) (H : Nat)
    (hn : noDB (node l r nx cap pd iu col id) = true)
    (hred : redOk (node l r nx cap pd iu col id) = true)
    (hd : dbhb (node l r nx cap pd iu col id) = some H)
    (hids : (idsL (node l r nx cap pd iu col id)).Nodup)
    (hbk : bucketsOk (node l r nx cap pd iu col id) = true) :
    ∃ dpd diu dcol did,
      (RBT_remove_root (node l r nx cap pd iu col id)).2 =
        some (node leaf leaf leaf cap dpd diu dcol did) ∧
      entM (RBT_remove_root (node l r nx cap pd iu col id)).1 +
        {(did, cap, dpd, diu)} = entM (node l r nx cap pd iu col id) ∧
      almostNoDB (RBT_remove_root (node l r nx cap pd iu col id)).1 = true ∧
      redOk (RBT_remove_root (node l r nx cap pd iu col id)).1 = true ∧
      dbhb (RBT_remove_root (node l r nx cap pd iu col id)).1 = some H ∧
      bucketsOk (RBT_remove_root (node l r nx cap pd iu col id)).1 = true ∧
      (isRed (RBT_remove_root (node l r nx cap pd iu col id)).1 = true →
        col = RED) ∧
      (isDB (RBT_remove_root (node l r nx cap pd iu col id)).1 = true →
        col = BLACK) := by
  obtain ⟨hcne, hnl, hnr⟩ := noDB_node_elim hn
  cases nx with
  | dbleaf =>
    rw [buckets_node] at hbk
    simp [chainOk] at hbk
  | node tl tr tnx tcap tpd tiu tcol tid =>
    rw [buckets_node, Bool.and_eq_true, Bool.and_eq_true] at hbk
    obtain ⟨⟨hck, hbl⟩, hbr⟩ := hbk
    simp only [chainOk, Bool.and_eq_true, decide_eq_true_eq] at hck
    obtain ⟨⟨⟨hte1, hte2⟩, hte3⟩, hck'⟩ := hck
    subst hte1
    subst hte2
    subst hte3
    have heq : RBT_remove_root (node l r (node leaf leaf tnx tcap tpd tiu tcol
        tid) tcap pd iu col id) =
        (node l r tnx tcap pd iu col id,
         some (node leaf leaf leaf tcap tpd tiu tcol tid)) := rfl
    rw [heq]
    refine ⟨tpd, tiu, tcol, tid, rfl, ?_, ?_, hred, hd, ?_, ?_, ?_⟩
    · simp only [entM_node, entM_leaf]
      abel
    · simp [almostNoDB, hnl, hnr]
    · simp [buckets_node, hck', hbl, hbr]
    · cases col with
      | RED => intro _; rfl
      | BLACK => intro h; simp [isRed] at h
      | DOUBLE_BLACK => intro h; simp [isRed] at h
    · cases col with
      | RED => intro h; simp [isDB] at h
      | BLACK => intro _; rfl
      | DOUBLE_BLACK => exact absurd rfl hcne
  | leaf =>
    have S := remove_empty_root_spec l r leaf cap pd iu col id H hn hred hd hids
    obtain ⟨s1, s2, s3, s4, s5, s6, s7⟩ := S
    have hbe := buckets_remove_empty_root l r leaf cap pd iu col id hbk
    have heq : RBT_remove_root (node l r leaf cap pd iu col id) =
        ((RBT_remove_empty_root (node l r leaf cap pd iu col id)).1,
         some (RBT_remove_empty_root (node l r leaf cap pd iu col id)).2) := rfl
    rw [heq]
    refine ⟨pd, iu, col, id, ?_, ?_, s2, s3, s4, hbe, s6, s7⟩
    · show some _ = _
      rw [s1]
    · have he : entM (node leaf leaf leaf cap pd iu col id) =
          ({(id, cap, pd, iu)} : Multiset Entry) := by
        simp [entM_node, entM_leaf]
      show entM (RBT_remove_empty_root (node l r leaf cap pd iu col id)).1 +
        {(id, cap, pd, iu)} = entM (node l r leaf cap pd iu col id)
      rw [← he]
      exact s5


/-- Invariant part of the specification of `RBT_remove_at_least_inner`:
when nothing qualifies the subtree is returned untouched; when a node is
detached it is fully nulled out, entries are conserved, sub-root validity
is restored with the weighted black height unchanged, and the root can
only have turned RED (resp. doubly-black) if it was RED (resp. BLACK). -/
theorem remove_at_least_inner_spec (t : Tree) : ∀ (k H : Nat),
    noDB t = true → redOk t = true → dbhb t = some H →
    (idsL t).Nodup → bucketsOk t = true →
    ((RBT_remove_at_least_inner t k).2 = none →
      (RBT_remove_at_least_inner t k).1 = t) ∧
    (∀ d, (RBT_remove_at_least_inner t k).2 = some d →
      ∃ dc dpd diu dcol did, d = node leaf leaf leaf dc dpd diu dcol did ∧
        entM (RBT_remove_at_least_inner t k).1 + {(did, dc, dpd, diu)} =
          entM t ∧
        almostNoDB (RBT_remove_at_least_inner t k).1 = true ∧
        redOk (RBT_remove_at_least_inner t k).1 = true ∧
        dbhb (RBT_remove_at_least_inner t k).1 = some H ∧
        bucketsOk (RBT_remove_at_least_inner t k).1 = true ∧
        (isRed (RBT_remove_at_least_inner t k).1 = true → isRed t = true) ∧
        (isDB (RBT_remove_at_least_inner t k).1 = true →
          rootColor t = BLACK)) := by
  induction t with
  | leaf =>
    intro k H _ _ _ _ _
    exact ⟨fun _ => rfl, fun d hdd => by simp [RBT_remove_at_least_inner] at hdd⟩
  | dbleaf =>
    intro k H hn _ _ _ _
    simp [noDB] at hn
  | node l r nx cap pd iu col id ihl ihr ihn =>
    intro k H hn hred hd hids hbk
    obtain ⟨hcne, hnl, hnr⟩ := noDB_node_elim hn
    obtain ⟨himp, hrl, hrr⟩ := redOk_node_elim hred
    obtain ⟨x, hxl, hxr, hb⟩ := dbhb_node_elim hd
    obtain ⟨hndnx, hndl, hndr, hidnx, hidl, hidr⟩ := idsL_nodup_parts hids
    have hbk' := hbk
    rw [buckets_node, Bool.and_eq_true, Bool.and_eq_true] at hbk'
    obtain ⟨⟨hck, hbbl⟩, hbbr⟩ := hbk'
    subst hb
    have hcolrb : col = RED ∨ col = BLACK := by
      cases col with
      | DOUBLE_BLACK => exact absurd rfl hcne
      | RED => exact Or.inl rfl
      | BLACK => exact Or.inr rfl
    by_cases hk : k = cap
    · have heq : RBT_remove_at_least_inner (node l r nx cap pd iu col id) k =
          RBT_remove_root (node l r nx cap pd iu col id) := by
        simp only [RBT_remove_at_least_inner]
        rw [if_pos hk]
      obtain ⟨dpd, diu, dcol, did, s1, s2, s3, s4, s5, s6, s7, s8⟩ :=
        remove_root_spec l r nx cap pd iu col id (x + cw col) hn hred hd hids hbk
      rw [heq]
      constructor
      · intro hnone
        rw [s1] at hnone
        cases hnone
      · intro d hdd
        rw [s1] at hdd
        refine ⟨cap, dpd, diu, dcol, did, (Option.some.inj hdd).symm, s2, s3,
          s4, s5, s6, ?_, ?_⟩
        · intro hq
          rw [s7 hq]
          simp [isRed]
        · intro hq
          simp [rootColor, s8 hq]
    · by_cases hlt : k < cap
      · rcases hres : (RBT_remove_at_least_inner l k).2 with _ | d0
        · have heq : RBT_remove_at_least_inner (node l r nx cap pd iu col id) k =
              RBT_remove_root (node l r nx cap pd iu col id) := by
            simp only [RBT_remove_at_least_inner]
            rw [if_neg hk, if_pos hlt]
            simp [hres]
          obtain ⟨dpd, diu, dcol, did, s1, s2, s3, s4, s5, s6, s7, s8⟩ :=
            remove_root_spec l r nx cap pd iu col id (x + cw col) hn hred hd
              hids hbk
          rw [heq]
          constructor
          · intro hnone
            rw [s1] at hnone
            cases hnone
          · intro d hdd
            rw [s1] at hdd
            refine ⟨cap, dpd, diu, dcol, did, (Option.some.inj hdd).symm, s2,
              s3, s4, s5, s6, ?_, ?_⟩
            · intro hq
              rw [s7 hq]
              simp [isRed]
            · intro hq
              simp [rootColor, s8 hq]
        · obtain ⟨-, IH2⟩ := ihl k x hnl hrl hxl hndl hbbl
          obtain ⟨dc, dpd, diu, dcol, did, i1, i2, i3, i4, i5, i6, i7, i8⟩ :=
            IH2 d0 hres
          have hP := propagate_spec (RBT_remove_at_least_inner l k).1 r nx cap
            pd iu col id x hcolrb i3 i4 i5 (almostNoDB_of_noDB hnr) hrr hxr
            (Or.inr (isDB_false_of_noDB hnr))
            (fun hc => ⟨by
                cases hq : isRed (RBT_remove_at_least_inner l k).1
                · rfl
                · exact absurd (i7 hq) (by simp [(himp hc).1]),
              (himp hc).2⟩)
          obtain ⟨p1, p2, p3, p4, p5, p6⟩ := hP
          have heq : RBT_remove_at_least_inner (node l r nx cap pd iu col id) k =
              (RBT_propagate_double_blackness
                (node (RBT_remove_at_least_inner l k).1 r nx cap pd iu col id),
               some d0) := by
            simp only [RBT_remove_at_least_inner]
            rw [if_neg hk, if_pos hlt]
            simp [hres]
          rw [heq]
          refine ⟨fun hcontra => by simp at hcontra, ?_⟩
          intro d hdd
          have hd0 : d0 = d := Option.some.inj hdd
          subst hd0
          refine ⟨dc, dpd, diu, dcol, did, i1, ?_, p1, p2, ?_, ?_, ?_, ?_⟩
          · rw [p4]
            simp only [entM_node]
            calc ({(id, cap, pd, iu)} : Multiset Entry) + entM nx +
                  entM (RBT_remove_at_least_inner l k).1 + entM r +
                  {(did, dc, dpd, diu)}
                = {(id, cap, pd, iu)} + entM nx +
                  (entM (RBT_remove_at_least_inner l k).1 +
                    {(did, dc, dpd, diu)}) + entM r := by abel
              _ = {(id, cap, pd, iu)} + entM nx + entM l + entM r := by rw [i2]
          · rw [p3]
          · exact buckets_propagate
              (node (RBT_remove_at_least_inner l k).1 r nx cap pd iu col id)
              (by simp [buckets_node, hck, i6, hbbr])
          · intro hq
            rw [p5 hq]
            simp [isRed]
          · intro hq
            simp [rootColor, p6 hq]
      · rcases hres : (RBT_remove_at_least_inner r k).2 with _ | d0
        · have heq : RBT_remove_at_least_inner (node l r nx cap pd iu col id) k =
              (node l r nx cap pd iu col id, none) := by
            simp only [RBT_remove_at_least_inner]
            rw [if_neg hk, if_neg hlt]
            simp [hres]
          rw [heq]
          exact ⟨fun _ => rfl, fun d hdd => by simp at hdd⟩
        · obtain ⟨-, IH2⟩ := ihr k x hnr hrr hxr hndr hbbr
          obtain ⟨dc, dpd, diu, dcol, did, i1, i2, i3, i4, i5, i6, i7, i8⟩ :=
            IH2 d0 hres
          have hP := propagate_spec l (RBT_remove_at_least_inner r k).1 nx cap
            pd iu col id x hcolrb (almostNoDB_of_noDB hnl) hrl hxl i3 i4 i5
            (Or.inl (isDB_false_of_noDB hnl))
            (fun hc => ⟨(himp hc).1, by
                cases hq : isRed (RBT_remove_at_least_inner r k).1
                · rfl
                · exact absurd (i7 hq) (by simp [(himp hc).2])⟩)
          obtain ⟨p1, p2, p3, p4, p5, p6⟩ := hP
          have heq : RBT_remove_at_least_inner (node l r nx cap pd iu col id) k =
              (RBT_propagate_double_blackness
                (node l (RBT_remove_at_least_inner r k).1 nx cap pd iu col id),
               some d0) := by
            simp only [RBT_remove_at_least_inner]
            rw [if_neg hk, if_neg hlt]
            simp [hres]
          rw [heq]
          refine ⟨fun hcontra => by simp at hcontra, ?_⟩
          intro d hdd
          have hd0 : d0 = d := Option.some.inj hdd
          subst hd0
          refine ⟨dc, dpd, diu, dcol, did, i1, ?_, p1, p2, ?_, ?_, ?_, ?_⟩
          · rw [p4]
            simp only [entM_node]
            calc ({(id, cap, pd, iu)} : Multiset Entry) + entM nx + entM l +
                  entM (RBT_remove_at_least_inner r k).1 +
                  {(did, dc, dpd, diu)}
                = {(id, cap, pd, iu)} + entM nx + entM l +
                  (entM (RBT_remove_at_least_inner r k).1 +
                    {(did, dc, dpd, diu)}) := by abel
              _ = {(id, cap, pd, iu)} + entM nx + entM l + entM r := by rw [i2]
          · rw [p3]
          · exact buckets_propagate
              (node l (RBT_remove_at_least_inner r k).1 nx cap pd iu col id)
              (by simp [buckets_node, hck, i6, hbbl])
          · intro hq
            rw [p5 hq]
            simp [isRed]
          · intro hq
            simp [rootColor, p6 hq]


/-- Specification of the public `RBT_remove_at_least`: `*removed` equal to
`NULL` means the tree is handed back untouched; a removed node comes back
fully nulled out with entries conserved, and the returned tree satisfies
the red-black invariants again (BLACK or absent root included). -/
theorem remove_at_least_spec (t : Tree) (k : Nat)
    (h1 : validSub t) (h2 : t = leaf ∨ rootColor t = BLACK)
    (h3 : bucketsOk t = true) (h4 : (idsL t).Nodup) :
    ((RBT_remove_at_least t k).2 = none → (RBT_remove_at_least t k).1 = t) ∧
    (∀ d, (RBT_remove_at_least t k).2 = some d →
      (∃ dc dpd diu dcol did, d = node leaf leaf leaf dc dpd diu dcol did ∧
        entM (RBT_remove_at_least t k).1 + {(did, dc, dpd, diu)} = entM t) ∧
      validSub (RBT_remove_at_least t k).1 ∧
      ((RBT_remove_at_least t k).1 = leaf ∨
        rootColor (RBT_remove_at_least t k).1 = BLACK) ∧
      bucketsOk (RBT_remove_at_least t k).1 = true ∧
      (idsL (RBT_remove_at_least t k).1).Nodup) := by
  obtain ⟨hn, hr, hdb⟩ := h1
  cases t with
  | leaf =>
    exact ⟨fun _ => rfl, fun d hdd => by simp [RBT_remove_at_least,
      RBT_remove_at_least_inner] at hdd⟩
  | dbleaf => simp [noDB] at hn
  | node l r nx cap pd iu col id =>
    rw [Option.isSome_iff_exists] at hdb
    obtain ⟨H, hd⟩ := hdb
    obtain ⟨N, S⟩ := remove_at_least_inner_spec (node l r nx cap pd iu col id)
      k H hn hr hd h4 h3
    have hcolB : col = BLACK := by
      rcases h2 with h | h
      · cases h
      · simpa [rootColor] using h
    subst hcolB
    rcases hres : (RBT_remove_at_least_inner (node l r nx cap pd iu BLACK id)
        k).2 with _ | d0
    · have hN := N hres
      have heq : RBT_remove_at_least (node l r nx cap pd iu BLACK id) k =
          (node l r nx cap pd iu BLACK id, none) := by
        rw [RBT_remove_at_least]
        rw [hN, hres]
      rw [heq]
      exact ⟨fun _ => rfl, fun d hdd => by simp at hdd⟩
    · obtain ⟨dc, dpd, diu, dcol, did, i1, i2, i3, i4, i5, i6, i7, i8⟩ :=
        S d0 hres
      rcases hshape : (RBT_remove_at_least_inner (node l r nx cap pd iu BLACK
          id) k).1 with _ | _ | ⟨a, b, anx, acap, apd, aiu, acol, aid⟩
      · have heq : RBT_remove_at_least (node l r nx cap pd iu BLACK id) k =
            (leaf, some d0) := by
          rw [RBT_remove_at_least, hshape, hres]
        rw [heq]
        rw [hshape] at i2
        refine ⟨fun hdd => by simp at hdd, ?_⟩
        intro d hdd
        have hd0 : d0 = d := Option.some.inj hdd
        subst hd0
        refine ⟨⟨dc, dpd, diu, dcol, did, i1, i2⟩, ⟨rfl, rfl, rfl⟩,
          Or.inl rfl, rfl, List.nodup_nil⟩
      · have heq : RBT_remove_at_least (node l r nx cap pd iu BLACK id) k =
            (leaf, some d0) := by
          rw [RBT_remove_at_least, hshape, hres]
        rw [heq]
        rw [hshape] at i2
        refine ⟨fun hdd => by simp at hdd, ?_⟩
        intro d hdd
        have hd0 : d0 = d := Option.some.inj hdd
        subst hd0
        refine ⟨⟨dc, dpd, diu, dcol, did, i1, ?_⟩, ⟨rfl, rfl, rfl⟩,
          Or.inl rfl, rfl, List.nodup_nil⟩
        simpa [entM_leaf, entM_dbleaf] using i2
      · have heq : RBT_remove_at_least (node l r nx cap pd iu BLACK id) k =
            (node a b anx acap apd aiu BLACK aid, some d0) := by
          rw [RBT_remove_at_least, hshape, hres]
        rw [heq]
        rw [hshape] at i2 i3 i4 i5 i6
        refine ⟨fun hdd => by simp at hdd, ?_⟩
        intro d hdd
        have hd0 : d0 = d := Option.some.inj hdd
        subst hd0
        have hent : entM (node a b anx acap apd aiu BLACK aid) +
            {(did, dc, dpd, diu)} = entM (node l r nx cap pd iu BLACK id) := i2
        have hnodup : (idsL (node a b anx acap apd aiu BLACK aid)).Nodup := by
          apply ids_nodup_of_entM_le _ h4
          rw [← hent]
          exact Multiset.le_add_right _ _
        refine ⟨⟨dc, dpd, diu, dcol, did, i1, hent⟩, ⟨?_, ?_, ?_⟩,
          Or.inr rfl, i6, hnodup⟩
        · simp only [almostNoDB, Bool.and_eq_true] at i3
          simp [noDB, i3.1, i3.2]
        · obtain ⟨himp', hra, hrb⟩ := redOk_node_elim i4
          simp [redOk, hra, hrb]
        · obtain ⟨y, hya, hyb, _⟩ := dbhb_node_elim i5
          rw [Option.isSome_iff_exists]
          exact ⟨y + cw BLACK, dbhb_node_intro _ _ _ _ _ _ hya hyb⟩


/-! ### Capacity bounds from search order and bucket shape -/

theorem capsL_node (l r nx : Tree) (cap pd : Nat) (iu : Bool) (col : RBc)
    (id : Nat) :
    capsL (node l r nx cap pd iu col id) =
      cap :: (capsL nx ++ capsL l ++ capsL r) := by
  simp [capsL, entriesL]

theorem bstB_node_elim {l r nx : Tree} {cap pd : Nat} {iu : Bool} {col : RBc}
    {id : Nat} {lo hi : Option Nat}
    (h : bstB lo (node l r nx cap pd iu col id) hi = true) :
    (∀ a, lo = some a → a < cap) ∧ (∀ b, hi = some b → cap < b) ∧
      bstB lo l (some cap) = true ∧ bstB (some cap) r hi = true := by
  simp only [bstB, Bool.and_eq_true] at h
  obtain ⟨⟨⟨hlo, hhi⟩, hl⟩, hr⟩ := h
  refine ⟨?_, ?_, hl, hr⟩
  · intro a ha
    subst ha
    simpa using hlo
  · intro b hb
    subst hb
    simpa using hhi

theorem chain_caps (nx : Tree) : ∀ cap, chainOk cap nx = true →
    ∀ c ∈ capsL nx, c = cap := by
  induction nx with
  | leaf => intro cap _ c hc; simp [capsL, entriesL] at hc
  | dbleaf => intro cap h; simp [chainOk] at h
  | node l r nx2 c2 pd iu col id ihl ihr ihn =>
    intro cap h c hc
    simp only [chainOk, Bool.and_eq_true, decide_eq_true_eq] at h
    obtain ⟨⟨⟨h1, h2⟩, h3⟩, h4⟩ := h
    subst h1
    subst h2
    rw [capsL_node] at hc
    rcases List.mem_cons.1 hc with h | h
    · omega
    · rw [List.mem_append, List.mem_append] at h
      rcases h with (h | h) | h
      · exact ihn cap h4 c h
      · simp [capsL, entriesL] at h
      · simp [capsL, entriesL] at h

theorem caps_bounded (t : Tree) : ∀ (lo hi : Option Nat),
    bstB lo t hi = true → bucketsOk t = true →
    ∀ c ∈ capsL t, (∀ a, lo = some a → a < c) ∧
      (∀ b, hi = some b → c < b) := by
  induction t with
  | leaf => intro lo hi _ _ c hc; simp [capsL, entriesL] at hc
  | dbleaf => intro lo hi _ _ c hc; simp [capsL, entriesL] at hc
  | node l r nx cap pd iu col id ihl ihr ihn =>
    intro lo hi hbst hbk c hc
    obtain ⟨hlo, hhi, hbl, hbr⟩ := bstB_node_elim hbst
    rw [buckets_node, Bool.and_eq_true, Bool.and_eq_true] at hbk
    obtain ⟨⟨hck, hkl⟩, hkr⟩ := hbk
    rw [capsL_node] at hc
    rcases List.mem_cons.1 hc with h | h
    · subst h
      exact ⟨hlo, hhi⟩
    · rcases List.mem_append.1 h with h | h
      · rcases List.mem_append.1 h with h | h
        · have : c = cap := chain_caps nx cap hck c h
          subst this
          exact ⟨hlo, hhi⟩
        · obtain ⟨ha, hb⟩ := ihl lo (some cap) hbl hkl c h
          have hccap : c < cap := hb cap rfl
          refine ⟨ha, ?_⟩
          intro b hbeq
          have := hhi b hbeq
          omega
      · obtain ⟨ha, hb⟩ := ihr (some cap) hi hbr hkr c h
        have hcapc : cap < c := ha cap rfl
        refine ⟨?_, hb⟩
        intro a haeq
        have := hlo a haeq
        omega

theorem remove_empty_root_snd (l r nx : Tree) (cap pd : Nat) (iu : Bool)
    (col : RBc) (id : Nat) :
    (RBT_remove_empty_root (node l r nx cap pd iu col id)).2 =
      node leaf leaf nx cap pd iu col id := by
  cases l with
  | leaf =>
    cases r with
    | leaf => cases col <;> rfl
    | dbleaf => rfl
    | node rl rr rnx rcap rpd riu rcol rid => cases rcol <;> rfl
  | dbleaf =>
    cases r with
    | leaf => rfl
    | dbleaf => rfl
    | node rl rr rnx rcap rpd riu rcol rid => rfl
  | node ll lr lnx lcap lpd liu lcol lid =>
    cases r with
    | leaf => cases lcol <;> rfl
    | dbleaf => rfl
    | node rl rr rnx rcap rpd riu rcol rid =>
      simp only [RBT_remove_empty_root]
      by_cases hll : ll = leaf ∧ lr = leaf
      · rw [if_neg (by simp), if_neg (by simp), if_pos hll]
      · rw [if_neg (by simp), if_neg (by simp), if_neg hll]
        cases rl with
        | leaf => rfl
        | dbleaf => simp [RBT_find_swap]
        | node c1 c2 c3 c4 c5 c6 c7 c8 =>
          rcases hfs : (RBT_find_swap (node (node c1 c2 c3 c4 c5 c6 c7 c8) rr
              rnx rcap rpd riu rcol rid)).2.1 with _ | _ |
            ⟨s1, s2, s3, s4, s5, s6, s7, s8⟩ <;> simp [hfs]

theorem remove_root_snd_cap (l r nx : Tree) (cap pd : Nat) (iu : Bool)
    (col : RBc) (id : Nat)
    (hbk : bucketsOk (node l r nx cap pd iu col id) = true) :
    ∃ d, (RBT_remove_root (node l r nx cap pd iu col id)).2 = some d ∧
      tcap d = cap := by
  rw [buckets_node, Bool.and_eq_true, Bool.and_eq_true] at hbk
  obtain ⟨⟨hck, _⟩, _⟩ := hbk
  cases nx with
  | dbleaf => simp [chainOk] at hck
  | node tl tr tnx tcap2 tpd tiu tcol tid =>
    simp only [chainOk, Bool.and_eq_true, decide_eq_true_eq] at hck
    obtain ⟨⟨⟨h1, h2⟩, h3⟩, _⟩ := hck
    subst h3
    exact ⟨node tl tr leaf tcap2 tpd tiu tcol tid, rfl, rfl⟩
  | leaf =>
    refine ⟨node leaf leaf leaf cap pd iu col id, ?_, rfl⟩
    show some (RBT_remove_empty_root (node l r leaf cap pd iu col id)).2 = _
    rw [remove_empty_root_snd]


/-- Best-fit part of the specification of `RBT_remove_at_least_inner`:
under search order and bucket shape, `NULL` is stored exactly when no
stored capacity reaches `k`, and a removed node carries the smallest
stored capacity that does. -/
theorem remove_at_least_inner_min (t : Tree) : ∀ (k : Nat) (lo hi : Option Nat),
    bstB lo t hi = true → bucketsOk t = true →
    ((RBT_remove_at_least_inner t k).2 = none → ∀ c ∈ capsL t, c < k) ∧
    (∀ d, (RBT_remove_at_least_inner t k).2 = some d →
      tcap d ∈ capsL t ∧ k ≤ tcap d ∧
      ∀ c ∈ capsL t, k ≤ c → tcap d ≤ c) := by
  induction t with
  | leaf =>
    intro k lo hi _ _
    exact ⟨fun _ c hc => by simp [capsL, entriesL] at hc,
      fun d hdd => by simp [RBT_remove_at_least_inner] at hdd⟩
  | dbleaf =>
    intro k lo hi _ _
    exact ⟨fun _ c hc => by simp [capsL, entriesL] at hc,
      fun d hdd => by simp [RBT_remove_at_least_inner] at hdd⟩
  | node l r nx cap pd iu col id ihl ihr ihn =>
    intro k lo hi hbst hbk
    obtain ⟨hlo, hhi, hbstl, hbstr⟩ := bstB_node_elim hbst
    have hbk' := hbk
    rw [buckets_node, Bool.and_eq_true, Bool.and_eq_true] at hbk'
    obtain ⟨⟨hck, hkl⟩, hkr⟩ := hbk'
    have hcapsl := caps_bounded l lo (some cap) hbstl hkl
    have hcapsr := caps_bounded r (some cap) hi hbstr hkr
    by_cases hk : k = cap
    · have heq : RBT_remove_at_least_inner (node l r nx cap pd iu col id) k =
          RBT_remove_root (node l r nx cap pd iu col id) := by
        simp only [RBT_remove_at_least_inner]
        rw [if_pos hk]
      obtain ⟨d0, hd0, hd0cap⟩ := remove_root_snd_cap l r nx cap pd iu col id hbk
      rw [heq]
      constructor
      · intro hnone
        rw [hd0] at hnone
        cases hnone
      · intro d hdd
        rw [hd0] at hdd
        obtain rfl : d0 = d := Option.some.inj hdd
        refine ⟨by rw [hd0cap, capsL_node]; exact List.mem_cons_self _ _,
          by omega, ?_⟩
        intro c _ hkc
        omega
    · by_cases hlt : k < cap
      · rcases hres : (RBT_remove_at_least_inner l k).2 with _ | d0
        · obtain ⟨INone, -⟩ := ihl k lo (some cap) hbstl hkl
          have hleftsmall := INone hres
          have heq : RBT_remove_at_least_inner (node l r nx cap pd iu col id) k =
              RBT_remove_root (node l r nx cap pd iu col id) := by
            simp only [RBT_remove_at_least_inner]
            rw [if_neg hk, if_pos hlt]
            simp [hres]
          obtain ⟨d0, hd0, hd0cap⟩ := remove_root_snd_cap l r nx cap pd iu col
            id hbk
          rw [heq]
          constructor
          · intro hnone
            rw [hd0] at hnone
            cases hnone
          · intro d hdd
            rw [hd0] at hdd
            obtain rfl : d0 = d := Option.some.inj hdd
            refine ⟨by rw [hd0cap, capsL_node]; exact List.mem_cons_self _ _,
              by omega, ?_⟩
            intro c hc hkc
            rw [capsL_node] at hc
            rw [hd0cap]
            rcases List.mem_cons.1 hc with h | h
            · omega
            · rw [List.mem_append, List.mem_append] at h
              rcases h with (h | h) | h
              · have := chain_caps nx cap hck c h
                omega
              · have := hleftsmall c h
                omega
              · have := (hcapsr c h).1 cap rfl
                omega
        · obtain ⟨-, ISome⟩ := ihl k lo (some cap) hbstl hkl
          obtain ⟨m1, m2, m3⟩ := ISome d0 hres
          have heq : RBT_remove_at_least_inner (node l r nx cap pd iu col id) k =
              (RBT_propagate_double_blackness
                (node (RBT_remove_at_least_inner l k).1 r nx cap pd iu col id),
               some d0) := by
            simp only [RBT_remove_at_least_inner]
            rw [if_neg hk, if_pos hlt]
            simp [hres]
          rw [heq]
          refine ⟨fun hnone => by simp at hnone, ?_⟩
          intro d hdd
          obtain rfl : d0 = d := Option.some.inj hdd
          have hdlt := (hcapsl _ m1).2 cap rfl
          refine ⟨by
            rw [capsL_node]
            exact List.mem_cons.2 (Or.inr (List.mem_append.2 (Or.inl
              (List.mem_append.2 (Or.inr m1))))), m2, ?_⟩
          intro c hc hkc
          rw [capsL_node] at hc
          rcases List.mem_cons.1 hc with h | h
          · omega
          · rw [List.mem_append, List.mem_append] at h
            rcases h with (h | h) | h
            · have := chain_caps nx cap hck c h
              omega
            · exact m3 c h hkc
            · have := (hcapsr c h).1 cap rfl
              omega
      · rcases hres : (RBT_remove_at_least_inner r k).2 with _ | d0
        · obtain ⟨INone, -⟩ := ihr k (some cap) hi hbstr hkr
          have hrs := INone hres
          have heq : RBT_remove_at_least_inner (node l r nx cap pd iu col id) k =
              (node l r nx cap pd iu col id, none) := by
            simp only [RBT_remove_at_least_inner]
            rw [if_neg hk, if_neg hlt]
            simp [hres]
          rw [heq]
          refine ⟨?_, fun d hdd => by simp at hdd⟩
          intro _ c hc
          rw [capsL_node] at hc
          rcases List.mem_cons.1 hc with h | h
          · omega
          · rw [List.mem_append, List.mem_append] at h
            rcases h with (h | h) | h
            · have := chain_caps nx cap hck c h
              omega
            · have := (hcapsl c h).2 cap rfl
              omega
            · exact hrs c h
        · obtain ⟨-, ISome⟩ := ihr k (some cap) hi hbstr hkr
          obtain ⟨m1, m2, m3⟩ := ISome d0 hres
          have heq : RBT_remove_at_least_inner (node l r nx cap pd iu col id) k =
              (RBT_propagate_double_blackness
                (node l (RBT_remove_at_least_inner r k).1 nx cap pd iu col id),
               some d0) := by
            simp only [RBT_remove_at_least_inner]
            rw [if_neg hk, if_neg hlt]
            simp [hres]
          rw [heq]
          refine ⟨fun hnone => by simp at hnone, ?_⟩
          intro d hdd
          obtain rfl : d0 = d := Option.some.inj hdd
          refine ⟨by
            rw [capsL_node]
            exact List.mem_cons.2 (Or.inr (List.mem_append.2 (Or.inr m1))),
            m2, ?_⟩
          intro c hc hkc
          rw [capsL_node] at hc
          rcases List.mem_cons.1 hc with h | h
          · omega
          · rw [List.mem_append, List.mem_append] at h
            rcases h with (h | h) | h
            · have := chain_caps nx cap hck c h
              omega
            · have := (hcapsl c h).2 cap rfl
              omega
            · exact m3 c h hkc


theorem remove_at_least_snd (t : Tree) (k : Nat) :
    (RBT_remove_at_least t k).2 = (RBT_remove_at_least_inner t k).2 := by
  cases hsh : (RBT_remove_at_least_inner t k).1 <;>
    simp [RBT_remove_at_least, hsh]

/-- Claim C2: on a well-formed tree, `RBT_remove_at_least` stores `NULL`
exactly when no stored capacity (tree node or bucket member) reaches the
request `k`, and then returns the tree untouched; otherwise the stored
node carries the minimum stored capacity that is at least `k`, and the
returned tree holds exactly the remaining entries. -/
theorem claim_C2 (t : Tree) (k : Nat) (hwf : WF t) :
    ((RBT_remove_at_least t k).2 = none ↔ ∀ c ∈ capsL t, c < k) ∧
    ((RBT_remove_at_least t k).2 = none → (RBT_remove_at_least t k).1 = t) ∧
    (∀ d, (RBT_remove_at_least t k).2 = some d →
      k ≤ tcap d ∧ tcap d ∈ capsL t ∧
      (∀ c ∈ capsL t, k ≤ c → tcap d ≤ c) ∧
      entM (RBT_remove_at_least t k).1 + entM d = entM t) := by
  obtain ⟨h1, h2, hbst, hbk, hnd⟩ := hwf
  have hsnd : (RBT_remove_at_least t k).2 = (RBT_remove_at_least_inner t k).2 :=
    remove_at_least_snd t k
  obtain ⟨SN, SS⟩ := remove_at_least_spec t k h1 h2 hbk hnd
  obtain ⟨MN, MS⟩ := remove_at_least_inner_min t k none none hbst hbk
  rcases hres : (RBT_remove_at_least_inner t k).2 with _ | d0
  · have htop : (RBT_remove_at_least t k).2 = none := hsnd.trans hres
    refine ⟨⟨fun _ => MN hres, fun _ => htop⟩, fun _ => SN htop, ?_⟩
    intro d hdd
    rw [htop] at hdd
    cases hdd
  · have htop : (RBT_remove_at_least t k).2 = some d0 := hsnd.trans hres
    obtain ⟨⟨dc, dpd, diu, dcol, did, s1, s2⟩, sv, sroot, sbk, snodup⟩ :=
      SS d0 htop
    obtain ⟨m1, m2, m3⟩ := MS d0 hres
    refine ⟨⟨?_, ?_⟩, ?_, ?_⟩
    · intro h
      rw [htop] at h
      cases h
    · intro hall
      exfalso
      have := hall (tcap d0) m1
      omega
    · intro h
      rw [htop] at h
      cases h
    · intro d hdd
      rw [htop] at hdd
      obtain rfl : d0 = d := Option.some.inj hdd
      refine ⟨m2, m1, m3, ?_⟩
      have he : entM (node leaf leaf leaf dc dpd diu dcol did) =
          ({(did, dc, dpd, diu)} : Multiset Entry) := by
        simp [entM_node, entM_leaf]
      rw [s1, he]
      exact s2

/-- Witness: claim C2 instantiated on the concrete two-node tree built by
inserting 10 then 5, with request 7 (removing the 10). -/
theorem claim_C2_witness :
    WF slantTree ∧
    (((RBT_remove_at_least slantTree 7).2 = none ↔
        ∀ c ∈ capsL slantTree, c < 7) ∧
      ((RBT_remove_at_least slantTree 7).2 = none →
        (RBT_remove_at_least slantTree 7).1 = slantTree) ∧
      (∀ d, (RBT_remove_at_least slantTree 7).2 = some d →
        7 ≤ tcap d ∧ tcap d ∈ capsL slantTree ∧
        (∀ c ∈ capsL slantTree, 7 ≤ c → tcap d ≤ c) ∧
        entM (RBT_remove_at_least slantTree 7).1 + entM d =
          entM slantTree)) :=
  ⟨by unfold WF validSub; decide, claim_C2 slantTree 7 (by unfold WF validSub; decide)⟩


/-- Specification of the bucket search of `RBT_remove_node_root`: an
absent address leaves the list untouched; a present address is unlinked
(nulled out), the list keeps its shape, and entries are conserved. -/
theorem remove_from_list_spec (nx : Tree) : ∀ (nid cap : Nat),
    chainOk cap nx = true →
    (nid ∉ idsL nx → RBT_remove_from_list nid nx = (nx, none)) ∧
    (nid ∈ idsL nx →
      ∃ pd iu col, (RBT_remove_from_list nid nx).2 =
          some (node leaf leaf leaf cap pd iu col nid) ∧
        chainOk cap (RBT_remove_from_list nid nx).1 = true ∧
        entM (RBT_remove_from_list nid nx).1 + {(nid, cap, pd, iu)} =
          entM nx) := by
  induction nx with
  | leaf =>
    intro nid cap _
    exact ⟨fun _ => rfl, fun hmem => by simp [idsL, entriesL] at hmem⟩
  | dbleaf =>
    intro nid cap h
    simp [chainOk] at h
  | node l r nx2 c2 pd2 iu2 col2 id2 ihl ihr ihn =>
    intro nid cap h
    simp only [chainOk, Bool.and_eq_true, decide_eq_true_eq] at h
    obtain ⟨⟨⟨h1, h2⟩, h3⟩, h4⟩ := h
    subst h1
    subst h2
    subst h3
    by_cases hid : id2 = nid
    · subst hid
      have heq : RBT_remove_from_list id2 (node leaf leaf nx2 c2 pd2 iu2 col2
          id2) = (nx2, some (node leaf leaf leaf c2 pd2 iu2 col2 id2)) := by
        simp [RBT_remove_from_list]
      constructor
      · intro habs
        exact absurd (by simp [idsL_node]) habs
      · intro _
        rw [heq]
        refine ⟨pd2, iu2, col2, rfl, h4, ?_⟩
        simp only [entM_node, entM_leaf]
        abel
    · have heq : RBT_remove_from_list nid (node leaf leaf nx2 c2 pd2 iu2 col2
          id2) = (node leaf leaf (RBT_remove_from_list nid nx2).1 c2 pd2 iu2
          col2 id2, (RBT_remove_from_list nid nx2).2) := by
        simp [RBT_remove_from_list, hid]
      obtain ⟨A, P⟩ := ihn nid c2 h4
      constructor
      · intro habs
        have habs2 : nid ∉ idsL nx2 := by
          intro hm
          apply habs
          rw [idsL_node, List.mem_cons]
          right
          rw [List.mem_append]
          left
          rw [List.mem_append]
          left
          exact hm
        rw [heq, A habs2]
      · intro hmem
        have hmem2 : nid ∈ idsL nx2 := by
          rw [idsL_node, List.mem_cons] at hmem
          rcases hmem with h | h
          · exact absurd h.symm hid
          · rw [List.mem_append] at h
            rcases h with h | h
            · rw [List.mem_append] at h
              rcases h with h | h
              · exact h
              · simp [idsL, entriesL] at h
            · simp [idsL, entriesL] at h
        obtain ⟨pdx, iux, colx, e1, e2, e3⟩ := P hmem2
        rw [heq]
        refine ⟨pdx, iux, colx, e1, ?_, ?_⟩
        · simp [chainOk, e2]
        · simp only [entM_node, entM_leaf]
          calc ({(id2, c2, pd2, iu2)} : Multiset Entry) +
                entM (RBT_remove_from_list nid nx2).1 + 0 + 0 +
                {(nid, c2, pdx, iux)}
              = {(id2, c2, pd2, iu2)} +
                (entM (RBT_remove_from_list nid nx2).1 +
                  {(nid, c2, pdx, iux)}) + 0 + 0 := by abel
            _ = {(id2, c2, pd2, iu2)} + entM nx2 + 0 + 0 := by rw [e3]


/-- Specification of `RBT_remove_node_root`, reached at the tree node whose
capacity matches the handle: an address that is neither this node nor in
its bucket yields `NULL` and the untouched node; a present address is
detached nulled out with entries conserved and validity restored below a
possibly doubly-black root. -/
theorem remove_node_root_spec (l r nx : Tree) (cap pd : Nat) (iu : Bool)
    (col : RBc) (id : Nat) (nid : Nat) (H : Nat)
    (hn : noDB (node l r nx cap pd iu col id) = true)
    (hred : redOk (node l r nx cap pd iu col id) = true)
    (hd : dbhb (node l r nx cap pd iu col id) = some H)
    (hids : (idsL (node l r nx cap pd iu col id)).Nodup)
    (hbk : bucketsOk (node l r nx cap pd iu col id) = true) :
    (¬(nid = id ∨ nid ∈ idsL nx) →
      RBT_remove_node_root (node l r nx cap pd iu col id) nid =
        (node l r nx cap pd iu col id, none)) ∧
    ((nid = id ∨ nid ∈ idsL nx) →
      ∃ dpd diu dcol,
        (RBT_remove_node_root (node l r nx cap pd iu col id) nid).2 =
          some (node leaf leaf leaf cap dpd diu dcol nid) ∧
        entM (RBT_remove_node_root (node l r nx cap pd iu col id) nid).1 +
          {(nid, cap, dpd, diu)} = entM (node l r nx cap pd iu col id) ∧
        almostNoDB (RBT_remove_node_root (node l r nx cap pd iu col id)
          nid).1 = true ∧
        redOk (RBT_remove_node_root (node l r nx cap pd iu col id) nid).1 =
          true ∧
        dbhb (RBT_remove_node_root (node l r nx cap pd iu col id) nid).1 =
          some H ∧
        bucketsOk (RBT_remove_node_root (node l r nx cap pd iu col id)
          nid).1 = true ∧
        (isRed (RBT_remove_node_root (node l r nx cap pd iu col id) nid).1 =
          true → col = RED) ∧
        (isDB (RBT_remove_node_root (node l r nx cap pd iu col id) nid).1 =
          true → col = BLACK)) := by
  obtain ⟨hcne, hnl, hnr⟩ := noDB_node_elim hn
  have hbk' := hbk
  rw [buckets_node, Bool.and_eq_true, Bool.and_eq_true] at hbk'
  obtain ⟨⟨hck, hkl⟩, hkr⟩ := hbk'
  by_cases hnid : nid = id
  · subst hnid
    cases nx with
    | dbleaf => simp [chainOk] at hck
    | node nl nr nnx ncap npd niu ncol nnid =>
      simp only [chainOk, Bool.and_eq_true, decide_eq_true_eq] at hck
      obtain ⟨⟨⟨hc1, hc2⟩, hc3⟩, hc4⟩ := hck
      subst hc1
      subst hc2
      subst hc3
      have heq : RBT_remove_node_root (node l r (node leaf leaf nnx ncap npd
          niu ncol nnid) ncap pd iu col nid) nid =
          (node l r nnx ncap npd niu col nnid,
           some (node leaf leaf leaf ncap pd iu col nid)) := by
        simp [RBT_remove_node_root]
      refine ⟨fun habs => absurd (Or.inl rfl) habs, ?_⟩
      intro _
      rw [heq]
      refine ⟨pd, iu, col, rfl, ?_, by simp [almostNoDB, hnl, hnr], hred, hd,
        ?_, ?_, ?_⟩
      · simp only [entM_node, entM_leaf]
        abel
      · simp [buckets_node, hc4, hkl, hkr]
      · cases col with
        | RED => intro _; rfl
        | BLACK => intro h; simp [isRed] at h
        | DOUBLE_BLACK => intro h; simp [isRed] at h
      · cases col with
        | RED => intro h; simp [isDB] at h
        | BLACK => intro _; rfl
        | DOUBLE_BLACK => exact absurd rfl hcne
    | leaf =>
      obtain ⟨s1, s2, s3, s4, s5, s6, s7⟩ :=
        remove_empty_root_spec l r leaf cap pd iu col nid H hn hred hd hids
      have hbe := buckets_remove_empty_root l r leaf cap pd iu col nid hbk
      have heq : RBT_remove_node_root (node l r leaf cap pd iu col nid) nid =
          ((RBT_remove_empty_root (node l r leaf cap pd iu col nid)).1,
           some (RBT_remove_empty_root (node l r leaf cap pd iu col nid)).2) := by
        simp [RBT_remove_node_root]
      refine ⟨fun habs => absurd (Or.inl rfl) habs, ?_⟩
      intro _
      rw [heq]
      refine ⟨pd, iu, col, ?_, ?_, s2, s3, s4, hbe, s6, s7⟩
      · show some _ = _
        rw [s1]
      · have he : entM (node leaf leaf leaf cap pd iu col nid) =
            ({(nid, cap, pd, iu)} : Multiset Entry) := by
          simp [entM_node, entM_leaf]
        show entM (RBT_remove_empty_root (node l r leaf cap pd iu col nid)).1 +
          {(nid, cap, pd, iu)} = entM (node l r leaf cap pd iu col nid)
        rw [← he]
        exact s5
  · have heq : RBT_remove_node_root (node l r nx cap pd iu col id) nid =
        (node l r (RBT_remove_from_list nid nx).1 cap pd iu col id,
         (RBT_remove_from_list nid nx).2) := by
      simp [RBT_remove_node_root, hnid]
    obtain ⟨A, P⟩ := remove_from_list_spec nx nid cap hck
    constructor
    · intro habs
      have habs2 : nid ∉ idsL nx := fun hm => habs (Or.inr hm)
      rw [heq, A habs2]
    · intro hmem
      have hmem2 : nid ∈ idsL nx := by
        rcases hmem with h | h
        · exact absurd h hnid
        · exact h
      obtain ⟨pdx, iux, colx, e1, e2, e3⟩ := P hmem2
      rw [heq]
      refine ⟨pdx, iux, colx, e1, ?_, by simp [almostNoDB, hnl, hnr], hred,
        hd, ?_, ?_, ?_⟩
      · simp only [entM_node]
        calc ({(id, cap, pd, iu)} : Multiset Entry) +
              entM (RBT_remove_from_list nid nx).1 + entM l + entM r +
              {(nid, cap, pdx, iux)}
            = {(id, cap, pd, iu)} +
              (entM (RBT_remove_from_list nid nx).1 +
                {(nid, cap, pdx, iux)}) + entM l + entM r := by abel
          _ = {(id, cap, pd, iu)} + entM nx + entM l + entM r := by rw [e3]
      · simp [buckets_node, e2, hkl, hkr]
      · cases col with
        | RED => intro _; rfl
        | BLACK => intro h; simp [isRed] at h
        | DOUBLE_BLACK => intro h; simp [isRed] at h
      · cases col with
        | RED => intro h; simp [isDB] at h
        | BLACK => intro _; rfl
        | DOUBLE_BLACK => exact absurd rfl hcne


theorem entriesL_node (l r nx : Tree) (cap pd : Nat) (iu : Bool) (col : RBc)
    (id : Nat) :
    entriesL (node l r nx cap pd iu col id) =
      (id, cap, pd, iu) :: (entriesL nx ++ entriesL l ++ entriesL r) := rfl

/-- Specification of `RBT_remove_node_inner`: descending by the handle's
stored capacity, an absent address leaves the subtree untouched and stores
`NULL`; a present address has exactly that node detached (nulled out),
entries conserved, and sub-root validity restored at the same weighted
black height. -/
theorem remove_node_inner_spec (t : Tree) : ∀ (nid k H : Nat)
    (lo hi : Option Nat),
    noDB t = true → redOk t = true → dbhb t = some H →
    (idsL t).Nodup → bucketsOk t = true → bstB lo t hi = true →
    (∀ e ∈ entriesL t, e.1 = nid → e.2.1 = k) →
    (nid ∉ idsL t → RBT_remove_node_inner t nid k = (t, none)) ∧
    (nid ∈ idsL t →
      ∃ dpd diu dcol,
        (RBT_remove_node_inner t nid k).2 =
          some (node leaf leaf leaf k dpd diu dcol nid) ∧
        entM (RBT_remove_node_inner t nid k).1 + {(nid, k, dpd, diu)} =
          entM t ∧
        almostNoDB (RBT_remove_node_inner t nid k).1 = true ∧
        redOk (RBT_remove_node_inner t nid k).1 = true ∧
        dbhb (RBT_remove_node_inner t nid k).1 = some H ∧
        bucketsOk (RBT_remove_node_inner t nid k).1 = true ∧
        (isRed (RBT_remove_node_inner t nid k).1 = true → isRed t = true) ∧
        (isDB (RBT_remove_node_inner t nid k).1 = true →
          rootColor t = BLACK)) := by
  induction t with
  | leaf =>
    intro nid k H lo hi _ _ _ _ _ _ _
    exact ⟨fun _ => rfl, fun hm => by simp [idsL, entriesL] at hm⟩
  | dbleaf =>
    intro nid k H lo hi hn _ _ _ _ _ _
    simp [noDB] at hn
  | node l r nx cap pd iu col id ihl ihr ihn =>
    intro nid k H lo hi hn hred hd hids hbk hbst hcons
    obtain ⟨hcne, hnl, hnr⟩ := noDB_node_elim hn
    obtain ⟨himp, hrl, hrr⟩ := redOk_node_elim hred
    obtain ⟨x, hxl, hxr, hb⟩ := dbhb_node_elim hd
    obtain ⟨hndnx, hndl, hndr, hidnx, hidl, hidr⟩ := idsL_nodup_parts hids
    have hbk' := hbk
    rw [buckets_node, Bool.and_eq_true, Bool.and_eq_true] at hbk'
    obtain ⟨⟨hck, hkl⟩, hkr⟩ := hbk'
    obtain ⟨hlo, hhi, hbstl, hbstr⟩ := bstB_node_elim hbst
    have hcapsl := caps_bounded l lo (some cap) hbstl hkl
    have hcapsr := caps_bounded r (some cap) hi hbstr hkr
    subst hb
    have hcolrb : col = RED ∨ col = BLACK := by
      cases col with
      | DOUBLE_BLACK => exact absurd rfl hcne
      | RED => exact Or.inl rfl
      | BLACK => exact Or.inr rfl
    have hconsnx : ∀ e ∈ entriesL nx, e.1 = nid → e.2.1 = k := by
      intro e he
      exact hcons e (by
        rw [entriesL_node]
        exact List.mem_cons.2 (Or.inr (List.mem_append.2 (Or.inl
          (List.mem_append.2 (Or.inl he))))))
    have hconsl : ∀ e ∈ entriesL l, e.1 = nid → e.2.1 = k := by
      intro e he
      exact hcons e (by
        rw [entriesL_node]
        exact List.mem_cons.2 (Or.inr (List.mem_append.2 (Or.inl
          (List.mem_append.2 (Or.inr he))))))
    have hconsr : ∀ e ∈ entriesL r, e.1 = nid → e.2.1 = k := by
      intro e he
      exact hcons e (by
        rw [entriesL_node]
        exact List.mem_cons.2 (Or.inr (List.mem_append.2 (Or.inr he))))
    by_cases hk : k = cap
    · -- the handle's capacity matches this node
      have heq : RBT_remove_node_inner (node l r nx cap pd iu col id) nid k =
          RBT_remove_node_root (node l r nx cap pd iu col id) nid := by
        simp only [RBT_remove_node_inner]
        rw [if_pos hk]
      obtain ⟨A, P⟩ := remove_node_root_spec l r nx cap pd iu col id nid
        (x + cw col) hn hred hd hids hbk
      have hloc : nid ∈ idsL (node l r nx cap pd iu col id) →
          nid = id ∨ nid ∈ idsL nx := by
        intro hm
        rw [idsL_node, List.mem_cons] at hm
        rcases hm with h | h
        · exact Or.inl h
        · rw [List.mem_append] at h
          rcases h with h | h
          · rw [List.mem_append] at h
            rcases h with h | h
            · exact Or.inr h
            · exfalso
              obtain ⟨e, he, he1⟩ := List.mem_map.1 h
              have hek := hconsl e he he1
              have hcap : e.2.1 ∈ capsL l := List.mem_map.2 ⟨e, he, rfl⟩
              have := (hcapsl e.2.1 hcap).2 cap rfl
              omega
          · exfalso
            obtain ⟨e, he, he1⟩ := List.mem_map.1 h
            have hek := hconsr e he he1
            have hcap : e.2.1 ∈ capsL r := List.mem_map.2 ⟨e, he, rfl⟩
            have := (hcapsr e.2.1 hcap).1 cap rfl
            omega
      rw [heq]
      constructor
      · intro habs
        apply A
        intro hcontra
        apply habs
        rw [idsL_node, List.mem_cons]
        rcases hcontra with h | h
        · exact Or.inl h
        · exact Or.inr (List.mem_append.2 (Or.inl (List.mem_append.2
            (Or.inl h))))
      · intro hmem
        obtain ⟨dpd, diu, dcol, s1, s2, s3, s4, s5, s6, s7, s8⟩ :=
          P (hloc hmem)
        subst hk
        refine ⟨dpd, diu, dcol, s1, s2, s3, s4, s5, s6, ?_, ?_⟩
        · intro hq
          rw [s7 hq]
          simp [isRed]
        · intro hq
          simp [rootColor, s8 hq]
    · by_cases hlt : k < cap
      · -- descend left
        have heq : RBT_remove_node_inner (node l r nx cap pd iu col id) nid k =
            (RBT_propagate_double_blackness
              (node (RBT_remove_node_inner l nid k).1 r nx cap pd iu col id),
             (RBT_remove_node_inner l nid k).2) := by
          simp only [RBT_remove_node_inner]
          rw [if_neg hk, if_pos hlt]
        obtain ⟨A, P⟩ := ihl nid k x lo (some cap) hnl hrl hxl hndl hkl hbstl
          hconsl
        have hinl : nid ∈ idsL (node l r nx cap pd iu col id) →
            nid ∈ idsL l := by
          intro hm
          rw [idsL_node, List.mem_cons] at hm
          rcases hm with h | h
          · exfalso
            have hm0 : (id, cap, pd, iu) ∈
                entriesL (node l r nx cap pd iu col id) := by
              rw [entriesL_node]
              exact List.mem_cons_self _ _
            have := hcons (id, cap, pd, iu) hm0 h.symm
            simp at this
            omega
          · rw [List.mem_append] at h
            rcases h with h | h
            · rw [List.mem_append] at h
              rcases h with h | h
              · exfalso
                obtain ⟨e, he, he1⟩ := List.mem_map.1 h
                have hek := hconsnx e he he1
                have hcc : e.2.1 ∈ capsL nx := List.mem_map.2 ⟨e, he, rfl⟩
                have := chain_caps nx cap hck e.2.1 hcc
                omega
              · exact h
            · exfalso
              obtain ⟨e, he, he1⟩ := List.mem_map.1 h
              have hek := hconsr e he he1
              have hcc : e.2.1 ∈ capsL r := List.mem_map.2 ⟨e, he, rfl⟩
              have := (hcapsr e.2.1 hcc).1 cap rfl
              omega
        rw [heq]
        constructor
        · intro habs
          have habs2 : nid ∉ idsL l := by
            intro hm
            apply habs
            rw [idsL_node, List.mem_cons]
            exact Or.inr (List.mem_append.2 (Or.inl (List.mem_append.2
              (Or.inr hm))))
          rw [A habs2]
          rw [propagate_id _ _ _ _ _ _ _ _ (isDB_false_of_noDB hnl)
            (isDB_false_of_noDB hnr)]
        · intro hmem
          obtain ⟨dpd, diu, dcol, i1, i2, i3, i4, i5, i6, i7, i8⟩ :=
            P (hinl hmem)
          have hP := propagate_spec (RBT_remove_node_inner l nid k).1 r nx cap
            pd iu col id x hcolrb i3 i4 i5 (almostNoDB_of_noDB hnr) hrr hxr
            (Or.inr (isDB_false_of_noDB hnr))
            (fun hc => ⟨by
                cases hq : isRed (RBT_remove_node_inner l nid k).1
                · rfl
                · exact absurd (i7 hq) (by simp [(himp hc).1]),
              (himp hc).2⟩)
          obtain ⟨p1, p2, p3, p4, p5, p6⟩ := hP
          refine ⟨dpd, diu, dcol, i1, ?_, p1, p2, ?_, ?_, ?_, ?_⟩
          · rw [p4]
            simp only [entM_node]
            calc ({(id, cap, pd, iu)} : Multiset Entry) + entM nx +
                  entM (RBT_remove_node_inner l nid k).1 + entM r +
                  {(nid, k, dpd, diu)}
                = {(id, cap, pd, iu)} + entM nx +
                  (entM (RBT_remove_node_inner l nid k).1 +
                    {(nid, k, dpd, diu)}) + entM r := by abel
              _ = {(id, cap, pd, iu)} + entM nx + entM l + entM r := by
                  rw [i2]
          · rw [p3]
          · exact buckets_propagate
              (node (RBT_remove_node_inner l nid k).1 r nx cap pd iu col id)
              (by simp [buckets_node, hck, i6, hkr])
          · intro hq
            rw [p5 hq]
            simp [isRed]
          · intro hq
            simp [rootColor, p6 hq]
      · -- descend right
        have heq : RBT_remove_node_inner (node l r nx cap pd iu col id) nid k =
            (RBT_propagate_double_blackness
              (node l (RBT_remove_node_inner r nid k).1 nx cap pd iu col id),
             (RBT_remove_node_inner r nid k).2) := by
          simp only [RBT_remove_node_inner]
          rw [if_neg hk, if_neg hlt]
        obtain ⟨A, P⟩ := ihr nid k x (some cap) hi hnr hrr hxr hndr hkr hbstr
          hconsr
        have hinr : nid ∈ idsL (node l r nx cap pd iu col id) →
            nid ∈ idsL r := by
          intro hm
          rw [idsL_node, List.mem_cons] at hm
          rcases hm with h | h
          · exfalso
            have hm0 : (id, cap, pd, iu) ∈
                entriesL (node l r nx cap pd iu col id) := by
              rw [entriesL_node]
              exact List.mem_cons_self _ _
            have := hcons (id, cap, pd, iu) hm0 h.symm
            simp at this
            omega
          · rw [List.mem_append] at h
            rcases h with h | h
            · rw [List.mem_append] at h
              rcases h with h | h
              · exfalso
                obtain ⟨e, he, he1⟩ := List.mem_map.1 h
                have hek := hconsnx e he he1
                have hcc : e.2.1 ∈ capsL nx := List.mem_map.2 ⟨e, he, rfl⟩
                have := chain_caps nx cap hck e.2.1 hcc
                omega
              · exfalso
                obtain ⟨e, he, he1⟩ := List.mem_map.1 h
                have hek := hconsl e he he1
                have hcc : e.2.1 ∈ capsL l := List.mem_map.2 ⟨e, he, rfl⟩
                have := (hcapsl e.2.1 hcc).2 cap rfl
                omega
            · exact h
        rw [heq]
        constructor
        · intro habs
          have habs2 : nid ∉ idsL r := by
            intro hm
            apply habs
            rw [idsL_node, List.mem_cons]
            exact Or.inr (List.mem_append.2 (Or.inr hm))
          rw [A habs2]
          rw [propagate_id _ _ _ _ _ _ _ _ (isDB_false_of_noDB hnl)
            (isDB_false_of_noDB hnr)]
        · intro hmem
          obtain ⟨dpd, diu, dcol, i1, i2, i3, i4, i5, i6, i7, i8⟩ :=
            P (hinr hmem)
          have hP := propagate_spec l (RBT_remove_node_inner r nid k).1 nx cap
            pd iu col id x hcolrb (almostNoDB_of_noDB hnl) hrl hxl i3 i4 i5
            (Or.inl (isDB_false_of_noDB hnl))
            (fun hc => ⟨(himp hc).1, by
                cases hq : isRed (RBT_remove_node_inner r nid k).1
                · rfl
                · exact absurd (i7 hq) (by simp [(himp hc).2])⟩)
          obtain ⟨p1, p2, p3, p4, p5, p6⟩ := hP
          refine ⟨dpd, diu, dcol, i1, ?_, p1, p2, ?_, ?_, ?_, ?_⟩
          · rw [p4]
            simp only [entM_node]
            calc ({(id, cap, pd, iu)} : Multiset Entry) + entM nx + entM l +
                  entM (RBT_remove_node_inner r nid k).1 +
                  {(nid, k, dpd, diu)}
                = {(id, cap, pd, iu)} + entM nx + entM l +
                  (entM (RBT_remove_node_inner r nid k).1 +
                    {(nid, k, dpd, diu)}) := by abel
              _ = {(id, cap, pd, iu)} + entM nx + entM l + entM r := by
                  rw [i2]
          · rw [p3]
          · exact buckets_propagate
              (node l (RBT_remove_node_inner r nid k).1 nx cap pd iu col id)
              (by simp [buckets_node, hck, i6, hkl])
          · intro hq
            rw [p5 hq]
            simp [isRed]
          · intro hq
            simp [rootColor, p6 hq]


theorem remove_node_snd (t : Tree) (nid k : Nat) :
    (RBT_remove_node t nid k).2 = (RBT_remove_node_inner t nid k).2 := by
  cases hsh : (RBT_remove_node_inner t nid k).1 <;>
    simp [RBT_remove_node, hsh]

/-- Specification of the public `RBT_remove_node`: an absent handle
stores `NULL` and returns the tree byte-for-byte unchanged; a present
handle has exactly that node detached (nulled out) with entries conserved
and a valid BLACK-rooted (or empty) tree returned. -/
theorem remove_node_spec (t : Tree) (nid cap : Nat) (hwf : WF t)
    (hcons : ∀ e ∈ entriesL t, e.1 = nid → e.2.1 = cap) :
    (nid ∉ idsL t → RBT_remove_node t nid cap = (t, none)) ∧
    (nid ∈ idsL t →
      ∃ pd iu col,
        (RBT_remove_node t nid cap).2 =
          some (node leaf leaf leaf cap pd iu col nid) ∧
        (nid, cap, pd, iu) ∈ entriesL t ∧
        entM (RBT_remove_node t nid cap).1 + {(nid, cap, pd, iu)} = entM t ∧
        validSub (RBT_remove_node t nid cap).1 ∧
        ((RBT_remove_node t nid cap).1 = leaf ∨
          rootColor (RBT_remove_node t nid cap).1 = BLACK)) := by
  obtain ⟨⟨hn, hr, hdb⟩, h2, hbst, hbk, hnd⟩ := hwf
  cases t with
  | leaf =>
    exact ⟨fun _ => rfl, fun hm => by simp [idsL, entriesL] at hm⟩
  | dbleaf => simp [noDB] at hn
  | node l r nx tc pd iu col id =>
    rw [Option.isSome_iff_exists] at hdb
    obtain ⟨H, hd⟩ := hdb
    have hcolB : col = BLACK := by
      rcases h2 with h | h
      · cases h
      · simpa [rootColor] using h
    subst hcolB
    obtain ⟨A, P⟩ := remove_node_inner_spec (node l r nx tc pd iu BLACK id)
      nid cap H none none hn hr hd hnd hbk hbst hcons
    constructor
    · intro habs
      have hA := A habs
      have hA1 : (RBT_remove_node_inner (node l r nx tc pd iu BLACK id) nid
          cap).1 = node l r nx tc pd iu BLACK id := by rw [hA]
      have hA2 : (RBT_remove_node_inner (node l r nx tc pd iu BLACK id) nid
          cap).2 = none := by rw [hA]
      rw [RBT_remove_node, hA1, hA2]
    · intro hmem
      obtain ⟨dpd, diu, dcol, i1, i2, i3, i4, i5, i6, i7, i8⟩ := P hmem
      have hsnd := remove_node_snd (node l r nx tc pd iu BLACK id) nid cap
      have hmem2 : (nid, cap, dpd, diu) ∈
          entriesL (node l r nx tc pd iu BLACK id) := by
        have hm : (nid, cap, dpd, diu) ∈
            entM (node l r nx tc pd iu BLACK id) := by
          rw [← i2]
          exact Multiset.mem_add.2 (Or.inr (Multiset.mem_singleton.2 rfl))
        exact Multiset.mem_coe.1 hm
      rcases hshape : (RBT_remove_node_inner (node l r nx tc pd iu BLACK id)
          nid cap).1 with _ | _ | ⟨a, b, anx, acap, apd, aiu, acol, aid⟩
      · have heq : RBT_remove_node (node l r nx tc pd iu BLACK id) nid cap =
            (leaf, (RBT_remove_node_inner (node l r nx tc pd iu BLACK id) nid
              cap).2) := by
          rw [RBT_remove_node, hshape]
        rw [heq]
        rw [hshape] at i2
        exact ⟨dpd, diu, dcol, i1, hmem2, i2, ⟨rfl, rfl, rfl⟩, Or.inl rfl⟩
      · have heq : RBT_remove_node (node l r nx tc pd iu BLACK id) nid cap =
            (leaf, (RBT_remove_node_inner (node l r nx tc pd iu BLACK id) nid
              cap).2) := by
          rw [RBT_remove_node, hshape]
        rw [heq]
        rw [hshape] at i2
        refine ⟨dpd, diu, dcol, i1, hmem2, ?_, ⟨rfl, rfl, rfl⟩, Or.inl rfl⟩
        simpa [entM_leaf, entM_dbleaf] using i2
      · have heq : RBT_remove_node (node l r nx tc pd iu BLACK id) nid cap =
            (node a b anx acap apd aiu BLACK aid,
             (RBT_remove_node_inner (node l r nx tc pd iu BLACK id) nid
               cap).2) := by
          rw [RBT_remove_node, hshape]
        rw [heq]
        rw [hshape] at i2 i3 i4 i5
        refine ⟨dpd, diu, dcol, i1, hmem2, i2, ⟨?_, ?_, ?_⟩, Or.inr rfl⟩
        · simp only [almostNoDB, Bool.and_eq_true] at i3
          simp [noDB, i3.1, i3.2]
        · obtain ⟨himp', hra, hrb⟩ := redOk_node_elim i4
          simp [redOk, hra, hrb]
        · obtain ⟨y, hya, hyb, _⟩ := dbhb_node_elim i5
          rw [Option.isSome_iff_exists]
          exact ⟨y + cw BLACK, dbhb_node_intro _ _ _ _ _ _ hya hyb⟩

/-- Claim C3: on a well-formed tree, `RBT_remove_node` with a non-NULL
out-parameter stores the handle's own node (and no other) exactly when the
handle is present among the stored nodes (tree nodes and bucket members),
conserving every other entry, and the tree after a successful removal
satisfies the red-black invariant; an absent handle yields `NULL` and the
tree byte-for-byte unchanged. -/
theorem claim_C3 (t : Tree) (nid cap : Nat) (hwf : WF t)
    (hcons : ∀ e ∈ entriesL t, e.1 = nid → e.2.1 = cap) :
    (nid ∉ idsL t → RBT_remove_node t nid cap = (t, none)) ∧
    (nid ∈ idsL t →
      ∃ pd iu col,
        (RBT_remove_node t nid cap).2 =
          some (node leaf leaf leaf cap pd iu col nid) ∧
        (nid, cap, pd, iu) ∈ entriesL t ∧
        entM (RBT_remove_node t nid cap).1 + {(nid, cap, pd, iu)} = entM t ∧
        validSub (RBT_remove_node t nid cap).1 ∧
        ((RBT_remove_node t nid cap).1 = leaf ∨
          rootColor (RBT_remove_node t nid cap).1 = BLACK)) :=
  remove_node_spec t nid cap hwf hcons

/-- Witness: claim C3 instantiated on the concrete three-node tree built
by inserting 10, 5, 15, removing the node with address 3 (capacity 15). -/
theorem claim_C3_witness :
    (WF twoChildTree ∧
      ∀ e ∈ entriesL twoChildTree, e.1 = 3 → e.2.1 = 15) ∧
    ((3 ∉ idsL twoChildTree →
        RBT_remove_node twoChildTree 3 15 = (twoChildTree, none)) ∧
      (3 ∈ idsL twoChildTree →
        ∃ pd iu col,
          (RBT_remove_node twoChildTree 3 15).2 =
            some (node leaf leaf leaf 15 pd iu col 3) ∧
          (3, 15, pd, iu) ∈ entriesL twoChildTree ∧
          entM (RBT_remove_node twoChildTree 3 15).1 + {(3, 15, pd, iu)} =
            entM twoChildTree ∧
          validSub (RBT_remove_node twoChildTree 3 15).1 ∧
          ((RBT_remove_node twoChildTree 3 15).1 = leaf ∨
            rootColor (RBT_remove_node twoChildTree 3 15).1 = BLACK))) :=
  ⟨⟨by unfold WF validSub; decide, by decide⟩,
    claim_C3 twoChildTree 3 15 (by unfold WF validSub; decide) (by decide)⟩


/-- Claim C8: whenever `RBT_remove_at_least` or `RBT_remove_node` stores a
non-NULL node, that node is fully detached — its `left`, `right` and
`next` pointers are all NULL and its address is absent from the returned
tree (in particular it is not the returned root). -/
theorem claim_C8 (t : Tree) (k nid cap : Nat) (hwf : WF t)
    (hcons : ∀ e ∈ entriesL t, e.1 = nid → e.2.1 = cap) :
    (∀ d, (RBT_remove_at_least t k).2 = some d →
      tleft d = leaf ∧ tright d = leaf ∧ tnext d = leaf ∧
      tid d ∉ idsL (RBT_remove_at_least t k).1) ∧
    (∀ d, (RBT_remove_node t nid cap).2 = some d →
      tleft d = leaf ∧ tright d = leaf ∧ tnext d = leaf ∧
      tid d ∉ idsL (RBT_remove_node t nid cap).1) := by
  have hnd : (idsL t).Nodup := hwf.2.2.2.2
  constructor
  · intro d hdd
    obtain ⟨h1, h2, hbst, hbk, hnd'⟩ := hwf
    obtain ⟨-, SS⟩ := remove_at_least_spec t k h1 h2 hbk hnd'
    obtain ⟨⟨dc, dpd, diu, dcol, did, s1, s2⟩, -, -, -, -⟩ := SS d hdd
    subst s1
    refine ⟨rfl, rfl, rfl, ?_⟩
    show did ∉ idsL (RBT_remove_at_least t k).1
    exact id_notin_of_entM_cons (e := (did, dc, dpd, diu)) s2 hnd
  · intro d hdd
    by_cases hmem : nid ∈ idsL t
    · obtain ⟨-, P⟩ := remove_node_spec t nid cap hwf hcons
      obtain ⟨dpd, diu, dcol, s1, -, s2, -, -⟩ := P hmem
      rw [s1] at hdd
      obtain rfl : node leaf leaf leaf cap dpd diu dcol nid = d :=
        Option.some.inj hdd
      refine ⟨rfl, rfl, rfl, ?_⟩
      show nid ∉ idsL (RBT_remove_node t nid cap).1
      exact id_notin_of_entM_cons (e := (nid, cap, dpd, diu)) s2 hnd
    · obtain ⟨A, -⟩ := remove_node_spec t nid cap hwf hcons
      have := A hmem
      rw [this] at hdd
      cases hdd

/-- Claim C9: removal operates only on the link and color fields — the
payload (`prev_dist`, `in_use`) of every stored entry survives unchanged,
in the returned tree or on the removed node, because the full entry
multiset (address, capacity, `prev_dist`, `in_use`) is conserved. -/
theorem claim_C9 (t : Tree) (k nid cap : Nat) (hwf : WF t)
    (hcons : ∀ e ∈ entriesL t, e.1 = nid → e.2.1 = cap) :
    ((RBT_remove_at_least t k).2 = none → (RBT_remove_at_least t k).1 = t) ∧
    (∀ d, (RBT_remove_at_least t k).2 = some d →
      entM (RBT_remove_at_least t k).1 + entM d = entM t) ∧
    ((RBT_remove_node t nid cap).2 = none →
      (RBT_remove_node t nid cap).1 = t) ∧
    (∀ d, (RBT_remove_node t nid cap).2 = some d →
      entM (RBT_remove_node t nid cap).1 + entM d = entM t) := by
  obtain ⟨h1, h2, hbst, hbk, hnd⟩ := hwf
  obtain ⟨SN, SS⟩ := remove_at_least_spec t k h1 h2 hbk hnd
  refine ⟨SN, ?_, ?_, ?_⟩
  · intro d hdd
    obtain ⟨⟨dc, dpd, diu, dcol, did, s1, s2⟩, -, -, -, -⟩ := SS d hdd
    subst s1
    have he : entM (node leaf leaf leaf dc dpd diu dcol did) =
        ({(did, dc, dpd, diu)} : Multiset Entry) := by
      simp [entM_node, entM_leaf]
    rw [he]
    exact s2
  · intro hnone
    by_cases hmem : nid ∈ idsL t
    · obtain ⟨-, P⟩ := remove_node_spec t nid cap
        ⟨h1, h2, hbst, hbk, hnd⟩ hcons
      obtain ⟨dpd, diu, dcol, s1, -, -, -, -⟩ := P hmem
      rw [s1] at hnone
      cases hnone
    · obtain ⟨A, -⟩ := remove_node_spec t nid cap
        ⟨h1, h2, hbst, hbk, hnd⟩ hcons
      rw [A hmem]
  · intro d hdd
    by_cases hmem : nid ∈ idsL t
    · obtain ⟨-, P⟩ := remove_node_spec t nid cap
        ⟨h1, h2, hbst, hbk, hnd⟩ hcons
      obtain ⟨dpd, diu, dcol, s1, -, s2, -, -⟩ := P hmem
      rw [s1] at hdd
      obtain rfl : node leaf leaf leaf cap dpd diu dcol nid = d :=
        Option.some.inj hdd
      have he : entM (node leaf leaf leaf cap dpd diu dcol nid) =
          ({(nid, cap, dpd, diu)} : Multiset Entry) := by
        simp [entM_node, entM_leaf]
      rw [he]
      exact s2
    · obtain ⟨A, -⟩ := remove_node_spec t nid cap
        ⟨h1, h2, hbst, hbk, hnd⟩ hcons
      have := A hmem
      rw [this] at hdd
      cases hdd

/-- Witness: claim C8 instantiated on the three-node tree (10, 5, 15) with
request 12 (removing 15) and handle 2 (capacity 5). -/
theorem claim_C8_witness :
    (WF twoChildTree ∧ ∀ e ∈ entriesL twoChildTree, e.1 = 2 → e.2.1 = 5) ∧
    ((∀ d, (RBT_remove_at_least twoChildTree 12).2 = some d →
        tleft d = leaf ∧ tright d = leaf ∧ tnext d = leaf ∧
        tid d ∉ idsL (RBT_remove_at_least twoChildTree 12).1) ∧
      (∀ d, (RBT_remove_node twoChildTree 2 5).2 = some d →
        tleft d = leaf ∧ tright d = leaf ∧ tnext d = leaf ∧
        tid d ∉ idsL (RBT_remove_node twoChildTree 2 5).1)) :=
  ⟨⟨by unfold WF validSub; decide, by decide⟩,
    claim_C8 twoChildTree 12 2 5 (by unfold WF validSub; decide) (by decide)⟩

/-- Witness: claim C9 instantiated on the two-node tree (10, 5) with
request 1 (removing 5) and handle 1 (capacity 10). -/
theorem claim_C9_witness :
    (WF slantTree ∧ ∀ e ∈ entriesL slantTree, e.1 = 1 → e.2.1 = 10) ∧
    (((RBT_remove_at_least slantTree 1).2 = none →
        (RBT_remove_at_least slantTree 1).1 = slantTree) ∧
      (∀ d, (RBT_remove_at_least slantTree 1).2 = some d →
        entM (RBT_remove_at_least slantTree 1).1 + entM d = entM slantTree) ∧
      ((RBT_remove_node slantTree 1 10).2 = none →
        (RBT_remove_node slantTree 1 10).1 = slantTree) ∧
      (∀ d, (RBT_remove_node slantTree 1 10).2 = some d →
        entM (RBT_remove_node slantTree 1 10).1 + entM d =
          entM slantTree)) :=
  ⟨⟨by unfold WF validSub; decide, by decide⟩,
    claim_C9 slantTree 1 1 10 (by unfold WF validSub; decide) (by decide)⟩


/-- Invariant preservation of `RBT_remove_node_inner` irrespective of where
(or whether) the handle is found: `NULL` means untouched, and any detached
node leaves entries conserved and sub-root validity at the same weighted
black height. -/
theorem remove_node_inner_inv (t : Tree) : ∀ (nid k H : Nat),
    noDB t = true → redOk t = true → dbhb t = some H →
    (idsL t).Nodup → bucketsOk t = true →
    ((RBT_remove_node_inner t nid k).2 = none →
      (RBT_remove_node_inner t nid k).1 = t) ∧
    (∀ d, (RBT_remove_node_inner t nid k).2 = some d →
      entM (RBT_remove_node_inner t nid k).1 + entM d = entM t ∧
      almostNoDB (RBT_remove_node_inner t nid k).1 = true ∧
      redOk (RBT_remove_node_inner t nid k).1 = true ∧
      dbhb (RBT_remove_node_inner t nid k).1 = some H ∧
      bucketsOk (RBT_remove_node_inner t nid k).1 = true ∧
      (isRed (RBT_remove_node_inner t nid k).1 = true → isRed t = true) ∧
      (isDB (RBT_remove_node_inner t nid k).1 = true →
        rootColor t = BLACK)) := by
  induction t with
  | leaf =>
    intro nid k H _ _ _ _ _
    exact ⟨fun _ => rfl, fun d hdd => by simp [RBT_remove_node_inner] at hdd⟩
  | dbleaf =>
    intro nid k H hn _ _ _ _
    simp [noDB] at hn
  | node l r nx cap pd iu col id ihl ihr ihn =>
    intro nid k H hn hred hd hids hbk
    obtain ⟨hcne, hnl, hnr⟩ := noDB_node_elim hn
    obtain ⟨himp, hrl, hrr⟩ := redOk_node_elim hred
    obtain ⟨x, hxl, hxr, hb⟩ := dbhb_node_elim hd
    obtain ⟨hndnx, hndl, hndr, hidnx, hidl, hidr⟩ := idsL_nodup_parts hids
    have hbk' := hbk
    rw [buckets_node, Bool.and_eq_true, Bool.and_eq_true] at hbk'
    obtain ⟨⟨hck, hkl⟩, hkr⟩ := hbk'
    subst hb
    have hcolrb : col = RED ∨ col = BLACK := by
      cases col with
      | DOUBLE_BLACK => exact absurd rfl hcne
      | RED => exact Or.inl rfl
      | BLACK => exact Or.inr rfl
    by_cases hk : k = cap
    · have heq : RBT_remove_node_inner (node l r nx cap pd iu col id) nid k =
          RBT_remove_node_root (node l r nx cap pd iu col id) nid := by
        simp only [RBT_remove_node_inner]
        rw [if_pos hk]
      obtain ⟨A, P⟩ := remove_node_root_spec l r nx cap pd iu col id nid
        (x + cw col) hn hred hd hids hbk
      rw [heq]
      by_cases hc : nid = id ∨ nid ∈ idsL nx
      · obtain ⟨dpd, diu, dcol, s1, s2, s3, s4, s5, s6, s7, s8⟩ := P hc
        constructor
        · intro hnone
          rw [s1] at hnone
          cases hnone
        · intro d hdd
          rw [s1] at hdd
          obtain rfl : node leaf leaf leaf cap dpd diu dcol nid = d :=
            Option.some.inj hdd
          have he : entM (node leaf leaf leaf cap dpd diu dcol nid) =
              ({(nid, cap, dpd, diu)} : Multiset Entry) := by
            simp [entM_node, entM_leaf]
          refine ⟨by rw [he]; exact s2, s3, s4, s5, s6, ?_, ?_⟩
          · intro hq
            rw [s7 hq]
            simp [isRed]
          · intro hq
            simp [rootColor, s8 hq]
      · rw [A hc]
        exact ⟨fun _ => rfl, fun d hdd => by simp at hdd⟩
    · by_cases hlt : k < cap
      · have heq : RBT_remove_node_inner (node l r nx cap pd iu col id) nid k =
            (RBT_propagate_double_blackness
              (node (RBT_remove_node_inner l nid k).1 r nx cap pd iu col id),
             (RBT_remove_node_inner l nid k).2) := by
          simp only [RBT_remove_node_inner]
          rw [if_neg hk, if_pos hlt]
        obtain ⟨A, P⟩ := ihl nid k x hnl hrl hxl hndl hkl
        rw [heq]
        rcases hres : (RBT_remove_node_inner l nid k).2 with _ | d0
        · have hA := A hres
          constructor
          · intro _
            rw [hA]
            rw [propagate_id _ _ _ _ _ _ _ _ (isDB_false_of_noDB hnl)
              (isDB_false_of_noDB hnr)]
          · intro d hdd
            simp [hres] at hdd
        · obtain ⟨i2, i3, i4, i5, i6, i7, i8⟩ := P d0 hres
          have hP := propagate_spec (RBT_remove_node_inner l nid k).1 r nx cap
            pd iu col id x hcolrb i3 i4 i5 (almostNoDB_of_noDB hnr) hrr hxr
            (Or.inr (isDB_false_of_noDB hnr))
            (fun hc => ⟨by
                cases hq : isRed (RBT_remove_node_inner l nid k).1
                · rfl
                · exact absurd (i7 hq) (by simp [(himp hc).1]),
              (himp hc).2⟩)
          obtain ⟨p1, p2, p3, p4, p5, p6⟩ := hP
          constructor
          · intro hnone
            simp at hnone
          · intro d hdd
            obtain rfl : d0 = d := Option.some.inj hdd
            refine ⟨?_, p1, p2, by rw [p3], ?_, ?_, ?_⟩
            · rw [p4]
              simp only [entM_node]
              calc ({(id, cap, pd, iu)} : Multiset Entry) + entM nx +
                    entM (RBT_remove_node_inner l nid k).1 + entM r + entM d0
                  = {(id, cap, pd, iu)} + entM nx +
                    (entM (RBT_remove_node_inner l nid k).1 + entM d0) +
                    entM r := by abel
                _ = {(id, cap, pd, iu)} + entM nx + entM l + entM r := by
                    rw [i2]
            · exact buckets_propagate
                (node (RBT_remove_node_inner l nid k).1 r nx cap pd iu col id)
                (by simp [buckets_node, hck, i6, hkr])
            · intro hq
              rw [p5 hq]
              simp [isRed]
            · intro hq
              simp [rootColor, p6 hq]
      · have heq : RBT_remove_node_inner (node l r nx cap pd iu col id) nid k =
            (RBT_propagate_double_blackness
              (node l (RBT_remove_node_inner r nid k).1 nx cap pd iu col id),
             (RBT_remove_node_inner r nid k).2) := by
          simp only [RBT_remove_node_inner]
          rw [if_neg hk, if_neg hlt]
        obtain ⟨A, P⟩ := ihr nid k x hnr hrr hxr hndr hkr
        rw [heq]
        rcases hres : (RBT_remove_node_inner r nid k).2 with _ | d0
        · have hA := A hres
          constructor
          · intro _
            rw [hA]
            rw [propagate_id _ _ _ _ _ _ _ _ (isDB_false_of_noDB hnl)
              (isDB_false_of_noDB hnr)]
          · intro d hdd
            simp [hres] at hdd
        · obtain ⟨i2, i3, i4, i5, i6, i7, i8⟩ := P d0 hres
          have hP := propagate_spec l (RBT_remove_node_inner r nid k).1 nx cap
            pd iu col id x hcolrb (almostNoDB_of_noDB hnl) hrl hxl i3 i4 i5
            (Or.inl (isDB_false_of_noDB hnl))
            (fun hc => ⟨(himp hc).1, by
                cases hq : isRed (RBT_remove_node_inner r nid k).1
                · rfl
                · exact absurd (i7 hq) (by simp [(himp hc).2])⟩)
          obtain ⟨p1, p2, p3, p4, p5, p6⟩ := hP
          constructor
          · intro hnone
            simp at hnone
          · intro d hdd
            obtain rfl : d0 = d := Option.some.inj hdd
            refine ⟨?_, p1, p2, by rw [p3], ?_, ?_, ?_⟩
            · rw [p4]
              simp only [entM_node]
              calc ({(id, cap, pd, iu)} : Multiset Entry) + entM nx + entM l +
                    entM (RBT_remove_node_inner r nid k).1 + entM d0
                  = {(id, cap, pd, iu)} + entM nx + entM l +
                    (entM (RBT_remove_node_inner r nid k).1 + entM d0) := by
                    abel
                _ = {(id, cap, pd, iu)} + entM nx + entM l + entM r := by
                    rw [i2]
            · exact buckets_propagate
                (node l (RBT_remove_node_inner r nid k).1 nx cap pd iu col id)
                (by simp [buckets_node, hck, i6, hkl])
            · intro hq
              rw [p5 hq]
              simp [isRed]
            · intro hq
              simp [rootColor, p6 hq]


/-- Unconditional invariant preservation of `RBT_remove_at_least`: the
returned tree is a valid BLACK-rooted (or empty) red-black tree over a
sub-multiset of the original entries. -/
theorem remove_at_least_inv (t : Tree) (k : Nat)
    (h1 : validSub t) (h2 : t = leaf ∨ rootColor t = BLACK)
    (h3 : bucketsOk t = true) (h4 : (idsL t).Nodup) :
    entM (RBT_remove_at_least t k).1 ≤ entM t ∧
    validSub (RBT_remove_at_least t k).1 ∧
    ((RBT_remove_at_least t k).1 = leaf ∨
      rootColor (RBT_remove_at_least t k).1 = BLACK) ∧
    bucketsOk (RBT_remove_at_least t k).1 = true ∧
    (idsL (RBT_remove_at_least t k).1).Nodup := by
  obtain ⟨SN, SS⟩ := remove_at_least_spec t k h1 h2 h3 h4
  rcases hres : (RBT_remove_at_least t k).2 with _ | d0
  · rw [SN hres]
    exact ⟨le_refl _, h1, h2, h3, h4⟩
  · obtain ⟨⟨dc, dpd, diu, dcol, did, s1, s2⟩, sv, sroot, sbk, snd⟩ :=
      SS d0 hres
    refine ⟨?_, sv, sroot, sbk, snd⟩
    rw [← s2]
    exact Multiset.le_add_right _ _

/-- Unconditional invariant preservation of `RBT_remove_node`: the
returned tree is a valid BLACK-rooted (or empty) red-black tree over a
sub-multiset of the original entries. -/
theorem remove_node_inv (t : Tree) (nid k : Nat)
    (h1 : validSub t) (h2 : t = leaf ∨ rootColor t = BLACK)
    (h3 : bucketsOk t = true) (h4 : (idsL t).Nodup) :
    entM (RBT_remove_node t nid k).1 ≤ entM t ∧
    validSub (RBT_remove_node t nid k).1 ∧
    ((RBT_remove_node t nid k).1 = leaf ∨
      rootColor (RBT_remove_node t nid k).1 = BLACK) ∧
    bucketsOk (RBT_remove_node t nid k).1 = true ∧
    (idsL (RBT_remove_node t nid k).1).Nodup := by
  obtain ⟨hn, hr, hdb⟩ := h1
  cases t with
  | leaf =>
    exact ⟨le_refl _, ⟨rfl, rfl, rfl⟩, Or.inl rfl, rfl, List.nodup_nil⟩
  | dbleaf => simp [noDB] at hn
  | node l r nx cap pd iu col id =>
    rw [Option.isSome_iff_exists] at hdb
    obtain ⟨H, hd⟩ := hdb
    have hcolB : col = BLACK := by
      rcases h2 with h | h
      · cases h
      · simpa [rootColor] using h
    subst hcolB
    obtain ⟨A, P⟩ := remove_node_inner_inv (node l r nx cap pd iu BLACK id)
      nid k H hn hr hd h4 h3
    rcases hres : (RBT_remove_node_inner (node l r nx cap pd iu BLACK id)
        nid k).2 with _ | d0
    · have hA := A hres
      have heq : RBT_remove_node (node l r nx cap pd iu BLACK id) nid k =
          (node l r nx cap pd iu BLACK id, none) := by
        rw [RBT_remove_node, hA, hres]
      rw [heq]
      exact ⟨le_refl _, ⟨hn, hr, by rw [hd]; rfl⟩, h2, h3, h4⟩
    · obtain ⟨i2, i3, i4, i5, i6, i7, i8⟩ := P d0 hres
      have hle : entM (RBT_remove_node_inner (node l r nx cap pd iu BLACK id)
          nid k).1 ≤ entM (node l r nx cap pd iu BLACK id) := by
        rw [← i2]
        exact Multiset.le_add_right _ _
      rcases hshape : (RBT_remove_node_inner (node l r nx cap pd iu BLACK id)
          nid k).1 with _ | _ | ⟨a, b, anx, acap, apd, aiu, acol, aid⟩
      · have heq : RBT_remove_node (node l r nx cap pd iu BLACK id) nid k =
            (leaf, (RBT_remove_node_inner (node l r nx cap pd iu BLACK id)
              nid k).2) := by
          rw [RBT_remove_node, hshape]
        rw [heq]
        exact ⟨by simp [entM_leaf], ⟨rfl, rfl, rfl⟩, Or.inl rfl, rfl,
          List.nodup_nil⟩
      · have heq : RBT_remove_node (node l r nx cap pd iu BLACK id) nid k =
            (leaf, (RBT_remove_node_inner (node l r nx cap pd iu BLACK id)
              nid k).2) := by
          rw [RBT_remove_node, hshape]
        rw [heq]
        exact ⟨by simp [entM_leaf], ⟨rfl, rfl, rfl⟩, Or.inl rfl, rfl,
          List.nodup_nil⟩
      · have heq : RBT_remove_node (node l r nx cap pd iu BLACK id) nid k =
            (node a b anx acap apd aiu BLACK aid,
             (RBT_remove_node_inner (node l r nx cap pd iu BLACK id) nid
               k).2) := by
          rw [RBT_remove_node, hshape]
        rw [heq]
        rw [hshape] at hle i3 i4 i5 i6
        have hnodup : (idsL (node a b anx acap apd aiu BLACK aid)).Nodup :=
          ids_nodup_of_entM_le hle h4
        refine ⟨hle, ⟨?_, ?_, ?_⟩, Or.inr rfl, i6, hnodup⟩
        · simp only [almostNoDB, Bool.and_eq_true] at i3
          simp [noDB, i3.1, i3.2]
        · obtain ⟨himp', hra, hrb⟩ := redOk_node_elim i4
          simp [redOk, hra, hrb]
        · obtain ⟨y, hya, hyb, _⟩ := dbhb_node_elim i5
          rw [Option.isSome_iff_exists]
          exact ⟨y + cw BLACK, dbhb_node_intro _ _ _ _ _ _ hya hyb⟩


/-! ### Red-red elimination laws for insertion -/

theorem isRed_rnode (l r nx : Tree) (cap pd : Nat) (iu : Bool) (id : Nat) :
    isRed (node l r nx cap pd iu RED id) = true := rfl

theorem isRed_dbnode (l r nx : Tree) (cap pd : Nat) (iu : Bool) (id : Nat) :
    isRed (node l r nx cap pd iu DOUBLE_BLACK id) = false := rfl

theorem isRed_leaf : isRed leaf = false := rfl

theorem isRed_dbleaf : isRed dbleaf = false := rfl

theorem eliminateRight_id (l b nx : Tree) (cap pd : Nat) (iu : Bool)
    (col : RBc) (id : Nat) (hrb : redOk b = true) :
    eliminateRight l b nx cap pd iu col id = node l b nx cap pd iu col id := by
  cases b with
  | leaf => simp [eliminateRight, isRed]
  | dbleaf => simp [eliminateRight, isRed]
  | node bl br bnx bcap bpd biu bcol bid =>
    obtain ⟨himp, hrbl, hrbr⟩ := redOk_node_elim hrb
    cases bcol with
    | BLACK => simp [eliminateRight, isRed_bnode]
    | DOUBLE_BLACK => simp [eliminateRight, isRed_dbnode]
    | RED =>
      have h1 : isRed bl = false := (himp rfl).1
      have h2 : isRed br = false := (himp rfl).2
      simp [eliminateRight, isRed_rnode, h1, h2]

theorem eliminate_id (a b nx : Tree) (cap pd : Nat) (iu : Bool) (col : RBc)
    (id : Nat) (hra : redOk a = true) (hrb : redOk b = true) :
    RBT_eliminate_red_red (node a b nx cap pd iu col id) =
      node a b nx cap pd iu col id := by
  cases a with
  | leaf =>
    simp only [RBT_eliminate_red_red]
    rw [if_neg (by simp [isRed])]
    exact eliminateRight_id _ _ _ _ _ _ _ _ hrb
  | dbleaf =>
    simp only [RBT_eliminate_red_red]
    rw [if_neg (by simp [isRed])]
    exact eliminateRight_id _ _ _ _ _ _ _ _ hrb
  | node al ar anx acap apd aiu acol aid =>
    obtain ⟨himp, hral, hrar⟩ := redOk_node_elim hra
    cases acol with
    | BLACK =>
      simp only [RBT_eliminate_red_red]
      rw [if_neg (by simp [isRed])]
      exact eliminateRight_id _ _ _ _ _ _ _ _ hrb
    | DOUBLE_BLACK =>
      simp only [RBT_eliminate_red_red]
      rw [if_neg (by simp [isRed])]
      exact eliminateRight_id _ _ _ _ _ _ _ _ hrb
    | RED =>
      have h1 : isRed al = false := (himp rfl).1
      have h2 : isRed ar = false := (himp rfl).2
      simp only [RBT_eliminate_red_red]
      rw [if_pos (by simp [isRed])]
      rw [if_neg (by simp [h1]), if_neg (by simp [h2])]
      exact eliminateRight_id _ _ _ _ _ _ _ _ hrb


/-- Resolution of an insertion violation carried by the LEFT child: at a
BLACK parent, `RBT_eliminate_red_red` turns a RED left child with at most
one RED grandchild into a valid subtree of the same weighted black height
and the same entries. -/
theorem eliminate_fix_left (a b nx : Tree) (cap pd : Nat) (iu : Bool)
    (id : Nat) (h : Nat)
    (hia : insV a) (hrb : redOk b = true)
    (hna : noDB a = true) (hnb : noDB b = true)
    (hda : dbhb a = some h) (hdb : dbhb b = some h)
    (hba : bucketsOk a = true) (hbb : bucketsOk b = true)
    (hcn : chainOk cap nx = true) :
    redOk (RBT_eliminate_red_red (node a b nx cap pd iu BLACK id)) = true ∧
    noDB (RBT_eliminate_red_red (node a b nx cap pd iu BLACK id)) = true ∧
    dbhb (RBT_eliminate_red_red (node a b nx cap pd iu BLACK id)) =
      some (h + 1) ∧
    entM (RBT_eliminate_red_red (node a b nx cap pd iu BLACK id)) =
      entM (node a b nx cap pd iu BLACK id) ∧
    bucketsOk (RBT_eliminate_red_red (node a b nx cap pd iu BLACK id)) =
      true := by
  obtain ⟨al, ar, anx, acap, apd, aiu, aid, rfl, hral, hrar, hone⟩ := hia
  obtain ⟨hacne, hnal, hnar⟩ := noDB_node_elim hna
  rw [buckets_node, Bool.and_eq_true, Bool.and_eq_true] at hba
  obtain ⟨⟨hcka, hbal⟩, hbar⟩ := hba
  obtain ⟨y, hyl, hyr, hyh⟩ := dbhb_node_elim hda
  have hyh' : h = y := by simp [cw] at hyh; omega
  subst hyh'
  by_cases h1 : isRed al = true
  · have h2 : isRed ar = false := by
      rcases hone with hh | hh
      · rw [hh] at h1; cases h1
      · exact hh
    by_cases h3 : isRed b = true
    · -- RED uncle: recolor
      cases b with
      | leaf => simp [isRed] at h3
      | dbleaf => simp [isRed] at h3
      | node bl br bnx bcap bpd biu bcol bid =>
        cases bcol with
        | BLACK => simp [isRed] at h3
        | DOUBLE_BLACK => simp [isRed] at h3
        | RED =>
          obtain ⟨hbimp, hrbl, hrbr⟩ := redOk_node_elim hrb
          obtain ⟨hbcne, hnbl, hnbr⟩ := noDB_node_elim hnb
          rw [buckets_node, Bool.and_eq_true, Bool.and_eq_true] at hbb
          obtain ⟨⟨hckb, hbbl⟩, hbbr⟩ := hbb
          obtain ⟨z, hz1, hz2, hzh⟩ := dbhb_node_elim hdb
          have hzh' : h = z := by simp [cw] at hzh; omega
          subst hzh'
          have heq : RBT_eliminate_red_red (node
              (node al ar anx acap apd aiu RED aid)
              (node bl br bnx bcap bpd biu RED bid) nx cap pd iu BLACK id) =
              node (node al ar anx acap apd aiu BLACK aid)
                (node bl br bnx bcap bpd biu BLACK bid) nx cap pd iu RED
                id := by
            simp [RBT_eliminate_red_red, isRed_rnode, h1, setColor]
          rw [heq]
          refine ⟨?_, ?_, ?_, ?_, ?_⟩
          · simp [redOk, isRed_bnode, hral, hrar, hrbl, hrbr]
          · simp [noDB, hnal, hnar, hnbl, hnbr]
          · have d1 : dbhb (node al ar anx acap apd aiu BLACK aid) =
                some (h + 1) := by
              rw [dbhb_node_intro _ _ _ _ _ _ hyl hyr]
              try simp [cw]
            have d2 : dbhb (node bl br bnx bcap bpd biu BLACK bid) =
                some (h + 1) := by
              rw [dbhb_node_intro _ _ _ _ _ _ hz1 hz2]
              try simp [cw]
            rw [dbhb_node_intro _ _ _ _ _ _ d1 d2]
            try simp [cw]
          · simp only [entM_node]
            try abel
          · simp [buckets_node, hcn, hcka, hckb, hbal, hbar, hbbl, hbbr]
    · -- BLACK uncle, near grandchild RED: rotate
      have heq : RBT_eliminate_red_red (node
          (node al ar anx acap apd aiu RED aid) b nx cap pd iu BLACK id) =
          node al (node ar b nx cap pd iu RED id) anx acap apd aiu BLACK
            aid := by
        simp [RBT_eliminate_red_red, isRed_rnode, h1, h3]
      rw [heq]
      refine ⟨?_, ?_, ?_, ?_, ?_⟩
      · have h3' : isRed b = false := by simpa using h3
        simp [redOk, isRed_bnode, hral, hrar, hrb, h2, h3', isRed_rnode]
      · simp [noDB, hnal, hnar, hnb]
      · have d1 : dbhb (node ar b nx cap pd iu RED id) = some h := by
          rw [dbhb_node_intro _ _ _ _ _ _ hyr hdb]
          try simp [cw]
        rw [dbhb_node_intro _ _ _ _ _ _ hyl d1]
        try simp [cw]
      · simp only [entM_node]
        try abel
      · simp [buckets_node, hcn, hcka, hbal, hbar, hbb]
  · have h1' : isRed al = false := by simpa using h1
    by_cases h2 : isRed ar = true
    · by_cases h3 : isRed b = true
      · -- RED uncle: recolor
        cases b with
        | leaf => simp [isRed] at h3
        | dbleaf => simp [isRed] at h3
        | node bl br bnx bcap bpd biu bcol bid =>
          cases bcol with
          | BLACK => simp [isRed] at h3
          | DOUBLE_BLACK => simp [isRed] at h3
          | RED =>
            obtain ⟨hbimp, hrbl, hrbr⟩ := redOk_node_elim hrb
            obtain ⟨hbcne, hnbl, hnbr⟩ := noDB_node_elim hnb
            rw [buckets_node, Bool.and_eq_true, Bool.and_eq_true] at hbb
            obtain ⟨⟨hckb, hbbl⟩, hbbr⟩ := hbb
            obtain ⟨z, hz1, hz2, hzh⟩ := dbhb_node_elim hdb
            have hzh' : h = z := by simp [cw] at hzh; omega
            subst hzh'
            have heq : RBT_eliminate_red_red (node
                (node al ar anx acap apd aiu RED aid)
                (node bl br bnx bcap bpd biu RED bid) nx cap pd iu BLACK id) =
                node (node al ar anx acap apd aiu BLACK aid)
                  (node bl br bnx bcap bpd biu BLACK bid) nx cap pd iu RED
                  id := by
              simp [RBT_eliminate_red_red, isRed_rnode, h1', h2, setColor]
            rw [heq]
            refine ⟨?_, ?_, ?_, ?_, ?_⟩
            · simp [redOk, isRed_bnode, hral, hrar, hrbl, hrbr]
            · simp [noDB, hnal, hnar, hnbl, hnbr]
            · have d1 : dbhb (node al ar anx acap apd aiu BLACK aid) =
                  some (h + 1) := by
                rw [dbhb_node_intro _ _ _ _ _ _ hyl hyr]
                try simp [cw]
              have d2 : dbhb (node bl br bnx bcap bpd biu BLACK bid) =
                  some (h + 1) := by
                rw [dbhb_node_intro _ _ _ _ _ _ hz1 hz2]
                try simp [cw]
              rw [dbhb_node_intro _ _ _ _ _ _ d1 d2]
              try simp [cw]
            · simp only [entM_node]
              try abel
            · simp [buckets_node, hcn, hcka, hckb, hbal, hbar, hbbl, hbbr]
      · -- BLACK uncle, far grandchild RED: double rotation
        cases ar with
        | leaf => simp [isRed] at h2
        | dbleaf => simp [isRed] at h2
        | node arl arr arnx arcap arpd ariu arcol arid =>
          cases arcol with
          | BLACK => simp [isRed] at h2
          | DOUBLE_BLACK => simp [isRed] at h2
          | RED =>
            obtain ⟨harimp, hrarl, hrarr⟩ := redOk_node_elim hrar
            obtain ⟨harcne, hnarl, hnarr⟩ := noDB_node_elim hnar
            rw [buckets_node, Bool.and_eq_true, Bool.and_eq_true] at hbar
            obtain ⟨⟨hckar, hbarl⟩, hbarr⟩ := hbar
            obtain ⟨w, hw1, hw2, hwh⟩ := dbhb_node_elim hyr
            have hwh' : h = w := by simp [cw] at hwh; omega
            subst hwh'
            have heq : RBT_eliminate_red_red (node
                (node al (node arl arr arnx arcap arpd ariu RED arid) anx
                  acap apd aiu RED aid) b nx cap pd iu BLACK id) =
                node (node al arl anx acap apd aiu RED aid)
                  (node arr b nx cap pd iu RED id) arnx arcap arpd ariu
                  BLACK arid := by
              simp [RBT_eliminate_red_red, isRed_rnode, h1', h3]
            rw [heq]
            have h3' : isRed b = false := by simpa using h3
            have hrarl' : isRed arl = false := (harimp rfl).1
            have hrarr' : isRed arr = false := (harimp rfl).2
            refine ⟨?_, ?_, ?_, ?_, ?_⟩
            · simp [redOk, isRed_rnode, hral, hrarl, hrarr, hrb, h1', h3',
                hrarl', hrarr']
            · simp [noDB, hnal, hnarl, hnarr, hnb]
            · have d1 : dbhb (node al arl anx acap apd aiu RED aid) =
                  some h := by
                rw [dbhb_node_intro _ _ _ _ _ _ hyl hw1]
                try simp [cw]
              have d2 : dbhb (node arr b nx cap pd iu RED id) = some h := by
                rw [dbhb_node_intro _ _ _ _ _ _ hw2 hdb]
                try simp [cw]
              rw [dbhb_node_intro _ _ _ _ _ _ d1 d2]
              try simp [cw]
            · simp only [entM_node]
              try abel
            · simp [buckets_node, hcn, hcka, hckar, hbal, hbarl, hbarr, hbb]
    · -- no grandchild violation: identity
      have h2' : isRed ar = false := by simpa using h2
      have heq : RBT_eliminate_red_red (node
          (node al ar anx acap apd aiu RED aid) b nx cap pd iu BLACK id) =
          node (node al ar anx acap apd aiu RED aid) b nx cap pd iu BLACK
            id := by
        have hra : redOk (node al ar anx acap apd aiu RED aid) = true := by
          simp [redOk, hral, hrar, h1', h2']
        exact eliminate_id _ _ _ _ _ _ _ _ hra hrb
      rw [heq]
      refine ⟨?_, ?_, ?_, rfl, ?_⟩
      · simp [redOk, isRed_bnode, hral, hrar, hrb, h1', h2']
      · simp [noDB, hnal, hnar, hnb]
      · have d1 : dbhb (node al ar anx acap apd aiu RED aid) = some h := by
          rw [dbhb_node_intro _ _ _ _ _ _ hyl hyr]
          try simp [cw]
        rw [dbhb_node_intro _ _ _ _ _ _ d1 hdb]
        try simp [cw]
      · simp [buckets_node, hcn, hcka, hbal, hbar, hbb]


/-- Resolution of an insertion violation carried by the RIGHT child: at a
BLACK parent, `RBT_eliminate_red_red` (through `eliminateRight`) turns a
RED right child with at most one RED grandchild into a valid subtree of
the same weighted black height and the same entries. -/
theorem eliminate_fix_right (a b nx : Tree) (cap pd : Nat) (iu : Bool)
    (id : Nat) (h : Nat)
    (hib : insV b) (hra : redOk a = true)
    (hna : noDB a = true) (hnb : noDB b = true)
    (hda : dbhb a = some h) (hdb : dbhb b = some h)
    (hba : bucketsOk a = true) (hbb : bucketsOk b = true)
    (hcn : chainOk cap nx = true) :
    redOk (RBT_eliminate_red_red (node a b nx cap pd iu BLACK id)) = true ∧
    noDB (RBT_eliminate_red_red (node a b nx cap pd iu BLACK id)) = true ∧
    dbhb (RBT_eliminate_red_red (node a b nx cap pd iu BLACK id)) =
      some (h + 1) ∧
    entM (RBT_eliminate_red_red (node a b nx cap pd iu BLACK id)) =
      entM (node a b nx cap pd iu BLACK id) ∧
    bucketsOk (RBT_eliminate_red_red (node a b nx cap pd iu BLACK id)) =
      true := by
  obtain ⟨bl, br, bnx, bcap, bpd, biu, bid, rfl, hrbl, hrbr, hone⟩ := hib
  obtain ⟨hbcne, hnbl, hnbr⟩ := noDB_node_elim hnb
  rw [buckets_node, Bool.and_eq_true, Bool.and_eq_true] at hbb
  obtain ⟨⟨hckb, hbbl⟩, hbbr⟩ := hbb
  obtain ⟨z, hz1, hz2, hzh⟩ := dbhb_node_elim hdb
  have hzh' : h = z := by simp [cw] at hzh; omega
  subst hzh'
  by_cases ha : isRed a = true
  · -- the left sibling is RED too: whichever grandchild violates, the
    -- repair recolors
    cases a with
    | leaf => simp [isRed] at ha
    | dbleaf => simp [isRed] at ha
    | node al ar anx acap apd aiu acol aid =>
      cases acol with
      | BLACK => simp [isRed] at ha
      | DOUBLE_BLACK => simp [isRed] at ha
      | RED =>
        obtain ⟨haimp, hral, hrar⟩ := redOk_node_elim hra
        obtain ⟨hacne, hnal, hnar⟩ := noDB_node_elim hna
        rw [buckets_node, Bool.and_eq_true, Bool.and_eq_true] at hba
        obtain ⟨⟨hcka, hbal⟩, hbar⟩ := hba
        obtain ⟨y, hy1, hy2, hyh⟩ := dbhb_node_elim hda
        have hyh' : h = y := by simp [cw] at hyh; omega
        subst hyh'
        have ha1 : isRed al = false := (haimp rfl).1
        have ha2 : isRed ar = false := (haimp rfl).2
        have hrecolor : ∀ E, E = node (node al ar anx acap apd aiu BLACK aid)
            (node bl br bnx bcap bpd biu BLACK bid) nx cap pd iu RED id →
            redOk E = true ∧ noDB E = true ∧ dbhb E = some (h + 1) ∧
            entM E = entM (node (node al ar anx acap apd aiu RED aid)
              (node bl br bnx bcap bpd biu RED bid) nx cap pd iu BLACK id) ∧
            bucketsOk E = true := by
          intro E hE
          subst hE
          refine ⟨?_, ?_, ?_, ?_, ?_⟩
          · simp [redOk, isRed_bnode, hral, hrar, hrbl, hrbr]
          · simp [noDB, hnal, hnar, hnbl, hnbr]
          · have d1 : dbhb (node al ar anx acap apd aiu BLACK aid) =
                some (h + 1) := by
              rw [dbhb_node_intro _ _ _ _ _ _ hy1 hy2]
              try simp [cw]
            have d2 : dbhb (node bl br bnx bcap bpd biu BLACK bid) =
                some (h + 1) := by
              rw [dbhb_node_intro _ _ _ _ _ _ hz1 hz2]
              try simp [cw]
            rw [dbhb_node_intro _ _ _ _ _ _ d1 d2]
            try simp [cw]
          · simp only [entM_node]
            try abel
          · simp [buckets_node, hcn, hcka, hckb, hbal, hbar, hbbl, hbbr]
        by_cases hb1 : isRed bl = true
        · apply hrecolor
          simp [RBT_eliminate_red_red, isRed_rnode, ha1, ha2, eliminateRight,
            hb1, setColor]
        · by_cases hb2 : isRed br = true
          · apply hrecolor
            simp [RBT_eliminate_red_red, isRed_rnode, ha1, ha2,
              eliminateRight, hb1, hb2, setColor]
          · -- no grandchild violation: identity
            have hb1' : isRed bl = false := by simpa using hb1
            have hb2' : isRed br = false := by simpa using hb2
            have hrbb : redOk (node bl br bnx bcap bpd biu RED bid) = true := by
              simp [redOk, hrbl, hrbr, hb1', hb2']
            have heq := eliminate_id (node al ar anx acap apd aiu RED aid)
              (node bl br bnx bcap bpd biu RED bid) nx cap pd iu BLACK id
              hra hrbb
            rw [heq]
            refine ⟨?_, ?_, ?_, rfl, ?_⟩
            · simp [redOk, isRed_bnode, hral, hrar, hrbl, hrbr, ha1, ha2,
                hb1', hb2']
            · simp [noDB, hnal, hnar, hnbl, hnbr]
            · have d2 : dbhb (node bl br bnx bcap bpd biu RED bid) =
                  some h := by
                rw [dbhb_node_intro _ _ _ _ _ _ hz1 hz2]
                try simp [cw]
              rw [dbhb_node_intro _ _ _ _ _ _ hda d2]
              try simp [cw]
            · simp [buckets_node, hcn, hcka, hckb, hbal, hbar, hbbl, hbbr]
  · have ha' : isRed a = false := by simpa using ha
    by_cases hb1 : isRed bl = true
    · -- near grandchild RED: double rotation
      have hb2 : isRed br = false := by
        rcases hone with hh | hh
        · rw [hh] at hb1; cases hb1
        · exact hh
      cases bl with
      | leaf => simp [isRed] at hb1
      | dbleaf => simp [isRed] at hb1
      | node bll blr blnx blcap blpd bliu blcol blid =>
        cases blcol with
        | BLACK => simp [isRed] at hb1
        | DOUBLE_BLACK => simp [isRed] at hb1
        | RED =>
          obtain ⟨hblimp, hrbll, hrblr⟩ := redOk_node_elim hrbl
          obtain ⟨hblcne, hnbll, hnblr⟩ := noDB_node_elim hnbl
          rw [buckets_node, Bool.and_eq_true, Bool.and_eq_true] at hbbl
          obtain ⟨⟨hckbl, hbbll⟩, hbblr⟩ := hbbl
          obtain ⟨w, hw1, hw2, hwh⟩ := dbhb_node_elim hz1
          have hwh' : h = w := by simp [cw] at hwh; omega
          subst hwh'
          have heq : RBT_eliminate_red_red (node a
              (node (node bll blr blnx blcap blpd bliu RED blid) br bnx bcap
                bpd biu RED bid) nx cap pd iu BLACK id) =
              node (node a bll nx cap pd iu RED id)
                (node blr br bnx bcap bpd biu RED bid) blnx blcap blpd bliu
                BLACK blid := by
            cases a with
            | leaf =>
              simp [RBT_eliminate_red_red, isRed_leaf, eliminateRight,
                isRed_rnode]
            | dbleaf =>
              simp [RBT_eliminate_red_red, isRed_dbleaf, eliminateRight,
                isRed_rnode]
            | node al ar anx acap apd aiu acol aid =>
              cases acol with
              | RED => simp [isRed] at ha
              | BLACK =>
                simp [RBT_eliminate_red_red, isRed_bnode, eliminateRight,
                  isRed_rnode]
              | DOUBLE_BLACK =>
                simp [RBT_eliminate_red_red, isRed_dbnode, eliminateRight,
                  isRed_rnode]
          rw [heq]
          have hbll' : isRed bll = false := (hblimp rfl).1
          have hblr' : isRed blr = false := (hblimp rfl).2
          refine ⟨?_, ?_, ?_, ?_, ?_⟩
          · simp [redOk, isRed_rnode, hra, hrbll, hrblr, hrbr, ha', hb2,
              hbll', hblr']
          · simp [noDB, hna, hnbll, hnblr, hnbr]
          · have d1 : dbhb (node a bll nx cap pd iu RED id) = some h := by
              rw [dbhb_node_intro _ _ _ _ _ _ hda hw1]
              try simp [cw]
            have d2 : dbhb (node blr br bnx bcap bpd biu RED bid) =
                some h := by
              rw [dbhb_node_intro _ _ _ _ _ _ hw2 hz2]
              try simp [cw]
            rw [dbhb_node_intro _ _ _ _ _ _ d1 d2]
            try simp [cw]
          · simp only [entM_node]
            try abel
          · simp [buckets_node, hcn, hckb, hckbl, hba, hbbll, hbblr, hbbr]
    · have hb1' : isRed bl = false := by simpa using hb1
      by_cases hb2 : isRed br = true
      · -- far grandchild RED: single rotation
        have heq : RBT_eliminate_red_red (node a
            (node bl br bnx bcap bpd biu RED bid) nx cap pd iu BLACK id) =
            node (node a bl nx cap pd iu RED id) br bnx bcap bpd biu BLACK
              bid := by
          cases a with
          | leaf =>
            simp [RBT_eliminate_red_red, isRed_leaf, eliminateRight,
              isRed_rnode, hb1', hb2]
          | dbleaf =>
            simp [RBT_eliminate_red_red, isRed_dbleaf, eliminateRight,
              isRed_rnode, hb1', hb2]
          | node al ar anx acap apd aiu acol aid =>
            cases acol with
            | RED => simp [isRed] at ha
            | BLACK =>
              simp [RBT_eliminate_red_red, isRed_bnode, eliminateRight,
                isRed_rnode, hb1', hb2]
            | DOUBLE_BLACK =>
              simp [RBT_eliminate_red_red, isRed_dbnode, eliminateRight,
                isRed_rnode, hb1', hb2]
        rw [heq]
        refine ⟨?_, ?_, ?_, ?_, ?_⟩
        · simp [redOk, isRed_rnode, hra, hrbl, hrbr, ha', hb1']
        · simp [noDB, hna, hnbl, hnbr]
        · have d1 : dbhb (node a bl nx cap pd iu RED id) = some h := by
            rw [dbhb_node_intro _ _ _ _ _ _ hda hz1]
            try simp [cw]
          rw [dbhb_node_intro _ _ _ _ _ _ d1 hz2]
          try simp [cw]
        · simp only [entM_node]
          try abel
        · simp [buckets_node, hcn, hckb, hba, hbbl, hbbr]
      · -- no grandchild violation: identity
        have hb2' : isRed br = false := by simpa using hb2
        have hrbb : redOk (node bl br bnx bcap bpd biu RED bid) = true := by
          simp [redOk, hrbl, hrbr, hb1', hb2']
        have heq := eliminate_id a (node bl br bnx bcap bpd biu RED bid) nx
          cap pd iu BLACK id hra hrbb
        rw [heq]
        refine ⟨?_, ?_, ?_, rfl, ?_⟩
        · simp [redOk, isRed_bnode, hra, hrbl, hrbr, hb1', hb2']
        · simp [noDB, hna, hnbl, hnbr]
        · have d2 : dbhb (node bl br bnx bcap bpd biu RED bid) = some h := by
            rw [dbhb_node_intro _ _ _ _ _ _ hz1 hz2]
            try simp [cw]
          rw [dbhb_node_intro _ _ _ _ _ _ hda d2]
          try simp [cw]
        · simp [buckets_node, hcn, hckb, hba, hbbl, hbbr]


/-- Specification of `RBT_add_inner`: entries gain exactly the fresh node's
(truncated) entry, double-black freedom and bucket shape are preserved, the
weighted black height is kept, and the only possible red-red violation sits
at the top of a RED-rooted subtree (the `insV` shape). -/
theorem add_inner_spec (t : Tree) : ∀ (nid c H : Nat),
    noDB t = true → redOk t = true → dbhb t = some H →
    bucketsOk t = true → capsB t = true →
    noDB (RBT_add_inner t nid c) = true ∧
    bucketsOk (RBT_add_inner t nid c) = true ∧
    entM (RBT_add_inner t nid c) =
      (nid, c % FIELD_MOD, 0, false) ::ₘ entM t ∧
    (t = leaf → RBT_add_inner t nid c =
      node leaf leaf leaf (c % FIELD_MOD) 0 false BLACK nid) ∧
    (t ≠ leaf → dbhb (RBT_add_inner t nid c) = some H ∧
      (rootColor t = BLACK → redOk (RBT_add_inner t nid c) = true) ∧
      (rootColor t = RED →
        redOk (RBT_add_inner t nid c) = true ∨
          insV (RBT_add_inner t nid c))) := by
  induction t with
  | leaf =>
    intro nid c H _ _ _ _ _
    refine ⟨rfl, ?_, ?_, fun _ => rfl, fun hne => absurd rfl hne⟩
    · simp [RBT_add_inner, buckets_node, chainOk, bucketsOk]
    · simp [RBT_add_inner, entM_node, entM_leaf]
  | dbleaf =>
    intro nid c H hn _ _ _ _
    simp [noDB] at hn
  | node l r nx cap pd iu col id ihl ihr ihn =>
    intro nid c H hn hred hd hbk hcb
    obtain ⟨hcne, hnl, hnr⟩ := noDB_node_elim hn
    obtain ⟨himp, hrl, hrr⟩ := redOk_node_elim hred
    obtain ⟨x, hxl, hxr, hb⟩ := dbhb_node_elim hd
    have hbk' := hbk
    rw [buckets_node, Bool.and_eq_true, Bool.and_eq_true] at hbk'
    obtain ⟨⟨hck, hkl⟩, hkr⟩ := hbk'
    have hcb' := hcb
    simp only [capsB, capsL_node, List.all_cons, List.all_append,
      Bool.and_eq_true, decide_eq_true_eq] at hcb'
    obtain ⟨hcaplt, ⟨hcnx, hcl⟩, hcr⟩ := hcb'
    have hcbl : capsB l = true := hcl
    have hcbr : capsB r = true := hcr
    subst hb
    have hcolrb : col = RED ∨ col = BLACK := by
      cases col with
      | DOUBLE_BLACK => exact absurd rfl hcne
      | RED => exact Or.inl rfl
      | BLACK => exact Or.inr rfl
    by_cases hc : c = cap
    · -- existing capacity: push onto the bucket list
      have hmod : c % FIELD_MOD = cap := by
        rw [hc]
        exact Nat.mod_eq_of_lt hcaplt
      have heq : RBT_add_inner (node l r nx cap pd iu col id) nid c =
          node l r (node leaf leaf nx (c % FIELD_MOD) 0 false BLACK nid) cap
            pd iu col id := by
        simp [RBT_add_inner, hc]
      rw [heq]
      refine ⟨by simp [noDB, hnl, hnr, hcne], ?_, ?_,
        fun h => by simp at h, fun _ => ⟨hd, fun _ => hred,
          fun _ => Or.inl hred⟩⟩
      · simp [buckets_node, chainOk, hmod, hck, hkl, hkr, bucketsOk]
      · simp only [entM_node, entM_leaf, ← Multiset.singleton_add]
        abel
    · by_cases hlt : c < cap
      · -- descend left
        cases l with
        | dbleaf => simp [noDB] at hnl
        | leaf =>
          have hx1 : x = 1 := by
            simp [dbhb] at hxl
            omega
          subst hx1
          have heq : RBT_add_inner (node leaf r nx cap pd iu col id) nid c =
              RBT_eliminate_red_red (node
                (node leaf leaf leaf (c % FIELD_MOD) 0 false RED nid) r nx
                cap pd iu col id) := by
            simp [RBT_add_inner, hc, hlt, setColor]
          rw [heq]
          have hrN : redOk (node leaf leaf leaf (c % FIELD_MOD) 0 false RED
              nid) = true := by simp [redOk, isRed_leaf]
          have hid := eliminate_id (node leaf leaf leaf (c % FIELD_MOD) 0
            false RED nid) r nx cap pd iu col id hrN hrr
          rw [hid]
          refine ⟨by simp [noDB, hnr, hcne], ?_, ?_, fun h => by simp at h,
            fun _ => ⟨?_, ?_, ?_⟩⟩
          · simp [buckets_node, chainOk, hck, hkr, bucketsOk]
          · simp only [entM_node, entM_leaf, ← Multiset.singleton_add]
            abel
          · have d1 : dbhb (node leaf leaf leaf (c % FIELD_MOD) 0 false RED
                nid) = some 1 := by
              simp [dbhb, cw]
            rw [dbhb_node_intro _ _ _ _ _ _ d1 hxr]
          · intro hcb2
            have hcolB : col = BLACK := by simpa [rootColor] using hcb2
            subst hcolB
            simp [redOk, hrN, hrr, isRed_bnode, isRed_leaf]
          · intro hcr2
            have hcolR : col = RED := by simpa [rootColor] using hcr2
            subst hcolR
            right
            exact ⟨node leaf leaf leaf (c % FIELD_MOD) 0 false RED nid, r,
              nx, cap, pd, iu, id, rfl, hrN, hrr, Or.inr (himp rfl).2⟩
        | node ll0 lr0 lnx0 lcap0 lpd0 liu0 lcol0 lid0 =>
          obtain ⟨IHnoDB, IHbk, IHent, -, IHnode⟩ := ihl nid c x hnl hrl hxl
            hkl hcbl
          obtain ⟨IHdbh, IHblack, IHred⟩ := IHnode (by simp)
          have heq : RBT_add_inner (node
              (node ll0 lr0 lnx0 lcap0 lpd0 liu0 lcol0 lid0) r nx cap pd iu
              col id) nid c =
              RBT_eliminate_red_red (node
                (RBT_add_inner (node ll0 lr0 lnx0 lcap0 lpd0 liu0 lcol0
                  lid0) nid c) r nx cap pd iu col id) := by
            simp [RBT_add_inner, hc, hlt]
          rw [heq]
          cases lcol0 with
          | DOUBLE_BLACK => simp [noDB] at hnl
          | BLACK =>
            have hrN : redOk (RBT_add_inner (node ll0 lr0 lnx0 lcap0 lpd0
                liu0 BLACK lid0) nid c) = true := IHblack rfl
            have hid := eliminate_id _ r nx cap pd iu col id hrN hrr
            rw [hid]
            refine ⟨by simp [noDB, IHnoDB, hnr, hcne], ?_, ?_,
              fun h => by simp at h, fun _ => ⟨?_, ?_, ?_⟩⟩
            · simp [buckets_node, hck, IHbk, hkr]
            · rw [entM_node, entM_node, IHent]
              simp only [← Multiset.singleton_add]
              abel
            · rw [dbhb_node_intro _ _ _ _ _ _ IHdbh hxr]
            · intro hcb2
              have hcolB : col = BLACK := by simpa [rootColor] using hcb2
              subst hcolB
              simp [redOk, hrN, hrr, isRed_bnode, isRed_leaf]
            · intro hcr2
              have hcolR : col = RED := by simpa [rootColor] using hcr2
              subst hcolR
              by_cases hq : isRed (RBT_add_inner (node ll0 lr0 lnx0 lcap0
                  lpd0 liu0 BLACK lid0) nid c) = true
              · right
                exact ⟨_, r, nx, cap, pd, iu, id, rfl, hrN, hrr,
                  Or.inr (himp rfl).2⟩
              · left
                have hq' : isRed (RBT_add_inner (node ll0 lr0 lnx0 lcap0
                    lpd0 liu0 BLACK lid0) nid c) = false := by simpa using hq
                simp [redOk, hrN, hrr, hq', (himp rfl).2]
          | RED =>
            have hcolB : col = BLACK := by
              rcases hcolrb with hcc | hcc
              · exact absurd (himp hcc).1 (by simp [isRed_rnode])
              · exact hcc
            subst hcolB
            rcases IHred rfl with hok | hiv
            · have hid := eliminate_id _ r nx cap pd iu BLACK id hok hrr
              rw [hid]
              refine ⟨by simp [noDB, IHnoDB, hnr], ?_, ?_,
                fun h => by simp at h, fun _ => ⟨?_, ?_, ?_⟩⟩
              · simp [buckets_node, hck, IHbk, hkr]
              · rw [entM_node, entM_node, IHent]
                simp only [← Multiset.singleton_add]
                abel
              · rw [dbhb_node_intro _ _ _ _ _ _ IHdbh hxr]
              · intro _
                simp [redOk, hok, hrr, isRed_bnode]
              · intro hcr2
                simp [rootColor] at hcr2
            · have hfix := eliminate_fix_left _ r nx cap pd iu id x hiv hrr
                IHnoDB hnr IHdbh hxr IHbk hkr hck
              obtain ⟨f1, f2, f3, f4, f5⟩ := hfix
              refine ⟨f2, f5, ?_, fun h => by simp at h,
                fun _ => ⟨?_, fun _ => f1, fun hcr2 => by
                  simp [rootColor] at hcr2⟩⟩
              · rw [f4, entM_node, entM_node, IHent]
                simp only [← Multiset.singleton_add]
                abel
              · rw [f3]
                try congr 1
                try simp [cw]
      · -- descend right
        cases r with
        | dbleaf => simp [noDB] at hnr
        | leaf =>
          have hx1 : x = 1 := by
            simp [dbhb] at hxr
            omega
          subst hx1
          have heq : RBT_add_inner (node l leaf nx cap pd iu col id) nid c =
              RBT_eliminate_red_red (node l
                (node leaf leaf leaf (c % FIELD_MOD) 0 false RED nid) nx
                cap pd iu col id) := by
            simp [RBT_add_inner, hc, hlt, setColor]
          rw [heq]
          have hrN : redOk (node leaf leaf leaf (c % FIELD_MOD) 0 false RED
              nid) = true := by simp [redOk, isRed_leaf]
          have hid := eliminate_id l (node leaf leaf leaf (c % FIELD_MOD) 0
            false RED nid) nx cap pd iu col id hrl hrN
          rw [hid]
          refine ⟨by simp [noDB, hnl, hcne], ?_, ?_, fun h => by simp at h,
            fun _ => ⟨?_, ?_, ?_⟩⟩
          · simp [buckets_node, chainOk, hck, hkl, bucketsOk]
          · simp only [entM_node, entM_leaf, ← Multiset.singleton_add]
            abel
          · have d1 : dbhb (node leaf leaf leaf (c % FIELD_MOD) 0 false RED
                nid) = some 1 := by
              simp [dbhb, cw]
            rw [dbhb_node_intro _ _ _ _ _ _ hxl d1]
          · intro hcb2
            have hcolB : col = BLACK := by simpa [rootColor] using hcb2
            subst hcolB
            simp [redOk, hrN, hrl, isRed_bnode, isRed_leaf]
          · intro hcr2
            have hcolR : col = RED := by simpa [rootColor] using hcr2
            subst hcolR
            right
            exact ⟨l, node leaf leaf leaf (c % FIELD_MOD) 0 false RED nid,
              nx, cap, pd, iu, id, rfl, hrl, hrN, Or.inl (himp rfl).1⟩
        | node rl0 rr0 rnx0 rcap0 rpd0 riu0 rcol0 rid0 =>
          obtain ⟨IHnoDB, IHbk, IHent, -, IHnode⟩ := ihr nid c x hnr hrr hxr
            hkr hcbr
          obtain ⟨IHdbh, IHblack, IHred⟩ := IHnode (by simp)
          have heq : RBT_add_inner (node l
              (node rl0 rr0 rnx0 rcap0 rpd0 riu0 rcol0 rid0) nx cap pd iu
              col id) nid c =
              RBT_eliminate_red_red (node l
                (RBT_add_inner (node rl0 rr0 rnx0 rcap0 rpd0 riu0 rcol0
                  rid0) nid c) nx cap pd iu col id) := by
            simp [RBT_add_inner, hc, hlt]
          rw [heq]
          cases rcol0 with
          | DOUBLE_BLACK => simp [noDB] at hnr
          | BLACK =>
            have hrN : redOk (RBT_add_inner (node rl0 rr0 rnx0 rcap0 rpd0
                riu0 BLACK rid0) nid c) = true := IHblack rfl
            have hid := eliminate_id l _ nx cap pd iu col id hrl hrN
            rw [hid]
            refine ⟨by simp [noDB, IHnoDB, hnl, hcne], ?_, ?_,
              fun h => by simp at h, fun _ => ⟨?_, ?_, ?_⟩⟩
            · simp [buckets_node, hck, IHbk, hkl]
            · rw [entM_node, entM_node, IHent]
              simp only [← Multiset.singleton_add]
              abel
            · rw [dbhb_node_intro _ _ _ _ _ _ hxl IHdbh]
            · intro hcb2
              have hcolB : col = BLACK := by simpa [rootColor] using hcb2
              subst hcolB
              simp [redOk, hrN, hrl, isRed_bnode, isRed_leaf]
            · intro hcr2
              have hcolR : col = RED := by simpa [rootColor] using hcr2
              subst hcolR
              by_cases hq : isRed (RBT_add_inner (node rl0 rr0 rnx0 rcap0
                  rpd0 riu0 BLACK rid0) nid c) = true
              · right
                exact ⟨l, _, nx, cap, pd, iu, id, rfl, hrl, hrN,
                  Or.inl (himp rfl).1⟩
              · left
                have hq' : isRed (RBT_add_inner (node rl0 rr0 rnx0 rcap0
                    rpd0 riu0 BLACK rid0) nid c) = false := by simpa using hq
                simp [redOk, hrN, hrl, hq', (himp rfl).1]
          | RED =>
            have hcolB : col = BLACK := by
              rcases hcolrb with hcc | hcc
              · exact absurd (himp hcc).2 (by simp [isRed_rnode])
              · exact hcc
            subst hcolB
            rcases IHred rfl with hok | hiv
            · have hid := eliminate_id l _ nx cap pd iu BLACK id hrl hok
              rw [hid]
              refine ⟨by simp [noDB, IHnoDB, hnl], ?_, ?_,
                fun h => by simp at h, fun _ => ⟨?_, ?_, ?_⟩⟩
              · simp [buckets_node, hck, IHbk, hkl]
              · rw [entM_node, entM_node, IHent]
                simp only [← Multiset.singleton_add]
                abel
              · rw [dbhb_node_intro _ _ _ _ _ _ hxl IHdbh]
              · intro _
                simp [redOk, hok, hrl, isRed_bnode]
              · intro hcr2
                simp [rootColor] at hcr2
            · have hfix := eliminate_fix_right l _ nx cap pd iu id x hiv hrl
                hnl IHnoDB hxl IHdbh hkl IHbk hck
              obtain ⟨f1, f2, f3, f4, f5⟩ := hfix
              refine ⟨f2, f5, ?_, fun h => by simp at h,
                fun _ => ⟨?_, fun _ => f1, fun hcr2 => by
                  simp [rootColor] at hcr2⟩⟩
              · rw [f4, entM_node, entM_node, IHent]
                simp only [← Multiset.singleton_add]
                abel
              · rw [f3]
                try congr 1
                try simp [cw]


/-- Invariant preservation of the public `RBT_add` for a freshly
allocated node: the entry multiset gains exactly the new (truncated)
entry, and validity, BLACK root, bucket shape, address distinctness and
the capacity bound are all preserved. -/
theorem add_inv (t : Tree) (nid c : Nat)
    (h1 : validSub t) (h2 : t = leaf ∨ rootColor t = BLACK)
    (h3 : bucketsOk t = true) (h4 : (idsL t).Nodup) (h5 : capsB t = true)
    (hfresh : nid ∉ idsL t) :
    entM (RBT_add t nid c) = (nid, c % FIELD_MOD, 0, false) ::ₘ entM t ∧
    validSub (RBT_add t nid c) ∧
    (RBT_add t nid c = leaf ∨ rootColor (RBT_add t nid c) = BLACK) ∧
    bucketsOk (RBT_add t nid c) = true ∧
    (idsL (RBT_add t nid c)).Nodup ∧
    capsB (RBT_add t nid c) = true := by
  have hmodpos : 0 < FIELD_MOD := by rw [FIELD_MOD]; positivity
  have hcaps : ∀ (u : Tree),
      entM u = (nid, c % FIELD_MOD, 0, false) ::ₘ entM t →
      capsB u = true := by
    intro u hu
    simp only [capsB, List.all_eq_true, decide_eq_true_eq]
    intro cc hcc
    have h1m : cc ∈ (capsL u : Multiset Nat) := Multiset.mem_coe.2 hcc
    rw [capsL_coe_entM, hu, Multiset.map_cons] at h1m
    rcases Multiset.mem_cons.1 h1m with hcase | hcase
    · rw [hcase]
      exact Nat.mod_lt _ hmodpos
    · rw [← capsL_coe_entM] at hcase
      have := Multiset.mem_coe.1 hcase
      simp only [capsB, List.all_eq_true, decide_eq_true_eq] at h5
      exact h5 cc this
  have hnodup : ∀ (u : Tree),
      entM u = (nid, c % FIELD_MOD, 0, false) ::ₘ entM t →
      (idsL u).Nodup := by
    intro u hu
    have hidm : (idsL u : Multiset Nat) = nid ::ₘ (idsL t : Multiset Nat) := by
      rw [idsL_coe_entM, idsL_coe_entM, hu, Multiset.map_cons]
    rw [← Multiset.coe_nodup, hidm, Multiset.nodup_cons]
    exact ⟨fun hm => hfresh (Multiset.mem_coe.1 hm), Multiset.coe_nodup.2 h4⟩
  obtain ⟨hn, hr, hdb⟩ := h1
  rw [Option.isSome_iff_exists] at hdb
  obtain ⟨H, hd⟩ := hdb
  obtain ⟨SnoDB, Sbk, Sent, Sleaf, Snode⟩ := add_inner_spec t nid c H hn hr
    hd h3 h5
  cases t with
  | dbleaf => simp [noDB] at hn
  | leaf =>
    have heq : RBT_add leaf nid c =
        node leaf leaf leaf (c % FIELD_MOD) 0 false BLACK nid := by
      rw [RBT_add, Sleaf rfl]
      rfl
    have hent : entM (RBT_add leaf nid c) =
        (nid, c % FIELD_MOD, 0, false) ::ₘ entM leaf := by
      rw [heq]
      simp [entM_node, entM_leaf]
    rw [heq] at hent ⊢
    refine ⟨hent, ⟨by simp [noDB], by simp [redOk, isRed_leaf],
      by simp [dbhb]⟩, Or.inr rfl, by simp [bucketsOk, chainOk, buckets_node],
      hnodup _ hent, hcaps _ hent⟩
  | node l r nx cap pd iu col id =>
    have hcolB : col = BLACK := by
      rcases h2 with h | h
      · cases h
      · simpa [rootColor] using h
    subst hcolB
    obtain ⟨Sdbh, Sblack, Sred⟩ := Snode (by simp)
    have redA := Sblack rfl
    rcases hshape : RBT_add_inner (node l r nx cap pd iu BLACK id) nid c
      with _ | _ | ⟨a, b, anx, acap, apd, aiu, acol, aid⟩
    · rw [hshape] at Sent
      simp [entM_leaf] at Sent
    · rw [hshape] at SnoDB
      simp [noDB] at SnoDB
    · have heq : RBT_add (node l r nx cap pd iu BLACK id) nid c =
          node a b anx acap apd aiu BLACK aid := by
        rw [RBT_add, hshape]
        rfl
      rw [hshape] at Sent SnoDB Sbk Sdbh redA
      rw [heq]
      have hent : entM (node a b anx acap apd aiu BLACK aid) =
          (nid, c % FIELD_MOD, 0, false) ::ₘ
            entM (node l r nx cap pd iu BLACK id) := Sent
      obtain ⟨-, hna2, hnb2⟩ := noDB_node_elim SnoDB
      obtain ⟨-, hra2, hrb2⟩ := redOk_node_elim redA
      obtain ⟨y, hya, hyb, -⟩ := dbhb_node_elim Sdbh
      refine ⟨hent, ⟨by simp [noDB, hna2, hnb2], by simp [redOk, hra2, hrb2],
        ?_⟩, Or.inr rfl, Sbk, hnodup _ hent, hcaps _ hent⟩
      rw [Option.isSome_iff_exists]
      exact ⟨y + cw BLACK, dbhb_node_intro _ _ _ _ _ _ hya hyb⟩

/-- The strengthened running invariant behind claim C1: along any
admissible operation sequence the tree stays a valid BLACK-rooted (or
empty) red-black tree with well-shaped buckets, distinct addresses and
in-range capacities. -/
theorem runOps_inv (ops : List Op) : ∀ t, validSub t →
    (t = leaf ∨ rootColor t = BLACK) → bucketsOk t = true →
    (idsL t).Nodup → capsB t = true → admissible t ops = true →
    validSub (runOps t ops) ∧
    (runOps t ops = leaf ∨ rootColor (runOps t ops) = BLACK) ∧
    bucketsOk (runOps t ops) = true ∧
    (idsL (runOps t ops)).Nodup ∧ capsB (runOps t ops) = true := by
  induction ops with
  | nil =>
    intro t h1 h2 h3 h4 h5 _
    exact ⟨h1, h2, h3, h4, h5⟩
  | cons op ops ih =>
    intro t h1 h2 h3 h4 h5 hadm
    rw [runOps]
    cases op with
    | add nid cap =>
      simp only [admissible, Bool.and_eq_true] at hadm
      obtain ⟨hop, hadm'⟩ := hadm
      have hfresh : nid ∉ idsL t := by simpa using hop
      obtain ⟨-, a1, a2, a3, a4, a5⟩ := add_inv t nid cap h1 h2 h3 h4 h5
        hfresh
      exact ih (applyOp t (Op.add nid cap)) a1 a2 a3 a4 a5 hadm'
    | removeAtLeast cap =>
      simp only [admissible, Bool.true_and] at hadm
      obtain ⟨rle, r1, r2, r3, r4⟩ := remove_at_least_inv t cap h1 h2 h3 h4
      exact ih (applyOp t (Op.removeAtLeast cap)) r1 r2 r3 r4
        (capsB_of_entM_le rle h5) hadm
    | removeNode nid cap =>
      simp only [admissible, Bool.true_and] at hadm
      obtain ⟨rle, r1, r2, r3, r4⟩ := remove_node_inv t nid cap h1 h2 h3 h4
      exact ih (applyOp t (Op.removeNode nid cap)) r1 r2 r3 r4
        (capsB_of_entM_le rle h5) hadm

/-- Claim C1: for every finite admissible sequence of `RBT_add`,
`RBT_remove_at_least` and `RBT_remove_node` operations starting from the
empty tree, the returned root is BLACK when non-empty, no double-black
node or sentinel is reachable, no RED node has a RED child, and every
root-to-leaf path carries the same number of BLACK nodes.  (Every prefix
of an admissible sequence is admissible, so this covers the state after
each operation.) -/
theorem claim_C1 (ops : List Op) (hadm : admissible Tree.leaf ops = true) :
    (runOps Tree.leaf ops = leaf ∨
      rootColor (runOps Tree.leaf ops) = BLACK) ∧
    noDB (runOps Tree.leaf ops) = true ∧
    redOk (runOps Tree.leaf ops) = true ∧
    (∀ p ∈ pathCounts (runOps Tree.leaf ops),
      ∀ q ∈ pathCounts (runOps Tree.leaf ops), p = q) := by
  obtain ⟨⟨hn, hr, hdb⟩, hroot, -, -, -⟩ := runOps_inv ops Tree.leaf
    ⟨rfl, rfl, rfl⟩ (Or.inl rfl) rfl List.nodup_nil rfl hadm
  refine ⟨hroot, hn, hr, ?_⟩
  rw [Option.isSome_iff_exists] at hdb
  obtain ⟨H, hd⟩ := hdb
  intro p hp q hq
  rw [pathCounts_eq_of_dbhb _ H hd p hp, pathCounts_eq_of_dbhb _ H hd q hq]

/-- Witness: claim C1 on a concrete admissible sequence — three
insertions (two of them duplicates), a best-fit removal and an identity
removal. -/
theorem claim_C1_witness :
    admissible Tree.leaf [Op.add 1 10, Op.add 2 10, Op.add 3 4,
      Op.removeAtLeast 5, Op.removeNode 3 4] = true ∧
    ((runOps Tree.leaf [Op.add 1 10, Op.add 2 10, Op.add 3 4,
        Op.removeAtLeast 5, Op.removeNode 3 4] = leaf ∨
      rootColor (runOps Tree.leaf [Op.add 1 10, Op.add 2 10, Op.add 3 4,
        Op.removeAtLeast 5, Op.removeNode 3 4]) = BLACK) ∧
     noDB (runOps Tree.leaf [Op.add 1 10, Op.add 2 10, Op.add 3 4,
       Op.removeAtLeast 5, Op.removeNode 3 4]) = true ∧
     redOk (runOps Tree.leaf [Op.add 1 10, Op.add 2 10, Op.add 3 4,
       Op.removeAtLeast 5, Op.removeNode 3 4]) = true ∧
     (∀ p ∈ pathCounts (runOps Tree.leaf [Op.add 1 10, Op.add 2 10,
         Op.add 3 4, Op.removeAtLeast 5, Op.removeNode 3 4]),
       ∀ q ∈ pathCounts (runOps Tree.leaf [Op.add 1 10, Op.add 2 10,
         Op.add 3 4, Op.removeAtLeast 5, Op.removeNode 3 4]), p = q)) :=
  ⟨by decide, claim_C1 [Op.add 1 10, Op.add 2 10, Op.add 3 4,
    Op.removeAtLeast 5, Op.removeNode 3 4] (by decide)⟩


/-- Unfolding `RBT_add_times` by one step. -/
theorem RBT_add_times_succ (k c : Nat) :
    RBT_add_times (k + 1) c = RBT_add (RBT_add_times k c) (k + 1) c := by
  unfold RBT_add_times
  rw [List.range_succ, List.foldl_append]
  rfl

/-- Closed form of repeated equal-capacity insertion: a single tree node
with address 1 holding a well-shaped bucket of the other `k - 1` nodes. -/
theorem RBT_add_times_form (c : Nat) (hc : c < FIELD_MOD) :
    ∀ k, 1 ≤ k → ∃ bucket,
      RBT_add_times k c = node leaf leaf bucket c 0 false BLACK 1 ∧
        chainOk c bucket = true ∧ (entriesL bucket).length = k - 1 := by
  have hmod : c % FIELD_MOD = c := Nat.mod_eq_of_lt hc
  intro k
  induction k with
  | zero => omega
  | succ k ih =>
    intro _
    by_cases hk : 1 ≤ k
    · obtain ⟨B, hB, hchain, hlen⟩ := ih hk
      refine ⟨node leaf leaf B c 0 false BLACK (k + 1), ?_, ?_, ?_⟩
      · rw [RBT_add_times_succ, hB]
        simp [RBT_add, RBT_add_inner, setColor, hmod]
      · simp [chainOk, hchain]
      · simp [entriesL]
        omega
    · have hk0 : k = 0 := by omega
      subst hk0
      refine ⟨leaf, ?_, rfl, rfl⟩
      show RBT_add_times 1 c = _
      simp [RBT_add_times, List.range_succ, RBT_add, RBT_add_inner,
        setColor, hmod]

/-- Claim C5 (amended): for an in-range capacity `c < 2^30` and `k ≥ 1`,
inserting `c` into the empty tree `k` times yields a single tree node for
that capacity carrying the other `k - 1` nodes as a well-shaped bucket on
its `next` list, and both `RBT_height` and `RBT_black_height` equal their
values after inserting `c` once.  (The original claim, for every capacity,
fails at `c = 2^30` because the 30-bit `capacity` bitfield truncates the
store while the descent compares the untruncated argument: see the
counterexample.) -/
theorem claim_C5 (k c : Nat) (hk : 1 ≤ k) (hc : c < FIELD_MOD) :
    ∃ bucket, RBT_add_times k c = node leaf leaf bucket c 0 false BLACK 1 ∧
      chainOk c bucket = true ∧ (entriesL bucket).length = k - 1 ∧
      RBT_height (RBT_add_times k c) = RBT_height (RBT_add_times 1 c) ∧
      RBT_black_height (RBT_add_times k c) = RBT_black_height (RBT_add_times 1 c) := by
  obtain ⟨B, hB, hchain, hlen⟩ := RBT_add_times_form c hc k hk
  obtain ⟨B₁, hB₁, _, _⟩ := RBT_add_times_form c hc 1 le_rfl
  exact ⟨B, hB, hchain, hlen, by rw [hB, hB₁]; simp [RBT_height],
    by rw [hB, hB₁]; simp [RBT_black_height]⟩

/-- Counterexample to claim C5 as stated: inserting the capacity `2^30`
twice produces two distinct tree nodes (the 30-bit bitfield stores 0 while
the insertion descent compares the full argument `2^30`), so the tree
height after two insertions differs from the height after one — no bucket
of `k - 1 = 1` nodes is formed. -/
theorem claim_C5_cex :
    RBT_height (RBT_add (RBT_add Tree.leaf 1 (2 ^ 30)) 2 (2 ^ 30)) = 1 ∧
      RBT_height (RBT_add Tree.leaf 1 (2 ^ 30)) = 0 := by
  constructor <;> decide

/-- Witness for claim C5 at `k = 3`, `c = 7`. -/
theorem claim_C5_witness :
    1 ≤ 3 ∧ 7 < FIELD_MOD ∧
      ∃ bucket, RBT_add_times 3 7 = node leaf leaf bucket 7 0 false BLACK 1 ∧
        chainOk 7 bucket = true ∧ (entriesL bucket).length = 3 - 1 ∧
        RBT_height (RBT_add_times 3 7) = RBT_height (RBT_add_times 1 7) ∧
        RBT_black_height (RBT_add_times 3 7) = RBT_black_height (RBT_add_times 1 7) :=
  ⟨by decide, by decide, claim_C5 3 7 (by decide) (by decide)⟩

/-- Claim C7 (amended): inserting the character codes of `A,L,G,O,R,I,T,H,M`
in that order yields the tree of height 3 and black-height 2 with BLACK
root `I`, left subtree rooted at the **RED** node `G` (children BLACK `A`
and BLACK `H`), and right subtree rooted at RED `O` with children BLACK `L`
(RED child `M`) and BLACK `R` (RED child `T`).  (The original claim colors
`G` BLACK; the code — and its own test `rbt_insertion_test_2` — makes `G`
RED.) -/
theorem claim_C7 :
    algorithmTree =
      node
        (node (node leaf leaf leaf 65 0 false BLACK 1)
          (node leaf leaf leaf 72 0 false BLACK 8) leaf 71 0 false RED 3)
        (node
          (node leaf (node leaf leaf leaf 77 0 false RED 9) leaf 76 0 false
            BLACK 2)
          (node leaf (node leaf leaf leaf 84 0 false RED 7) leaf 82 0 false
            BLACK 5)
          leaf 79 0 false RED 4)
        leaf 73 0 false BLACK 6 ∧
      RBT_height algorithmTree = 3 ∧ RBT_black_height algorithmTree = 2 := by
  refine ⟨by decide, by decide, by decide⟩

/-- Counterexample to claim C7 as stated: the left subtree of the
`A,L,G,O,R,I,T,H,M` tree is rooted at `G` (capacity 71) with color RED,
not BLACK. -/
theorem claim_C7_cex :
    tcap (tleft algorithmTree) = 71 ∧
      rootColor (tleft algorithmTree) = RED ∧ RED ≠ BLACK := by
  refine ⟨by decide, by decide, by decide⟩

/-- Claim C10 (amended): on a double-black-free tree of well-defined black
height, `RBT_black_height` returns the number of BLACK nodes on **any**
path from the root down to a descendant leaf, *not counting the initial
node but counting the terminating leaf* (each `pathCounts` element counts
every BLACK node on one root-to-leaf path, leaf included); in particular it
returns 1, not 0, for a single BLACK node.  (The original claim says the
count is leaf-exclusive and 0 for a singleton; the code and the header
comment in `rbt.h` count the leaf.) -/
theorem claim_C10 (t : Tree) (hn : noDB t = true) (hb : (dbhb t).isSome = true) :
    ∀ c ∈ pathCounts t, c = RBT_black_height t + cw (rootColor t) := by
  obtain ⟨h, hh⟩ := Option.isSome_iff_exists.mp hb
  intro c hc
  rw [pathCounts_eq_of_dbhb t h hh c hc, black_height_eq_of_dbhb t h hn hh]

/-- Counterexample to claim C10 as stated: a tree consisting of a single
BLACK node has `RBT_black_height` 1, not 0. -/
theorem claim_C10_cex :
    RBT_black_height (RBT_add Tree.leaf 1 42) = 1 ∧ (1 : Nat) ≠ 0 := by
  refine ⟨by decide, by decide⟩

/-- Witness for claim C10 on the `A,L,G,O,R,I,T,H,M` tree. -/
theorem claim_C10_witness :
    noDB algorithmTree = true ∧ (dbhb algorithmTree).isSome = true ∧
      ∀ c ∈ pathCounts algorithmTree,
        c = RBT_black_height algorithmTree + cw (rootColor algorithmTree) :=
  ⟨by decide, by decide, claim_C10 algorithmTree (by decide) (by decide)⟩

/-- Counterexample to claim C4 as stated: starting from the tree with BLACK
root 10 and RED left child 5, inserting capacity 3 (which rotates, making 5
the root) and then removing that node by identity leaves the tree with root
5 and right child 10 — not the tree that existed before the insertion. -/
theorem claim_C4_cex :
    (RBT_remove_node (RBT_add slantTree 3 3) 3 3).1 ≠ slantTree := by
  decide

/-- Counterexample to claim C6 as stated: in the tree with BLACK root 10
and RED children 5 and 15, removing the root (which has two non-sentinel
children) fills its position with the **left child** 5 — the in-order
predecessor — while the in-order successor 15 (the leftmost node of the
right subtree) stays a RED child, inheriting nothing. -/
theorem claim_C6_cex :
    RBT_remove_at_least twoChildTree 10 =
      (node leaf (node leaf leaf leaf 15 0 false RED 3) leaf 5 0 false BLACK 2,
        some (node leaf leaf leaf 10 0 false BLACK 1)) ∧
      tcap (RBT_remove_at_least twoChildTree 10).1 = 5 ∧ (5 : Nat) ≠ 15 := by
  refine ⟨by decide, by decide, by decide⟩

theorem treeCaps_bounded (t : Tree) : ∀ (lo hi : Option Nat),
    bstB lo t hi = true →
    ∀ c ∈ treeCaps t, (∀ a, lo = some a → a < c) ∧
      (∀ b, hi = some b → c < b) := by
  induction t with
  | leaf => intro lo hi _ c hc; simp [treeCaps] at hc
  | dbleaf => intro lo hi _ c hc; simp [treeCaps] at hc
  | node l r nx cap pd iu col id ihl ihr ihn =>
    intro lo hi hbst c hc
    obtain ⟨hlo, hhi, hbl, hbr⟩ := bstB_node_elim hbst
    rw [treeCaps, List.mem_cons] at hc
    rcases hc with h | h
    · subst h
      exact ⟨hlo, hhi⟩
    · rw [List.mem_append] at h
      rcases h with h | h
      · obtain ⟨ha, hb⟩ := ihl lo (some cap) hbl c h
        have hccap : c < cap := hb cap rfl
        refine ⟨ha, ?_⟩
        intro b hbeq
        have := hhi b hbeq
        omega
      · obtain ⟨ha, hb⟩ := ihr (some cap) hi hbr c h
        have hcapc : cap < c := ha cap rfl
        refine ⟨?_, hb⟩
        intro a haeq
        have := hlo a haeq
        omega

theorem isRed_eq_rootColor (t : Tree) :
    isRed t = decide (rootColor t = RED) := by
  cases t with
  | leaf => rfl
  | dbleaf => rfl
  | node l r nx cap pd iu col id => cases col <;> rfl

theorem setColor_self {t : Tree} (h : rootColor t = BLACK) :
    setColor t BLACK = t := by
  cases t with
  | leaf => rfl
  | dbleaf => rfl
  | node l r nx cap pd iu col id =>
    rw [rootColor] at h
    rw [h]
    rfl

/-- The bucket-path round trip behind the amended claim C4: inserting a
fresh node whose capacity is already a tree key only prepends a bucket
member, and the addition is inverted exactly by the identity removal of
that node, with the subtree restored byte-for-byte. -/
theorem bucket_roundtrip_inner (t : Tree) : ∀ (nid c : Nat)
    (lo hi : Option Nat),
    noDB t = true → redOk t = true → bstB lo t hi = true →
    c ∈ treeCaps t → c < FIELD_MOD → nid ∉ idsL t →
    rootColor (RBT_add_inner t nid c) = rootColor t ∧
    redOk (RBT_add_inner t nid c) = true ∧
    noDB (RBT_add_inner t nid c) = true ∧
    RBT_remove_node_inner (RBT_add_inner t nid c) nid c =
      (t, some (node leaf leaf leaf c 0 false BLACK nid)) := by
  induction t with
  | leaf => intro nid c lo hi _ _ _ hmem; simp [treeCaps] at hmem
  | dbleaf => intro nid c lo hi hn; simp [noDB] at hn
  | node l r nx cap pd iu col id ihl ihr ihn =>
    intro nid c lo hi hn hred hbst hmem hclt hfresh
    obtain ⟨hcne, hnl, hnr⟩ := noDB_node_elim hn
    obtain ⟨himp, hrl, hrr⟩ := redOk_node_elim hred
    obtain ⟨hlo, hhi, hbstl, hbstr⟩ := bstB_node_elim hbst
    have hnid : nid ≠ id := by
      intro hcontra
      subst hcontra
      exact hfresh (by rw [idsL_node]; exact List.mem_cons_self _ _)
    have hfreshl : nid ∉ idsL l := by
      intro hm
      exact hfresh (by
        rw [idsL_node, List.mem_cons]
        exact Or.inr (List.mem_append.2 (Or.inl (List.mem_append.2
          (Or.inr hm)))))
    have hfreshr : nid ∉ idsL r := by
      intro hm
      exact hfresh (by
        rw [idsL_node, List.mem_cons]
        exact Or.inr (List.mem_append.2 (Or.inr hm)))
    by_cases hc : c = cap
    · -- the bucket node is prepended here
      have hmod : c % FIELD_MOD = c := Nat.mod_eq_of_lt hclt
      have hmod2 : cap % FIELD_MOD = cap := by rw [← hc]; exact hmod
      have heqA : RBT_add_inner (node l r nx cap pd iu col id) nid c =
          node l r (node leaf leaf nx c 0 false BLACK nid) cap pd iu col
            id := by
        simp [RBT_add_inner, hc, hmod, hmod2]
      rw [heqA]
      refine ⟨rfl, hred, by simp [noDB, hnl, hnr, hcne], ?_⟩
      have heqR : RBT_remove_node_inner (node l r (node leaf leaf nx c 0
          false BLACK nid) cap pd iu col id) nid c =
          RBT_remove_node_root (node l r (node leaf leaf nx c 0 false BLACK
            nid) cap pd iu col id) nid := by
        simp only [RBT_remove_node_inner]
        rw [if_pos hc]
      rw [heqR]
      have heqRoot : RBT_remove_node_root (node l r (node leaf leaf nx c 0
          false BLACK nid) cap pd iu col id) nid =
          (node l r (RBT_remove_from_list nid (node leaf leaf nx c 0 false
            BLACK nid)).1 cap pd iu col id,
           (RBT_remove_from_list nid (node leaf leaf nx c 0 false BLACK
             nid)).2) := by
        simp [RBT_remove_node_root, hnid]
      rw [heqRoot]
      have heqL : RBT_remove_from_list nid (node leaf leaf nx c 0 false
          BLACK nid) = (nx, some (node leaf leaf leaf c 0 false BLACK
            nid)) := by
        simp [RBT_remove_from_list]
      rw [heqL]
    · by_cases hlt : c < cap
      · -- the key is in the left subtree
        have hmeml : c ∈ treeCaps l := by
          rw [treeCaps, List.mem_cons] at hmem
          rcases hmem with h | h
          · exact absurd h hc
          · rw [List.mem_append] at h
            rcases h with h | h
            · exact h
            · exfalso
              have := (treeCaps_bounded r (some cap) hi hbstr c h).1 cap rfl
              omega
        cases l with
        | leaf => simp [treeCaps] at hmeml
        | dbleaf => simp [noDB] at hnl
        | node ll0 lr0 lnx0 lcap0 lpd0 liu0 lcol0 lid0 =>
          obtain ⟨icol, ired, inodb, irem⟩ := ihl nid c lo (some cap) hnl
            hrl hbstl hmeml hclt hfreshl
          have heqA : RBT_add_inner (node
              (node ll0 lr0 lnx0 lcap0 lpd0 liu0 lcol0 lid0) r nx cap pd iu
              col id) nid c =
              RBT_eliminate_red_red (node
                (RBT_add_inner (node ll0 lr0 lnx0 lcap0 lpd0 liu0 lcol0
                  lid0) nid c) r nx cap pd iu col id) := by
            simp [RBT_add_inner, hc, hlt]
          have hid := eliminate_id _ r nx cap pd iu col id ired hrr
          rw [heqA, hid]
          refine ⟨rfl, ?_, ?_, ?_⟩
          · simp only [redOk, Bool.and_eq_true, decide_eq_true_eq]
            refine ⟨⟨?_, ired⟩, hrr⟩
            intro hcc
            refine ⟨?_, (himp hcc).2⟩
            rw [isRed_eq_rootColor, icol, ← isRed_eq_rootColor]
            exact (himp hcc).1
          · simp [noDB, inodb, hnr, hcne]
          · have heqR : RBT_remove_node_inner (node
                (RBT_add_inner (node ll0 lr0 lnx0 lcap0 lpd0 liu0 lcol0
                  lid0) nid c) r nx cap pd iu col id) nid c =
                (RBT_propagate_double_blackness
                  (node (RBT_remove_node_inner
                    (RBT_add_inner (node ll0 lr0 lnx0 lcap0 lpd0 liu0 lcol0
                      lid0) nid c) nid c).1 r nx cap pd iu col id),
                 (RBT_remove_node_inner
                   (RBT_add_inner (node ll0 lr0 lnx0 lcap0 lpd0 liu0 lcol0
                     lid0) nid c) nid c).2) := by
              simp only [RBT_remove_node_inner]
              rw [if_neg hc, if_pos hlt]
            rw [heqR, irem]
            rw [propagate_id _ _ _ _ _ _ _ _ (isDB_false_of_noDB hnl)
              (isDB_false_of_noDB hnr)]
      · -- the key is in the right subtree
        have hmemr : c ∈ treeCaps r := by
          rw [treeCaps, List.mem_cons] at hmem
          rcases hmem with h | h
          · exact absurd h hc
          · rw [List.mem_append] at h
            rcases h with h | h
            · exfalso
              have := (treeCaps_bounded l lo (some cap) hbstl c h).2 cap rfl
              omega
            · exact h
        cases r with
        | leaf => simp [treeCaps] at hmemr
        | dbleaf => simp [noDB] at hnr
        | node rl0 rr0 rnx0 rcap0 rpd0 riu0 rcol0 rid0 =>
          obtain ⟨icol, ired, inodb, irem⟩ := ihr nid c (some cap) hi hnr
            hrr hbstr hmemr hclt hfreshr
          have heqA : RBT_add_inner (node l
              (node rl0 rr0 rnx0 rcap0 rpd0 riu0 rcol0 rid0) nx cap pd iu
              col id) nid c =
              RBT_eliminate_red_red (node l
                (RBT_add_inner (node rl0 rr0 rnx0 rcap0 rpd0 riu0 rcol0
                  rid0) nid c) nx cap pd iu col id) := by
            simp [RBT_add_inner, hc, hlt]
          have hid := eliminate_id l _ nx cap pd iu col id hrl ired
          rw [heqA, hid]
          refine ⟨rfl, ?_, ?_, ?_⟩
          · simp only [redOk, Bool.and_eq_true, decide_eq_true_eq]
            refine ⟨⟨?_, hrl⟩, ired⟩
            intro hcc
            refine ⟨(himp hcc).1, ?_⟩
            rw [isRed_eq_rootColor, icol, ← isRed_eq_rootColor]
            exact (himp hcc).2
          · simp [noDB, inodb, hnl, hcne]
          · have heqR : RBT_remove_node_inner (node l
                (RBT_add_inner (node rl0 rr0 rnx0 rcap0 rpd0 riu0 rcol0
                  rid0) nid c) nx cap pd iu col id) nid c =
                (RBT_propagate_double_blackness
                  (node l (RBT_remove_node_inner
                    (RBT_add_inner (node rl0 rr0 rnx0 rcap0 rpd0 riu0 rcol0
                      rid0) nid c) nid c).1 nx cap pd iu col id),
                 (RBT_remove_node_inner
                   (RBT_add_inner (node rl0 rr0 rnx0 rcap0 rpd0 riu0 rcol0
                     rid0) nid c) nid c).2) := by
              simp only [RBT_remove_node_inner]
              rw [if_neg hc, if_neg hlt]
            rw [heqR, irem]
            rw [propagate_id _ _ _ _ _ _ _ _ (isDB_false_of_noDB hnl)
              (isDB_false_of_noDB hnr)]


/-- Claim C4 (amended): the exact round trip holds on the bucket path —
when the inserted capacity is already a tree key (and fits the 30-bit
bitfield), `RBT_add` only prepends a bucket member, and the immediate
`RBT_remove_node` of the fresh node restores the prior tree byte-for-byte
(same keys, same bucket contents, same colors), handing back the node
fully nulled out.  For a capacity not already present the insertion can
rotate or recolor, which the removal does not undo, so the original
unrestricted statement is false (see the counterexample). -/
theorem claim_C4 (t : Tree) (nid c : Nat) (hwf : WF t)
    (hmem : c ∈ treeCaps t) (hclt : c < FIELD_MOD)
    (hfresh : nid ∉ idsL t) :
    RBT_remove_node (RBT_add t nid c) nid c =
      (t, some (node leaf leaf leaf c 0 false BLACK nid)) := by
  obtain ⟨⟨hn, hr, -⟩, h2, hbst, -, -⟩ := hwf
  cases t with
  | leaf => simp [treeCaps] at hmem
  | dbleaf => simp [noDB] at hn
  | node l r nx cap pd iu col id =>
    have hcolB : col = BLACK := by
      rcases h2 with h | h
      · cases h
      · simpa [rootColor] using h
    subst hcolB
    obtain ⟨icol, ired, inodb, irem⟩ := bucket_roundtrip_inner
      (node l r nx cap pd iu BLACK id) nid c none none hn hr hbst hmem hclt
      hfresh
    have hA : RBT_add (node l r nx cap pd iu BLACK id) nid c =
        RBT_add_inner (node l r nx cap pd iu BLACK id) nid c := by
      rw [RBT_add]
      exact setColor_self (by rw [icol]; rfl)
    rw [hA]
    have hr1 : (RBT_remove_node_inner
        (RBT_add_inner (node l r nx cap pd iu BLACK id) nid c) nid c).1 =
        node l r nx cap pd iu BLACK id := by rw [irem]
    have hr2 : (RBT_remove_node_inner
        (RBT_add_inner (node l r nx cap pd iu BLACK id) nid c) nid c).2 =
        some (node leaf leaf leaf c 0 false BLACK nid) := by rw [irem]
    rw [RBT_remove_node, hr1, hr2]

/-- Witness: the amended claim C4 on the three-node tree (10, 5, 15),
inserting a fresh node with the existing key 15 and removing it again. -/
theorem claim_C4_witness :
    (WF twoChildTree ∧ 15 ∈ treeCaps twoChildTree ∧ 15 < FIELD_MOD ∧
      7 ∉ idsL twoChildTree) ∧
    RBT_remove_node (RBT_add twoChildTree 7 15) 7 15 =
      (twoChildTree, some (node leaf leaf leaf 15 0 false BLACK 7)) :=
  ⟨⟨by unfold WF validSub; decide, by decide, by decide, by decide⟩,
    claim_C4 twoChildTree 7 15 (by unfold WF validSub; decide) (by decide)
      (by decide) (by decide)⟩

/-- On a double-black-free subtree whose left child is a node,
`RBT_find_swap` computes exactly the spec's successor detach: the subtree
with its leftmost node spliced out, the leftmost node itself, and the
address of the leftmost node's parent. -/
theorem find_swap_leftmost (l : Tree) : ∀ (r nx : Tree) (cap pd : Nat)
    (iu : Bool) (col : RBc) (id dflt : Nat), noDB l = true → l ≠ leaf →
    RBT_find_swap (node l r nx cap pd iu col id) =
      (removeLeftmost (node l r nx cap pd iu col id),
       leftmost (node l r nx cap pd iu col id),
       leftmostParentId dflt (node l r nx cap pd iu col id)) := by
  induction l with
  | leaf =>
    intro r nx cap pd iu col id dflt _ hne
    exact absurd rfl hne
  | dbleaf =>
    intro r nx cap pd iu col id dflt hn _
    simp [noDB] at hn
  | node ll lr lnx lcap lpd liu lcol lid ihll ihlr ihlnx =>
    intro r nx cap pd iu col id dflt hn _
    cases ll with
    | leaf => rfl
    | dbleaf => simp [noDB] at hn
    | node a b c d e f g h =>
      have hA : noDB (node a b c d e f g h) = true := by
        rw [noDB, Bool.and_eq_true, Bool.and_eq_true] at hn
        exact hn.1.2
      have hih := ihll lr lnx lcap lpd liu lcol lid id hA (by simp)
      have heq : RBT_find_swap
          (node (node (node a b c d e f g h) lr lnx lcap lpd liu lcol lid)
            r nx cap pd iu col id) =
          (node (RBT_find_swap
            (node (node a b c d e f g h) lr lnx lcap lpd liu lcol lid)).1
            r nx cap pd iu col id,
           (RBT_find_swap
            (node (node a b c d e f g h) lr lnx lcap lpd liu lcol lid)).2.1,
           (RBT_find_swap
            (node (node a b c d e f g h) lr lnx lcap lpd liu lcol lid)).2.2)
          := rfl
      rw [heq, hih]
      rfl

/-- The leftmost node of a double-black-free nonempty subtree is a node
whose left child is the empty sentinel. -/
theorem leftmost_shape (t : Tree) : noDB t = true → t ≠ leaf →
    ∃ sr snx scap spd siu scol sid,
      leftmost t = node leaf sr snx scap spd siu scol sid := by
  induction t with
  | leaf => intro _ hne; exact absurd rfl hne
  | dbleaf => intro hn _; simp [noDB] at hn
  | node l r nx cap pd iu col id ihl ihr ihnx =>
    intro hn _
    cases l with
    | leaf => exact ⟨r, nx, cap, pd, iu, col, id, rfl⟩
    | dbleaf => simp [noDB] at hn
    | node a b c d e f g h =>
      have hA : noDB (node a b c d e f g h) = true := by
        rw [noDB, Bool.and_eq_true, Bool.and_eq_true] at hn
        exact hn.1.2
      have := ihl hA (by simp)
      simpa [leftmost] using this


/-- Claim C6 (amended): when structural deletion removes a tree node with
two node children, the code follows the in-order-successor swap except in
one carve-out.  (i) If the left child is itself childless, the LEFT child
— the in-order predecessor — is spliced into the removed node's position,
inheriting its color and the right subtree; this deviates from the claim
(see the counterexample).  (ii) Otherwise, if the right child has no left
node, the right child — then itself the leftmost node of the right
subtree, i.e. the in-order successor — fills the position, inheriting the
removed node's color and left subtree, with the single/no-child
blackening applied at the hole (its own right child).  (iii) Otherwise
the successor is the leftmost node of the right subtree, tracked with its
parent: it inherits the removed node's color and both subtrees (the right
one with the successor spliced out of its original location), and the
deficiency is propagated up from that location back to the swapped-in
node by `RBT_propagate_double_blackness_prevswap` before the root-level
repair. -/
theorem claim_C6 (ll lr lnx : Tree) (lcap lpd : Nat) (liu : Bool)
    (lcol : RBc) (lid : Nat) (rl rr rnx : Tree) (rcap rpd : Nat)
    (riu : Bool) (rcol : RBc) (rid : Nat) (nx : Tree) (cap pd : Nat)
    (iu : Bool) (col : RBc) (id : Nat)
    (hn : noDB (node (node ll lr lnx lcap lpd liu lcol lid)
      (node rl rr rnx rcap rpd riu rcol rid) nx cap pd iu col id) = true) :
    (ll = leaf → lr = leaf →
      RBT_remove_empty_root (node (node ll lr lnx lcap lpd liu lcol lid)
          (node rl rr rnx rcap rpd riu rcol rid) nx cap pd iu col id) =
        (RBT_propagate_double_blackness
          (node (if lcol = BLACK then dbleaf else leaf)
            (node rl rr rnx rcap rpd riu rcol rid) lnx lcap lpd liu col lid),
         node leaf leaf nx cap pd iu col id)) ∧
    (¬(ll = leaf ∧ lr = leaf) → rl = leaf →
      leftmost (node rl rr rnx rcap rpd riu rcol rid) =
        node rl rr rnx rcap rpd riu rcol rid ∧
      RBT_remove_empty_root (node (node ll lr lnx lcap lpd liu lcol lid)
          (node rl rr rnx rcap rpd riu rcol rid) nx cap pd iu col id) =
        (RBT_propagate_double_blackness
          (node (node ll lr lnx lcap lpd liu lcol lid)
            (if rcol = BLACK then RBT_blacken_child rr else rr)
            rnx rcap rpd riu col rid),
         node leaf leaf nx cap pd iu col id)) ∧
    (¬(ll = leaf ∧ lr = leaf) → rl ≠ leaf →
      ∃ sr snx scap spd siu scol sid,
        leftmost (node rl rr rnx rcap rpd riu rcol rid) =
          node leaf sr snx scap spd siu scol sid ∧
        RBT_remove_empty_root (node (node ll lr lnx lcap lpd liu lcol lid)
            (node rl rr rnx rcap rpd riu rcol rid) nx cap pd iu col id) =
          (RBT_propagate_double_blackness
            (node (node ll lr lnx lcap lpd liu lcol lid)
              (RBT_propagate_double_blackness_prevswap
                (leftmostParentId 0 (node rl rr rnx rcap rpd riu rcol rid))
                (removeLeftmost (node rl rr rnx rcap rpd riu rcol rid)))
              snx scap spd siu col sid),
           node leaf leaf nx cap pd iu col id)) := by
  obtain ⟨-, hnl, hnr⟩ := noDB_node_elim hn
  refine ⟨?_, ?_, ?_⟩
  · intro h1 h2
    subst h1; subst h2
    simp [RBT_remove_empty_root]
  · intro hne hrl
    subst hrl
    exact ⟨rfl, by simp [RBT_remove_empty_root, hne]⟩
  · intro hne hrl
    cases rl with
    | leaf => exact absurd rfl hrl
    | dbleaf =>
      obtain ⟨-, hnrl, -⟩ := noDB_node_elim hnr
      simp [noDB] at hnrl
    | node a b c d e f g h =>
      obtain ⟨-, hnrl, -⟩ := noDB_node_elim hnr
      have hfs := find_swap_leftmost (node a b c d e f g h) rr rnx rcap rpd
        riu rcol rid 0 hnrl (by simp)
      obtain ⟨sr, snx, scap, spd, siu, scol, sid, hlm⟩ :=
        leftmost_shape (node (node a b c d e f g h) rr rnx rcap rpd riu
          rcol rid) hnr (by simp)
      refine ⟨sr, snx, scap, spd, siu, scol, sid, hlm, ?_⟩
      simp [RBT_remove_empty_root, hne, hfs, hlm]

/-- Witness: the amended claim C6, case (ii), on a concrete tree whose
root 10 has the node children 5 (with a child) and 15 (with no left
node): the right child 15 — the in-order successor — replaces the root,
keeping the root's color, and its RED right child 20 is blackened to fill
the hole. -/
theorem claim_C6_witness :
    (noDB (node (node (node leaf leaf leaf 3 0 false RED 4) leaf leaf 5 0
        false BLACK 2)
      (node leaf (node leaf leaf leaf 20 0 false RED 6) leaf 15 0 false
        BLACK 3) leaf 10 0 false BLACK 1) = true ∧
     ¬((node leaf leaf leaf 3 0 false RED 4 : Tree) = leaf ∧
        (leaf : Tree) = leaf)) ∧
    (leftmost (node leaf (node leaf leaf leaf 20 0 false RED 6) leaf 15 0
        false BLACK 3) =
      node leaf (node leaf leaf leaf 20 0 false RED 6) leaf 15 0 false
        BLACK 3 ∧
     RBT_remove_empty_root (node (node (node leaf leaf leaf 3 0 false RED
          4) leaf leaf 5 0 false BLACK 2)
        (node leaf (node leaf leaf leaf 20 0 false RED 6) leaf 15 0 false
          BLACK 3) leaf 10 0 false BLACK 1) =
       (RBT_propagate_double_blackness
         (node (node (node leaf leaf leaf 3 0 false RED 4) leaf leaf 5 0
            false BLACK 2)
           (if BLACK = BLACK then
             RBT_blacken_child (node leaf leaf leaf 20 0 false RED 6)
            else node leaf leaf leaf 20 0 false RED 6)
           leaf 15 0 false BLACK 3),
        node leaf leaf leaf 10 0 false BLACK 1)) :=
  ⟨⟨by decide, by decide⟩,
    (claim_C6 (node leaf leaf leaf 3 0 false RED 4) leaf leaf 5 0 false
      BLACK 2 leaf (node leaf leaf leaf 20 0 false RED 6) leaf 15 0 false
      BLACK 3 leaf 10 0 false BLACK 1 (by decide)).2.1 (by decide) rfl⟩

end RbtC
